import Mathlib

/-!
Shallow embedding of the OpenSankey layout engine (`SankeyLayout` in
`packages/core/src/layout/sankey.ts`) and the journey analyzer
(`packages/core/src/transforms/journey.ts`).

Modelling conventions:
* JavaScript numbers are embedded as rationals (`ℚ`); every division the
  code performs is guarded by a positivity test in the source, so the
  total division of `ℚ` agrees with the JS semantics on the guarded
  branches.  The `Infinity` sentinel used for the global scale is
  embedded as `Option ℚ` with `none` playing the role of `Infinity`.
* The mutable object graph is embedded as an arena: nodes and links live
  in lists, a link refers to its endpoints by node index, and a node's
  `sourceLinks` / `targetLinks` hold link indices.  Node identity (the
  `id` string used by the BFS visited set) is embedded as the node index;
  for graphs with distinct ids — an invariant of the data model — the two
  are interchangeable.
* JavaScript's stable `Array.prototype.sort` with a numeric comparator
  `(a, b) => key a - key b` is embedded as the stable insertion sort
  `sortBy` with the boolean relation `key a ≤ key b`; a stable sort for a
  total preorder is unique, so any stable sorting algorithm is the same
  function.
* The one place the engine can throw — `resolveCollisions` dereferencing
  `column[column.length - 1]` on an empty column — is embedded with
  `Option`: `none` models the TypeError.
-/

namespace Sankey

/-- A link record: `source`/`target` are node indices, `value` is the flow
carried, and `width`, `sy`, `ty` are the geometry fields computed by the
layout (thickness and vertical offsets at the two endpoints). -/
structure SLink where
  source : ℕ
  target : ℕ
  value : ℚ
  width : ℚ := 0
  sy : ℚ := 0
  ty : ℚ := 0
deriving Repr, DecidableEq, Inhabited

/-- A node record: `sourceLinks` / `targetLinks` are the link-index lists of
outgoing and incoming links, the remaining fields are computed by the
layout. -/
structure SNode where
  id : ℕ
  value : ℚ := 0
  depth : ℕ := 0
  x : ℚ := 0
  y : ℚ := 0
  width : ℚ := 0
  height : ℚ := 0
  sourceLinks : List ℕ := []
  targetLinks : List ℕ := []
deriving Repr, DecidableEq, Inhabited

/-- A graph: the node arena and the link arena. -/
structure SGraph where
  nodes : List SNode
  links : List SLink
deriving Repr, DecidableEq, Inhabited

/-- The configuration surface the engine consumes: canvas size, four-sided
padding, node render width, node padding, justify alignment flag and the
relaxation iteration count. -/
structure SConfig where
  width : ℚ
  height : ℚ
  padTop : ℚ
  padRight : ℚ
  padBottom : ℚ
  padLeft : ℚ
  nodeWidth : ℚ
  nodePadding : ℚ
  justifyAlign : Bool
  iterations : ℕ
deriving Repr, DecidableEq, Inhabited

/-- Insert one element into an already sorted list, before the first
element it compares `le` to (the insertion step of a stable sort). -/
def insertSorted (le : α → α → Bool) (x : α) : List α → List α
  | [] => [x]
  | y :: l => if le x y then x :: y :: l else y :: insertSorted le x l

/-- Stable sort by a boolean total preorder: the embedding of JavaScript's
stable `Array.prototype.sort`. -/
def sortBy (le : α → α → Bool) : List α → List α
  | [] => []
  | x :: l => insertSorted le x (sortBy le l)

/-- Node lookup in the arena (dereferencing a node object reference). -/
def nodeAt (g : SGraph) (i : ℕ) : SNode := g.nodes.getD i default

/-- Link lookup in the arena (dereferencing a link object reference). -/
def linkAt (g : SGraph) (l : ℕ) : SLink := g.links.getD l default

/-- In-place mutation of one node record. -/
def setNode (g : SGraph) (i : ℕ) (f : SNode → SNode) : SGraph :=
  { g with nodes := g.nodes.set i (f (g.nodes.getD i default)) }

/-- In-place mutation of one link record. -/
def setLink (g : SGraph) (l : ℕ) (f : SLink → SLink) : SGraph :=
  { g with links := g.links.set l (f (g.links.getD l default)) }

/-- Sum of the values of the links whose indices are listed (the
`reduce((s, l) => s + l.value, 0)` pattern). -/
def sumVals (g : SGraph) (ls : List ℕ) : ℚ :=
  (ls.map fun l => (linkAt g l).value).sum

/-- The maximum depth over all nodes, 0 for the empty list
(`Math.max(...nodes.map(n => n.depth), 0)`). -/
def maxDepth (g : SGraph) : ℕ :=
  (g.nodes.map fun n => n.depth).foldr max 0

/-- Group node indices by depth column, node order preserved inside each
column (`getColumns`). -/
def getColumns (g : SGraph) : List (List ℕ) :=
  (List.range (maxDepth g + 1)).map fun d =>
    (List.range g.nodes.length).filter fun i => (nodeAt g i).depth = d

/-- The node indices with no incoming links (the BFS sources). -/
def sourcesOf (g : SGraph) : List ℕ :=
  (List.range g.nodes.length).filter fun i => (nodeAt g i).targetLinks.isEmpty

/-- Assign one depth to every node (the circular-graph fallback). -/
def setAllDepth (g : SGraph) (d : ℕ) : SGraph :=
  { g with nodes := g.nodes.map fun n => { n with depth := d } }

/-- The targets a just-visited node pushes onto the next BFS frontier: the
targets of its outgoing links that are not yet visited. -/
def pushTargets (g : SGraph) (vis : List ℕ) (srcLinks : List ℕ) : List ℕ :=
  (srcLinks.map fun l => (linkAt g l).target).filter fun t => ¬ t ∈ vis

/-- Process one node popped from the BFS frontier at level `d`: skip it when
already visited, otherwise mark it visited, assign its depth, and push its
unvisited successors. -/
def bfsStepNode (d : ℕ) (st : SGraph × List ℕ × List ℕ) (idx : ℕ) :
    SGraph × List ℕ × List ℕ :=
  let g := st.1
  let vis := st.2.1
  let next := st.2.2
  if idx ∈ vis then st
  else
    let vis' := idx :: vis
    let g' := setNode g idx fun n => { n with depth := d }
    (g', vis', next ++ pushTargets g' vis' (nodeAt g idx).sourceLinks)

/-- Process one whole BFS level: fold `bfsStepNode` over the frontier,
collecting the next frontier. -/
def bfsLevel (g : SGraph) (vis : List ℕ) (current : List ℕ) (d : ℕ) :
    SGraph × List ℕ × List ℕ :=
  current.foldl (bfsStepNode d) (g, vis, [])

/-- The BFS `while (current.length > 0)` loop.  The fuel argument only
bounds the number of levels; `g.nodes.length + 2` levels always suffice
because every level either visits a fresh node, produces an empty next
frontier, or is the final empty-frontier check. -/
def bfsAux : ℕ → SGraph → List ℕ → List ℕ → ℕ → SGraph × List ℕ
  | 0, g, vis, _, _ => (g, vis)
  | fuel + 1, g, vis, current, d =>
    if current.isEmpty then (g, vis)
    else
      let st := bfsLevel g vis current d
      bfsAux fuel st.1 st.2.1 st.2.2 (d + 1)

/-- Reset every node the BFS never reached to depth 0 (disconnected
components). -/
def unvisitedFallback (g : SGraph) (vis : List ℕ) : SGraph :=
  { g with nodes := (g.nodes.enum).map fun p =>
      if p.1 ∈ vis then p.2 else { p.2 with depth := 0 } }

/-- For justify alignment, push every sink whose depth is below the
discovered maximum to that maximum. -/
def justifyAdjust (g : SGraph) : SGraph :=
  let maxD := maxDepth g
  { g with nodes := g.nodes.map fun n =>
      if n.sourceLinks.isEmpty ∧ n.depth < maxD then { n with depth := maxD } else n }

/-- `computeDepths`: BFS from the zero-inflow nodes; all-zero fallback when
no source exists (that branch returns before the justify adjustment). -/
def computeDepths (cfg : SConfig) (g : SGraph) : SGraph :=
  let srcs := sourcesOf g
  if srcs.isEmpty then setAllDepth g 0
  else
    let st := bfsAux (g.nodes.length + 2) g [] srcs 0
    let g₁ := unvisitedFallback st.1 st.2
    if cfg.justifyAlign then justifyAdjust g₁ else g₁

/-- `computeNodeValues`: node value = max(incoming sum, outgoing sum). -/
def computeNodeValues (g : SGraph) : SGraph :=
  { g with nodes := g.nodes.map fun n =>
      { n with value := max (sumVals g n.targetLinks) (sumVals g n.sourceLinks) } }

/-- `positionNodesX`: horizontal position by depth with a common step. -/
def positionNodesX (cfg : SConfig) (g : SGraph) : SGraph :=
  let innerWidth := cfg.width - cfg.padLeft - cfg.padRight - cfg.nodeWidth
  let maxD := maxDepth g
  let step := if 0 < maxD then innerWidth / (maxD : ℚ) else 0
  { g with nodes := g.nodes.map fun n =>
      { n with x := cfg.padLeft + (n.depth : ℚ) * step, width := cfg.nodeWidth } }

/-- Sum of the values of the nodes whose indices are listed. -/
def columnValue (g : SGraph) (col : List ℕ) : ℚ :=
  (col.map fun i => (nodeAt g i).value).sum

/-- The single global vertical scale: the minimum per-column candidate
`(innerHeight - max(0, (count-1)·nodePadding)) / totalValue` over columns
with positive total value; `none` stands for the `Infinity` sentinel and
is collapsed to 0 (`if (!isFinite(globalScale)) globalScale = 0`). -/
def globalScale (cfg : SConfig) (g : SGraph) : ℚ :=
  let innerHeight := cfg.height - cfg.padTop - cfg.padBottom
  let best := (getColumns g).foldl
    (fun (acc : Option ℚ) col =>
      let totalValue := columnValue g col
      let totalPadding := max 0 (((col.length : ℚ) - 1) * cfg.nodePadding)
      let availableHeight := innerHeight - totalPadding
      if 0 < totalValue then
        let scale := availableHeight / totalValue
        match acc with
        | none => some scale
        | some s => if scale < s then some scale else some s
      else acc)
    none
  best.getD 0

/-- One step of the stacking sweep: place node `i` at the running `y`,
give it `height = max(1, value · scale)`, and advance the running `y` past
it plus the node padding. -/
def stackStep (cfg : SConfig) (scale : ℚ) (st : SGraph × ℚ) (i : ℕ) : SGraph × ℚ :=
  let h := max 1 ((nodeAt st.1 i).value * scale)
  (setNode st.1 i (fun n => { n with y := st.2, height := h }),
    st.2 + h + cfg.nodePadding)

/-- Stack one column top to bottom: sort by value descending (stable), then
assign `y` cumulatively and `height = max(1, value · scale)`. -/
def stackColumn (cfg : SConfig) (scale : ℚ) (g : SGraph) (col : List ℕ) : SGraph :=
  let sorted := sortBy (fun i j => decide ((nodeAt g j).value ≤ (nodeAt g i).value)) col
  (sorted.foldl (stackStep cfg scale) (g, cfg.padTop)).1

/-- `initializeNodeY`: compute the global scale once, then stack every
column. -/
def initializeNodeY (cfg : SConfig) (g : SGraph) : SGraph :=
  let scale := globalScale cfg g
  (getColumns g).foldl (stackColumn cfg scale) g

/-- The vertical center of a node (`nodeCenter`). -/
def nodeCenter (g : SGraph) (i : ℕ) : ℚ :=
  (nodeAt g i).y + (nodeAt g i).height / 2

/-- The value-weighted average center of the neighbors on one side
(`weightedCenter`); falls back to the node's own center when the total
weight is not positive. -/
def weightedCenter (g : SGraph) (i : ℕ) (useTarget : Bool) : ℚ :=
  let ls := if useTarget then (nodeAt g i).targetLinks else (nodeAt g i).sourceLinks
  let sumWeightedY := (ls.map fun l =>
      let lk := linkAt g l
      nodeCenter g (if useTarget then lk.source else lk.target) * lk.value).sum
  let sumWeight := (ls.map fun l => (linkAt g l).value).sum
  if 0 < sumWeight then sumWeightedY / sumWeight else nodeCenter g i

/-- One relaxation pass over one column: every node with links on the chosen
side is moved toward the weighted neighbor center, scaled by the damping. -/
def relaxColumn (damping : ℚ) (useTarget : Bool) (g : SGraph) (col : List ℕ) : SGraph :=
  col.foldl
    (fun g i =>
      let ls := if useTarget then (nodeAt g i).targetLinks else (nodeAt g i).sourceLinks
      if ls.isEmpty then g
      else
        let delta := weightedCenter g i useTarget - nodeCenter g i
        setNode g i fun n => { n with y := n.y + delta * damping })
    g

/-- One step of the bottom-to-top sweep: compare the pair of column
neighbors at positions `i`, `i+1` of the sorted column and pull the upper
one (`a`) up just enough to clear the lower one (`b`). -/
def usStep (cfg : SConfig) (sorted : List ℕ) (g : SGraph) (i : ℕ) : SGraph :=
  let a := sorted.getD i 0
  let b := sorted.getD (i + 1) 0
  let ov := (nodeAt g a).y + (nodeAt g a).height + cfg.nodePadding - (nodeAt g b).y
  if 0 < ov then setNode g a (fun n => { n with y := n.y - ov }) else g

/-- The bottom-to-top sweep of `resolveCollisions`: pull each node up just
enough that it clears the node below it. -/
def upwardSweep (cfg : SConfig) (g : SGraph) (sorted : List ℕ) : SGraph :=
  ((List.range (sorted.length - 1)).reverse).foldl (usStep cfg sorted) g

/-- One step of the top-to-bottom sweep: push the node down to the running
minimum `y` when it sits above it, then advance the minimum past the node
plus padding. -/
def pdStep (cfg : SConfig) (st : SGraph × ℚ) (i : ℕ) : SGraph × ℚ :=
  let dy := st.2 - (nodeAt st.1 i).y
  let g' := if 0 < dy then setNode st.1 i (fun n => { n with y := n.y + dy }) else st.1
  (g', (nodeAt g' i).y + (nodeAt g' i).height + cfg.nodePadding)

/-- The top-to-bottom sweep of `resolveCollisions`: walk the sorted column
keeping a running minimum `y`, pushing each node down to it when it sits
above, and advancing the minimum past the node plus padding. -/
def pushDown (cfg : SConfig) (g : SGraph) (sorted : List ℕ) : SGraph :=
  (sorted.foldl (pdStep cfg) (g, cfg.padTop)).1

/-- `resolveCollisions` on one column: sort by `y`, sweep down forcing the
minimum gap, then, if the last node overflows the usable bottom, pull nodes
back up.  On an empty column the source dereferences
`column[column.length - 1]` (undefined) and throws; that is the `none`
case. -/
def resolveCollisions (cfg : SConfig) (g : SGraph) (col : List ℕ) :
    Option (SGraph × List ℕ) :=
  let sorted := sortBy (fun i j => decide ((nodeAt g i).y ≤ (nodeAt g j).y)) col
  let g₁ := pushDown cfg g sorted
  match sorted.getLast? with
  | none => none
  | some lastIdx =>
    let overflow := (nodeAt g₁ lastIdx).y + (nodeAt g₁ lastIdx).height -
      (cfg.height - cfg.padBottom)
    let g₂ :=
      if 0 < overflow then
        upwardSweep cfg (setNode g₁ lastIdx fun n => { n with y := n.y - overflow }) sorted
      else g₁
    some (g₂, sorted)

/-- Relax one column of the threaded state and resolve its collisions,
writing the reordered column back (`resolveCollisions(columns[c])` sorts the
column array in place). -/
def relaxResolveAt (cfg : SConfig) (damping : ℚ) (useTarget : Bool)
    (st : SGraph × List (List ℕ)) (c : ℕ) : Option (SGraph × List (List ℕ)) :=
  let col := st.2.getD c []
  let g' := relaxColumn damping useTarget st.1 col
  match resolveCollisions cfg g' col with
  | none => none
  | some (g'', col') => some (g'', st.2.set c col')

/-- The damping factor of iteration `i` out of `total`
(`alpha * (1 - i / this.config.iterations)` with `alpha = 1`). -/
def relaxDamping (total i : ℕ) : ℚ :=
  1 * (1 - (i : ℚ) / (total : ℚ))

/-- One full relaxation iteration: the forward pass over columns
`1 … L-1` driven by incoming links, then the backward pass over columns
`L-2 … 0` driven by outgoing links, resolving collisions after each
column. -/
def relaxIteration (cfg : SConfig) (total i : ℕ) (st : SGraph × List (List ℕ)) :
    Option (SGraph × List (List ℕ)) := do
  let damping := relaxDamping total i
  let l := st.2.length
  let st₁ ← ((List.range l).drop 1).foldlM (relaxResolveAt cfg damping true) st
  ((List.range (l - 1)).reverse).foldlM (relaxResolveAt cfg damping false) st₁

/-- The `for (let i = 0; i < iterations; i++)` loop, by recursion on the
remaining iteration count. -/
def relaxLoopAux (cfg : SConfig) (total : ℕ) :
    ℕ → ℕ → Option (SGraph × List (List ℕ)) → Option (SGraph × List (List ℕ))
  | _, 0, st => st
  | i, rem + 1, st => relaxLoopAux cfg total (i + 1) rem (st >>= relaxIteration cfg total i)

/-- `relaxNodePositions`: build the columns once, then run the configured
number of damped iterations. -/
def relaxNodePositions (cfg : SConfig) (g : SGraph) : Option SGraph :=
  (relaxLoopAux cfg cfg.iterations 0 cfg.iterations (some (g, getColumns g))).map Prod.fst

/-- The link-sorting phase of `computeLinkOffsets`: per node, sort outgoing
links by target `y` and incoming links by source `y` (stable). -/
def sortNodeLinks (g : SGraph) : SGraph :=
  (getColumns g).foldl
    (fun g col => col.foldl
      (fun g i => setNode g i fun n =>
        { n with
          sourceLinks := sortBy (fun a b =>
            decide ((nodeAt g (linkAt g a).target).y ≤ (nodeAt g (linkAt g b).target).y)) n.sourceLinks,
          targetLinks := sortBy (fun a b =>
            decide ((nodeAt g (linkAt g a).source).y ≤ (nodeAt g (linkAt g b).source).y)) n.targetLinks })
      g)
    g

/-- One step of the width/`sy` sweep along a node's outgoing links: the
link gets width `value / T × height` (0 when the total `T` is not
positive), `sy` is the running offset, which then advances by the width. -/
def widthStep (T : ℚ) (i : ℕ) (st : SGraph × ℚ) (l : ℕ) : SGraph × ℚ :=
  let w := if 0 < T then ((linkAt st.1 l).value / T) * (nodeAt st.1 i).height else 0
  (setLink st.1 l (fun lk => { lk with width := w, sy := st.2 }), st.2 + w)

/-- Process one node of the width/`sy` phase: compute its outgoing total
once, then sweep its outgoing links accumulating `sy` from 0. -/
def widthNodeStep (g : SGraph) (i : ℕ) : SGraph :=
  ((nodeAt g i).sourceLinks.foldl
    (widthStep (sumVals g (nodeAt g i).sourceLinks) i) (g, 0)).1

/-- The width/`sy` phase of `computeLinkOffsets`: per node, each outgoing
link gets width proportional to its value share of the node's height, and
`sy` accumulates from 0. -/
def setWidths (g : SGraph) : SGraph :=
  (List.range g.nodes.length).foldl widthNodeStep g

/-- One step of the `ty` sweep along a node's incoming links: the link's
`ty` is the running offset, which then advances by the link's width (fixed
earlier on the source side). -/
def tyStep (st : SGraph × ℚ) (l : ℕ) : SGraph × ℚ :=
  (setLink st.1 l (fun lk => { lk with ty := st.2 }), st.2 + (linkAt st.1 l).width)

/-- Process one node of the `ty` phase: sweep its incoming links
accumulating `ty` from 0. -/
def tyNodeStep (g : SGraph) (i : ℕ) : SGraph :=
  ((nodeAt g i).targetLinks.foldl tyStep (g, 0)).1

/-- The `ty` phase of `computeLinkOffsets`: per node, incoming offsets
accumulate the widths already fixed on the source side. -/
def setTys (g : SGraph) : SGraph :=
  (List.range g.nodes.length).foldl tyNodeStep g

/-- `computeLinkOffsets`: sort the per-node link lists, assign widths and
source offsets, then target offsets. -/
def computeLinkOffsets (g : SGraph) : SGraph :=
  setTys (setWidths (sortNodeLinks g))

/-- `compute`: the whole pipeline; the empty graph returns unchanged. -/
def compute (cfg : SConfig) (g : SGraph) : Option SGraph :=
  if g.nodes.isEmpty then some g
  else do
    let g₁ := computeDepths cfg g
    let g₂ := computeNodeValues g₁
    let g₃ := positionNodesX cfg g₂
    let g₄ := initializeNodeY cfg g₃
    let g₅ ← relaxNodePositions cfg g₄
    some (computeLinkOffsets g₅)

/-- The per-node record produced by `JourneyAnalyzer.analyze`. -/
structure JMetrics where
  nodeId : ℕ
  inflow : ℚ
  outflow : ℚ
  dropOff : ℚ
  dropOffRate : ℚ
  conversionRate : ℚ
  isSource : Bool
  isSink : Bool
deriving Repr, DecidableEq, Inhabited

/-- `JourneyAnalyzer.analyze`: per node inflow/outflow, drop-off (zeroed on
sources and sinks), drop-off and conversion rates, and source/sink flags. -/
def analyze (g : SGraph) : List JMetrics :=
  g.nodes.map fun n =>
    let inflow := sumVals g n.targetLinks
    let outflow := sumVals g n.sourceLinks
    let isSource := n.targetLinks.isEmpty
    let isSink := n.sourceLinks.isEmpty
    let dropOff := if isSource || isSink then 0 else inflow - outflow
    { nodeId := n.id
      inflow := inflow
      outflow := outflow
      dropOff := dropOff
      dropOffRate := if 0 < inflow ∧ ¬ isSource then dropOff / inflow else 0
      conversionRate :=
        if 0 < inflow ∧ ¬ isSource then outflow / inflow
        else if isSource then 1 else 0
      isSource := isSource
      isSink := isSink }

/-- Sum of the widths of the links whose indices are listed. -/
def sumWidths (g : SGraph) (ls : List ℕ) : ℚ :=
  (ls.map fun l => (linkAt g l).width).sum

/-- Well-formedness of a graph, as guaranteed by the upstream Transform
collaborator and the TypeScript types: node ids are distinct, every link's
endpoints are node indices in range, and each node's `sourceLinks`
(resp. `targetLinks`) lists exactly the links leaving (resp. entering) it,
without duplicates. -/
def WF (g : SGraph) : Prop :=
  (g.nodes.map fun n => n.id).Nodup ∧
  (∀ lk ∈ g.links, lk.source < g.nodes.length ∧ lk.target < g.nodes.length) ∧
  (∀ i ∈ List.range g.nodes.length,
    (nodeAt g i).sourceLinks.Nodup ∧ (nodeAt g i).targetLinks.Nodup ∧
    (∀ l ∈ (nodeAt g i).sourceLinks, l < g.links.length) ∧
    (∀ l ∈ (nodeAt g i).targetLinks, l < g.links.length) ∧
    (∀ l ∈ List.range g.links.length,
      (l ∈ (nodeAt g i).sourceLinks ↔ (linkAt g l).source = i) ∧
      (l ∈ (nodeAt g i).targetLinks ↔ (linkAt g l).target = i)))

/-- Two graphs agree on everything except the `y` coordinates of nodes:
the frame of the relaxation and collision-resolution stages. -/
def SameButY (g g' : SGraph) : Prop :=
  g'.links = g.links ∧ g'.nodes.length = g.nodes.length ∧
  ∀ i, nodeAt g' i = { nodeAt g i with y := (nodeAt g' i).y }

/-- Two graphs agree on everything except the `y` coordinates and heights
of nodes: the frame of the initial vertical placement. -/
def SameButYH (g g' : SGraph) : Prop :=
  g'.links = g.links ∧ g'.nodes.length = g.nodes.length ∧
  ∀ i, nodeAt g' i = { nodeAt g i with
    y := (nodeAt g' i).y, height := (nodeAt g' i).height }

/-- Two graphs agree on everything except that each node's link lists may
be reordered: the frame of the link-sorting stage. -/
def SameButLinkOrder (g g' : SGraph) : Prop :=
  g'.links = g.links ∧ g'.nodes.length = g.nodes.length ∧
  ∀ i, nodeAt g' i = { nodeAt g i with
        sourceLinks := (nodeAt g' i).sourceLinks,
        targetLinks := (nodeAt g' i).targetLinks } ∧
      (nodeAt g' i).sourceLinks.Perm (nodeAt g i).sourceLinks ∧
      (nodeAt g' i).targetLinks.Perm (nodeAt g i).targetLinks

/-- Two graphs agree on everything except the computed `width`/`sy`/`ty`
fields of links: the frame of the width and offset assignment stages. -/
def SameButLinkGeom (g g' : SGraph) : Prop :=
  g'.nodes = g.nodes ∧ g'.links.length = g.links.length ∧
  ∀ l, linkAt g' l = { linkAt g l with
        width := (linkAt g' l).width,
        sy := (linkAt g' l).sy,
        ty := (linkAt g' l).ty }

/-- Two graphs share the same layout-relevant shape: same node count, same
links up to the computed geometry fields, and per-node link lists equal up
to order.  The output of `compute` is shape-equal to its input. -/
def SameShape (g g' : SGraph) : Prop :=
  g'.nodes.length = g.nodes.length ∧ g'.links.length = g.links.length ∧
  (∀ l, (linkAt g' l).source = (linkAt g l).source ∧
    (linkAt g' l).target = (linkAt g l).target ∧
    (linkAt g' l).value = (linkAt g l).value) ∧
  ∀ i, (nodeAt g' i).id = (nodeAt g i).id ∧
    (nodeAt g' i).sourceLinks.Perm (nodeAt g i).sourceLinks ∧
    (nodeAt g' i).targetLinks.Perm (nodeAt g i).targetLinks

/-- The frame of the late layout stages: both graphs have the same node and
link counts, every node keeps its `id`, `depth`, `value`, `x`, `width` and
`height` (only `y` and the order of its link lists may differ), and every
link keeps its `source`, `target` and `value` (only the computed geometry
may differ). -/
def LayoutFrame (g g' : SGraph) : Prop :=
  g'.nodes.length = g.nodes.length ∧ g'.links.length = g.links.length ∧
  (∀ i, (nodeAt g' i).id = (nodeAt g i).id ∧
    (nodeAt g' i).depth = (nodeAt g i).depth ∧
    (nodeAt g' i).value = (nodeAt g i).value ∧
    (nodeAt g' i).x = (nodeAt g i).x ∧
    (nodeAt g' i).width = (nodeAt g i).width ∧
    (nodeAt g' i).height = (nodeAt g i).height ∧
    (nodeAt g' i).sourceLinks.Perm (nodeAt g i).sourceLinks ∧
    (nodeAt g' i).targetLinks.Perm (nodeAt g i).targetLinks) ∧
  ∀ l, (linkAt g' l).source = (linkAt g l).source ∧
    (linkAt g' l).target = (linkAt g l).target ∧
    (linkAt g' l).value = (linkAt g l).value

/-- The between-levels BFS invariant: every visited in-range node sits at a
depth below the current level, every assigned depth `e ≥ 1` has a visited
in-range witness at depth `e − 1` whose outgoing-link list is nonempty, and
when the current frontier is nonempty at level `d ≥ 1` such a witness also
exists at depth `d − 1`. -/
def BfsInv (g : SGraph) (vis current : List ℕ) (d : ℕ) : Prop :=
  (∀ m, m < g.nodes.length → m ∈ vis →
    (nodeAt g m).depth < d ∧
    (1 ≤ (nodeAt g m).depth → ∃ u, u < g.nodes.length ∧ u ∈ vis ∧
      (nodeAt g u).depth = (nodeAt g m).depth - 1 ∧
      ¬ (nodeAt g u).sourceLinks = [])) ∧
  (1 ≤ d → ¬ current = [] → ∃ u, u < g.nodes.length ∧ u ∈ vis ∧
    (nodeAt g u).depth = d - 1 ∧ ¬ (nodeAt g u).sourceLinks = [])

/-- The within-level BFS invariant, relative to the graph `g` and visited
set `vis` at the entry of the level and the level's depth `d`: node count
unchanged, the entry visited set is contained and untouched, every newly
visited in-range node carries depth `d`, and a nonempty collected `next`
frontier has a visited in-range pusher at depth `d` with a nonempty
outgoing-link list. -/
def BfsLevelInv (g : SGraph) (vis : List ℕ) (d : ℕ)
    (st : SGraph × List ℕ × List ℕ) : Prop :=
  st.1.nodes.length = g.nodes.length ∧
  (∀ u, u ∈ vis → u ∈ st.2.1) ∧
  (∀ u, u ∈ vis → nodeAt st.1 u = nodeAt g u) ∧
  (∀ m, m < g.nodes.length → m ∈ st.2.1 → m ∈ vis ∨ (nodeAt st.1 m).depth = d) ∧
  (¬ st.2.2 = [] → ∃ u, u < g.nodes.length ∧ u ∈ st.2.1 ∧
    (nodeAt st.1 u).depth = d ∧ ¬ (nodeAt st.1 u).sourceLinks = [])

/-- Nonemptiness of every stored column of a relaxation state: the property
that keeps `resolveCollisions` away from its empty-column crash. -/
def ColsNE (st : SGraph × List (List ℕ)) : Prop :=
  ∀ c, c < st.2.length → ¬ st.2.getD c [] = []

/-- The empty graph. -/
def gEmpty : SGraph :=
  { nodes := [], links := [] }

/-- Vertical separation of an ordered pair of nodes: the first node's
bottom plus the node padding stays above the second node's top. -/
def SepPair (cfg : SConfig) (g : SGraph) (a b : ℕ) : Prop :=
  (nodeAt g a).y + (nodeAt g a).height + cfg.nodePadding ≤ (nodeAt g b).y

/-- Adjacent separation of a column: walking the column list, each node's
bottom plus the node padding stays above the next node's top. -/
def ColSep (cfg : SConfig) (g : SGraph) (col : List ℕ) : Prop :=
  List.Chain' (SepPair cfg g) col

/-- The invariant threaded through the relaxation loop: the node count is
unchanged, the stored columns are permutations of the initial columns, and
every stored column is vertically separated in some order of its nodes. -/
def RelaxInv (cfg : SConfig) (n₀ : ℕ) (cols₀ : List (List ℕ))
    (st : SGraph × List (List ℕ)) : Prop :=
  st.1.nodes.length = n₀ ∧
  st.2.length = cols₀.length ∧
  (∀ c, (st.2.getD c []).Perm (cols₀.getD c [])) ∧
  (∀ c, ∃ l, l.Perm (st.2.getD c []) ∧ ColSep cfg st.1 l)

/-- Modelled from the spec: the global scale exactly as the specification
words it, `min over depth-columns with positive total value of
(innerHeight − (count−1) × nodePadding) / totalValue`, with no clamp of the
spacing term at 0 (the source applies `Math.max(0, ·)` to the spacing).
Kept for comparison against `globalScale`, the definition from the
source. -/
def specGlobalScale (cfg : SConfig) (g : SGraph) : ℚ :=
  let innerHeight := cfg.height - cfg.padTop - cfg.padBottom
  let best := (getColumns g).foldl
    (fun (acc : Option ℚ) col =>
      let totalValue := columnValue g col
      let totalPadding := ((col.length : ℚ) - 1) * cfg.nodePadding
      if 0 < totalValue then
        let scale := (innerHeight - totalPadding) / totalValue
        match acc with
        | none => some scale
        | some s => if scale < s then some scale else some s
      else acc)
    none
  best.getD 0

/-- A configuration with the documented defaults except that the relaxation
loop is off: used for concrete evaluations. -/
def cfgZeroIter : SConfig :=
  { width := 800, height := 500, padTop := 20, padRight := 120, padBottom := 20,
    padLeft := 20, nodeWidth := 18, nodePadding := 14, justifyAlign := true,
    iterations := 0 }

/-- The documented default configuration with two relaxation iterations:
used for concrete evaluations. -/
def cfgTwoIter : SConfig :=
  { cfgZeroIter with iterations := 2 }

/-- The configuration of the `specGlobalScale` comparison: negative node
padding, relaxation off. -/
def cfgNegPad : SConfig :=
  { cfgZeroIter with nodePadding := -40 }

/-- The two-link chain A→B (value 10), B→C (value 7) from the spec's
testable properties. -/
def gChain : SGraph :=
  { nodes := [{ id := 0, sourceLinks := [0], targetLinks := [] },
              { id := 1, sourceLinks := [1], targetLinks := [0] },
              { id := 2, sourceLinks := [], targetLinks := [1] }],
    links := [{ source := 0, target := 1, value := 10 },
              { source := 1, target := 2, value := 7 }] }

/-- A single link A→B (value 5): node A is a pure source. -/
def gPair : SGraph :=
  { nodes := [{ id := 0, sourceLinks := [0], targetLinks := [] },
              { id := 1, sourceLinks := [], targetLinks := [0] }],
    links := [{ source := 0, target := 1, value := 5 }] }

/-- The graph `compute cfgZeroIter gPair` returns: the fully positioned
pair graph, used as a concrete layout result. -/
def gPairOut : SGraph :=
  { nodes := [{ id := 0, value := 5, depth := 0, x := 20, y := 20, width := 18,
                height := 460, sourceLinks := [0], targetLinks := [] },
              { id := 1, value := 5, depth := 1, x := 662, y := 20, width := 18,
                height := 460, sourceLinks := [], targetLinks := [0] }],
    links := [{ source := 0, target := 1, value := 5, width := 460, sy := 0, ty := 0 }] }

/-- Two disjoint one-link chains A→C and B→D (both value 1): every column
holds two nodes. -/
def gTwoChains : SGraph :=
  { nodes := [{ id := 0, sourceLinks := [0], targetLinks := [] },
              { id := 1, sourceLinks := [1], targetLinks := [] },
              { id := 2, sourceLinks := [], targetLinks := [0] },
              { id := 3, sourceLinks := [], targetLinks := [1] }],
    links := [{ source := 0, target := 2, value := 1 },
              { source := 1, target := 3, value := 1 }] }

/-- The graph `compute cfgNegPad gTwoChains` returns: the fully positioned
two-chain graph under negative node padding. -/
def gTwoChainsOut : SGraph :=
  { nodes := [{ id := 0, value := 1, depth := 0, x := 20, y := 20, width := 18,
                height := 230, sourceLinks := [0], targetLinks := [] },
              { id := 1, value := 1, depth := 0, x := 20, y := 210, width := 18,
                height := 230, sourceLinks := [1], targetLinks := [] },
              { id := 2, value := 1, depth := 1, x := 662, y := 20, width := 18,
                height := 230, sourceLinks := [], targetLinks := [0] },
              { id := 3, value := 1, depth := 1, x := 662, y := 210, width := 18,
                height := 230, sourceLinks := [], targetLinks := [1] }],
    links := [{ source := 0, target := 2, value := 1, width := 230, sy := 0, ty := 0 },
              { source := 1, target := 3, value := 1, width := 230, sy := 0, ty := 0 }] }

/-- The graph `compute cfgZeroIter gTwoChains` returns: the fully positioned
two-chain graph under the default (nonnegative) node padding. -/
def gTwoChainsZOut : SGraph :=
  { nodes := [{ id := 0, value := 1, depth := 0, x := 20, y := 20, width := 18,
                height := 223, sourceLinks := [0], targetLinks := [] },
              { id := 1, value := 1, depth := 0, x := 20, y := 257, width := 18,
                height := 223, sourceLinks := [1], targetLinks := [] },
              { id := 2, value := 1, depth := 1, x := 662, y := 20, width := 18,
                height := 223, sourceLinks := [], targetLinks := [0] },
              { id := 3, value := 1, depth := 1, x := 662, y := 257, width := 18,
                height := 223, sourceLinks := [], targetLinks := [1] }],
    links := [{ source := 0, target := 2, value := 1, width := 223, sy := 0, ty := 0 },
              { source := 1, target := 3, value := 1, width := 223, sy := 0, ty := 0 }] }

/-- The two-node cycle A→B→A: no node has empty incoming links. -/
def gCycle : SGraph :=
  { nodes := [{ id := 0, sourceLinks := [0], targetLinks := [1] },
              { id := 1, sourceLinks := [1], targetLinks := [0] }],
    links := [{ source := 0, target := 1, value := 1 },
              { source := 1, target := 0, value := 1 }] }

/-- The graph `compute cfgZeroIter gChain` returns: the fully positioned
chain graph, used as a concrete layout result. -/
def gChainOut : SGraph :=
  { nodes := [{ id := 0, value := 10, depth := 0, x := 20, y := 20, width := 18,
                height := 460, sourceLinks := [0], targetLinks := [] },
              { id := 1, value := 10, depth := 1, x := 341, y := 20, width := 18,
                height := 460, sourceLinks := [1], targetLinks := [0] },
              { id := 2, value := 7, depth := 2, x := 662, y := 20, width := 18,
                height := 322, sourceLinks := [], targetLinks := [1] }],
    links := [{ source := 0, target := 1, value := 10, width := 460, sy := 0, ty := 0 },
              { source := 1, target := 2, value := 7, width := 460, sy := 0, ty := 0 }] }

/-- Relation between the two runs entering the relaxation stage: the graphs
share the same shape and every node carries identical `depth`, `value`, `x`,
`y`, `width` and `height`. -/
def RelaxSync (a b : SGraph) : Prop :=
  SameShape a b ∧
  ∀ m, (nodeAt b m).depth = (nodeAt a m).depth ∧
    (nodeAt b m).value = (nodeAt a m).value ∧
    (nodeAt b m).x = (nodeAt a m).x ∧
    (nodeAt b m).y = (nodeAt a m).y ∧
    (nodeAt b m).width = (nodeAt a m).width ∧
    (nodeAt b m).height = (nodeAt a m).height

/-! ### Lemmas about the stable sort -/

theorem insertSorted_perm (le : α → α → Bool) (x : α) (l : List α) :
    (insertSorted le x l).Perm (x :: l) := by
  induction l with
  | nil => simp [insertSorted]
  | cons y l ih =>
    rw [insertSorted]
    split
    · exact List.Perm.refl _
    · exact (ih.cons y).trans (List.Perm.swap x y l)

theorem sortBy_perm (le : α → α → Bool) (l : List α) : (sortBy le l).Perm l := by
  induction l with
  | nil => exact List.Perm.refl _
  | cons x l ih => exact (insertSorted_perm le x (sortBy le l)).trans (ih.cons x)

theorem sortBy_length (le : α → α → Bool) (l : List α) :
    (sortBy le l).length = l.length :=
  (sortBy_perm le l).length_eq

theorem sortBy_of_pairwise {le : α → α → Bool} {l : List α}
    (h : l.Pairwise fun a b => le a b = true) : sortBy le l = l := by
  induction l with
  | nil => rfl
  | cons x l ih =>
    rw [sortBy, ih (List.pairwise_cons.mp h).2]
    cases l with
    | nil => rfl
    | cons y l' =>
      rw [insertSorted, if_pos ((List.pairwise_cons.mp h).1 y (by simp))]

theorem pairwise_insertSorted {le : α → α → Bool}
    (total : ∀ a b, le a b = true ∨ le b a = true)
    (tr : ∀ a b c, le a b = true → le b c = true → le a c = true)
    {l : List α} (x : α) (h : l.Pairwise fun a b => le a b = true) :
    (insertSorted le x l).Pairwise fun a b => le a b = true := by
  induction l with
  | nil => simp [insertSorted]
  | cons y l ih =>
    rw [insertSorted]
    rcases List.pairwise_cons.mp h with ⟨hy, hl⟩
    split
    · rename le x y = true => hxy
      exact List.pairwise_cons.mpr
        ⟨by
          intro a ha
          rcases List.mem_cons.mp ha with rfl | ha
          · exact hxy
          · exact tr x y a hxy (hy a ha), h⟩
    · rename ¬ le x y = true => hxy
      have hyx : le y x = true := (total x y).resolve_left hxy
      refine List.pairwise_cons.mpr ⟨?_, ih hl⟩
      intro a ha
      have := (insertSorted_perm le x l).mem_iff.mp ha
      rcases List.mem_cons.mp this with rfl | ha'
      · exact hyx
      · exact hy a ha'

theorem pairwise_sortBy {le : α → α → Bool}
    (total : ∀ a b, le a b = true ∨ le b a = true)
    (tr : ∀ a b c, le a b = true → le b c = true → le a c = true)
    (l : List α) : (sortBy le l).Pairwise fun a b => le a b = true := by
  induction l with
  | nil => simp [sortBy]
  | cons x l ih => exact pairwise_insertSorted total tr x ih

theorem sortBy_idem {le : α → α → Bool}
    (total : ∀ a b, le a b = true ∨ le b a = true)
    (tr : ∀ a b c, le a b = true → le b c = true → le a c = true)
    (l : List α) : sortBy le (sortBy le l) = sortBy le l :=
  sortBy_of_pairwise (pairwise_sortBy total tr l)

/-! ### Lemmas about arena access -/

theorem links_setNode (g : SGraph) (i : ℕ) (f : SNode → SNode) :
    (setNode g i f).links = g.links := rfl

theorem length_nodes_setNode (g : SGraph) (i : ℕ) (f : SNode → SNode) :
    (setNode g i f).nodes.length = g.nodes.length := by
  simp [setNode]

theorem nodeAt_setNode_self {g : SGraph} {i : ℕ} (f : SNode → SNode)
    (h : i < g.nodes.length) : nodeAt (setNode g i f) i = f (nodeAt g i) := by
  simp [nodeAt, setNode, List.getD_eq_getElem?_getD, List.getElem?_set_self h,
    List.getElem?_eq_getElem h]

theorem nodeAt_setNode_ne {g : SGraph} {i j : ℕ} (f : SNode → SNode)
    (h : i ≠ j) : nodeAt (setNode g i f) j = nodeAt g j := by
  simp [nodeAt, setNode, List.getD_eq_getElem?_getD, List.getElem?_set_ne h]

theorem setNode_out_of_range {g : SGraph} {i : ℕ} (f : SNode → SNode)
    (h : ¬ i < g.nodes.length) : setNode g i f = g := by
  simp [setNode, List.set_eq_of_length_le (Nat.le_of_not_lt h)]

theorem linkAt_setNode (g : SGraph) (i : ℕ) (f : SNode → SNode) (l : ℕ) :
    linkAt (setNode g i f) l = linkAt g l := rfl

theorem nodes_setLink (g : SGraph) (l : ℕ) (f : SLink → SLink) :
    (setLink g l f).nodes = g.nodes := rfl

theorem length_links_setLink (g : SGraph) (l : ℕ) (f : SLink → SLink) :
    (setLink g l f).links.length = g.links.length := by
  simp [setLink]

theorem linkAt_setLink_self {g : SGraph} {l : ℕ} (f : SLink → SLink)
    (h : l < g.links.length) : linkAt (setLink g l f) l = f (linkAt g l) := by
  simp [linkAt, setLink, List.getD_eq_getElem?_getD, List.getElem?_set_self h,
    List.getElem?_eq_getElem h]

theorem linkAt_setLink_ne {g : SGraph} {l m : ℕ} (f : SLink → SLink)
    (h : l ≠ m) : linkAt (setLink g l f) m = linkAt g m := by
  simp [linkAt, setLink, List.getD_eq_getElem?_getD, List.getElem?_set_ne h]

theorem nodeAt_setLink (g : SGraph) (l : ℕ) (f : SLink → SLink) (i : ℕ) :
    nodeAt (setLink g l f) i = nodeAt g i := rfl

theorem nodeAt_mapNodes (g : SGraph) (f : SNode → SNode) (lk : List SLink) (i : ℕ) :
    nodeAt { nodes := g.nodes.map f, links := lk } i =
      if i < g.nodes.length then f (nodeAt g i) else default := by
  by_cases h : i < g.nodes.length
  · simp [nodeAt, List.getD_eq_getElem?_getD, List.getElem?_map,
      List.getElem?_eq_getElem h, h]
  · rw [if_neg h]
    have h' : g.nodes.length ≤ i := Nat.le_of_not_lt h
    simp [nodeAt, List.getD_eq_getElem?_getD, List.getElem?_map,
      List.getElem?_eq_none (by simpa using h')]

theorem nodeAt_out_of_range {g : SGraph} {i : ℕ} (h : ¬ i < g.nodes.length) :
    nodeAt g i = default := by
  simp [nodeAt, List.getD_eq_getElem?_getD,
    List.getElem?_eq_none (Nat.le_of_not_lt h)]

theorem linkAt_out_of_range {g : SGraph} {l : ℕ} (h : ¬ l < g.links.length) :
    linkAt g l = default := by
  simp [linkAt, List.getD_eq_getElem?_getD,
    List.getElem?_eq_none (Nat.le_of_not_lt h)]

theorem nodeAt_eq_get {g : SGraph} {i : ℕ} (h : i < g.nodes.length) :
    nodeAt g i = g.nodes.get ⟨i, h⟩ := by
  simp [nodeAt, List.getD_eq_getElem?_getD, List.getElem?_eq_getElem h]

attribute [local semireducible] Rat.add Rat.mul Rat.sub Rat.inv

/-! ### C9: drop-off of the journey analyzer -/

/-- C9 counterexample: in the one-link graph A→B (value 5), node A is a
pure source, so the analyzer reports `dropOff = 0` although
`inflow − outflow = 0 − 5 = −5`; the claimed unconditional identity
`dropOff = inflow − outflow` fails at node A. -/
theorem c9_counterexample :
    ((analyze gPair).getD 0 default).dropOff ≠
      sumVals gPair (nodeAt gPair 0).targetLinks -
        sumVals gPair (nodeAt gPair 0).sourceLinks := by
  have h : ((analyze gPair).getD 0 default).dropOff = 0 := by decide
  have h' : sumVals gPair (nodeAt gPair 0).targetLinks = 0 := by decide
  have h'' : sumVals gPair (nodeAt gPair 0).sourceLinks = 5 := by decide
  rw [h, h', h'']
  norm_num

/-- C9 (amended): for every node, the analyzer's `dropOff` equals
`inflow − outflow` when the node is neither a source (no incoming links)
nor a sink (no outgoing links), and equals 0 on sources and sinks. -/
theorem c9_dropOff (g : SGraph) (i : ℕ) (h : i < g.nodes.length) :
    ((analyze g).getD i default).dropOff =
      if (nodeAt g i).targetLinks.isEmpty || (nodeAt g i).sourceLinks.isEmpty then 0
      else sumVals g (nodeAt g i).targetLinks - sumVals g (nodeAt g i).sourceLinks := by
  rw [nodeAt_eq_get h]
  simp [analyze, List.getD_eq_getElem?_getD, List.getElem?_map,
    List.getElem?_eq_getElem h]

/-- C9 witness: the amended statement evaluated at node B of the pair
graph. -/
theorem c9_witness :
    ((analyze gPair).getD 1 default).dropOff =
      if (nodeAt gPair 1).targetLinks.isEmpty || (nodeAt gPair 1).sourceLinks.isEmpty then 0
      else sumVals gPair (nodeAt gPair 1).targetLinks -
        sumVals gPair (nodeAt gPair 1).sourceLinks :=
  c9_dropOff gPair 1 (by decide)

/-! ### C6: iteration count and damping of the relaxation loop -/

theorem relaxLoopAux_eq_foldl (cfg : SConfig) (total : ℕ) :
    ∀ (rem i : ℕ) (st : Option (SGraph × List (List ℕ))),
      relaxLoopAux cfg total i rem st =
        (List.range' i rem).foldl (fun acc j => acc >>= relaxIteration cfg total j) st := by
  intro rem
  induction rem with
  | zero => intro i st; rfl
  | succ rem ih =>
    intro i st
    rw [relaxLoopAux, ih (i + 1), List.range'_succ, List.foldl_cons]

/-- C6 counterexample: with 2 configured iterations, the damping applied in
the final executed iteration (index 1) is `1 - 1/2 = 1/2`, not 0 as the
claim states. -/
theorem c6_counterexample : relaxDamping 2 1 ≠ 0 := by
  rw [relaxDamping]
  norm_num

/-- C6 (amended): `relaxNodePositions` runs the relaxation body exactly
`iterations` times, in order `i = 0, …, iterations − 1`, iteration `i`
scaling barycenter movements by `relaxDamping = 1 − i/iterations`; the
damping of the final executed iteration (`i = iterations − 1`) is
`1/iterations`, which only approaches 0 for large iteration counts — the
damping reaching 0 would belong to the never-executed index
`i = iterations`. -/
theorem relax_iteration_count_and_damping (cfg : SConfig) (g : SGraph) :
    relaxNodePositions cfg g =
      ((List.range cfg.iterations).foldl
        (fun st i => st >>= relaxIteration cfg cfg.iterations i)
        (some (g, getColumns g))).map Prod.fst ∧
    (∀ total i : ℕ, relaxDamping total i = 1 - (i : ℚ) / (total : ℚ)) ∧
    ∀ total : ℕ, 1 ≤ total → relaxDamping total (total - 1) = 1 / (total : ℚ) := by
  refine ⟨?_, ?_, ?_⟩
  · rw [relaxNodePositions, relaxLoopAux_eq_foldl, List.range_eq_range']
  · intro total i
    rw [relaxDamping, one_mul]
  · intro total h
    have h0 : ((total : ℚ)) ≠ 0 := Nat.cast_ne_zero.mpr (by omega)
    rw [relaxDamping, one_mul, Nat.cast_sub h, Nat.cast_one]
    field_simp

/-- C6 witness: with 3 configured iterations the final executed iteration
(index 2) is damped by 1/3. -/
theorem c6_witness : relaxDamping 3 (3 - 1) = 1 / (3 : ℚ) :=
  (relax_iteration_count_and_damping cfgZeroIter gPair).2.2 3 (by decide)

/-! ### Generic preservation of a relation by folds -/

theorem foldl_rel {σ α : Type _} (R : SGraph → SGraph → Prop)
    (proj : σ → SGraph)
    (htrans : ∀ a b c, R a b → R b c → R a c)
    (F : σ → α → σ) (h : ∀ st a, R (proj st) (proj (F st a))) :
    ∀ (l : List α) (st : σ) (g₀ : SGraph), R g₀ (proj st) → R g₀ (proj (l.foldl F st)) := by
  intro l
  induction l with
  | nil => intro st g₀ h₀; exact h₀
  | cons a l ih =>
    intro st g₀ h₀
    exact ih (F st a) g₀ (htrans _ _ _ h₀ (h st a))

theorem foldlM_rel {σ α : Type _} (R : SGraph → SGraph → Prop)
    (proj : σ → SGraph)
    (htrans : ∀ a b c, R a b → R b c → R a c)
    (F : σ → α → Option σ)
    (h : ∀ st a st', F st a = some st' → R (proj st) (proj st')) :
    ∀ (l : List α) (st st' : σ), l.foldlM F st = some st' →
      ∀ g₀ : SGraph, R g₀ (proj st) → R g₀ (proj st') := by
  intro l
  induction l with
  | nil =>
    intro st st' hfold g₀ h₀
    cases hfold
    exact h₀
  | cons a l ih =>
    intro st st' hfold g₀ h₀
    rw [List.foldlM_cons] at hfold
    cases hst : F st a with
    | none => rw [hst] at hfold; cases hfold
    | some st₁ =>
      rw [hst] at hfold
      exact ih st₁ st' hfold g₀ (htrans _ _ _ h₀ (h st a st₁ hst))

/-! ### The frame relations are preorders -/

theorem sameButY_refl (g : SGraph) : SameButY g g :=
  ⟨rfl, rfl, fun _ => rfl⟩

theorem sameButY_trans {a b c : SGraph} (h₁ : SameButY a b) (h₂ : SameButY b c) :
    SameButY a c := by
  refine ⟨h₂.1.trans h₁.1, h₂.2.1.trans h₁.2.1, fun i => ?_⟩
  rw [h₂.2.2 i, h₁.2.2 i]

theorem sameButLinkOrder_refl (g : SGraph) : SameButLinkOrder g g :=
  ⟨rfl, rfl, fun _ => ⟨rfl, List.Perm.refl _, List.Perm.refl _⟩⟩

theorem sameButLinkOrder_trans {a b c : SGraph}
    (h₁ : SameButLinkOrder a b) (h₂ : SameButLinkOrder b c) : SameButLinkOrder a c := by
  refine ⟨h₂.1.trans h₁.1, h₂.2.1.trans h₁.2.1, fun i => ?_⟩
  obtain ⟨e₂, ps₂, pt₂⟩ := h₂.2.2 i
  obtain ⟨e₁, ps₁, pt₁⟩ := h₁.2.2 i
  refine ⟨?_, ?_, ?_⟩
  · rw [e₂, e₁]
  · exact ps₂.trans ps₁
  · exact pt₂.trans pt₁

theorem sameButLinkGeom_refl (g : SGraph) : SameButLinkGeom g g :=
  ⟨rfl, rfl, fun _ => rfl⟩

theorem sameButLinkGeom_trans {a b c : SGraph}
    (h₁ : SameButLinkGeom a b) (h₂ : SameButLinkGeom b c) : SameButLinkGeom a c := by
  refine ⟨h₂.1.trans h₁.1, h₂.2.1.trans h₁.2.1, fun l => ?_⟩
  rw [h₂.2.2 l, h₁.2.2 l]

theorem layoutFrame_of_sameButY {a b : SGraph} (h : SameButY a b) : LayoutFrame a b := by
  refine ⟨h.2.1, by rw [h.1], fun i => ?_,
    fun l => by rw [show linkAt b l = linkAt a l by rw [linkAt, linkAt, h.1]]; exact ⟨rfl, rfl, rfl⟩⟩
  rw [h.2.2 i]
  exact ⟨rfl, rfl, rfl, rfl, rfl, rfl, List.Perm.refl _, List.Perm.refl _⟩

theorem layoutFrame_of_sameButLinkOrder {a b : SGraph} (h : SameButLinkOrder a b) :
    LayoutFrame a b := by
  refine ⟨h.2.1, by rw [h.1], fun i => ?_,
    fun l => by rw [show linkAt b l = linkAt a l by rw [linkAt, linkAt, h.1]]; exact ⟨rfl, rfl, rfl⟩⟩
  obtain ⟨e, ps, pt⟩ := h.2.2 i
  rw [e]
  exact ⟨rfl, rfl, rfl, rfl, rfl, rfl, ps, pt⟩

theorem layoutFrame_of_sameButLinkGeom {a b : SGraph} (h : SameButLinkGeom a b) :
    LayoutFrame a b := by
  refine ⟨by rw [h.1], h.2.1, fun i => ?_, fun l => ?_⟩
  · rw [show nodeAt b i = nodeAt a i by rw [nodeAt, nodeAt, h.1]]
    exact ⟨rfl, rfl, rfl, rfl, rfl, rfl, List.Perm.refl _, List.Perm.refl _⟩
  · rw [h.2.2 l]
    exact ⟨rfl, rfl, rfl⟩

theorem layoutFrame_refl (g : SGraph) : LayoutFrame g g :=
  ⟨rfl, rfl, fun _ => ⟨rfl, rfl, rfl, rfl, rfl, rfl, List.Perm.refl _, List.Perm.refl _⟩,
    fun _ => ⟨rfl, rfl, rfl⟩⟩

theorem layoutFrame_trans {a b c : SGraph}
    (h₁ : LayoutFrame a b) (h₂ : LayoutFrame b c) : LayoutFrame a c := by
  obtain ⟨n₁, l₁, hn₁, hl₁⟩ := h₁
  obtain ⟨n₂, l₂, hn₂, hl₂⟩ := h₂
  refine ⟨n₂.trans n₁, l₂.trans l₁, fun i => ?_, fun l => ?_⟩
  · obtain ⟨a1, a2, a3, a4, a5, a6, a7, a8⟩ := hn₁ i
    obtain ⟨b1, b2, b3, b4, b5, b6, b7, b8⟩ := hn₂ i
    exact ⟨b1.trans a1, b2.trans a2, b3.trans a3, b4.trans a4, b5.trans a5,
      b6.trans a6, b7.trans a7, b8.trans a8⟩
  · obtain ⟨a1, a2, a3⟩ := hl₁ l
    obtain ⟨b1, b2, b3⟩ := hl₂ l
    exact ⟨b1.trans a1, b2.trans a2, b3.trans a3⟩

/-! ### The relaxation stage only moves `y` -/

theorem sameButY_setNode_y (g : SGraph) (i : ℕ) (yf : SNode → ℚ) :
    SameButY g (setNode g i fun n => { n with y := yf n }) := by
  by_cases hi : i < g.nodes.length
  · refine ⟨rfl, by simp [setNode], fun j => ?_⟩
    by_cases hj : j = i
    · subst hj
      rw [nodeAt_setNode_self _ hi]
    · rw [nodeAt_setNode_ne _ (fun h => hj h.symm)]
  · rw [setNode_out_of_range _ hi]
    exact sameButY_refl g

theorem sameButY_relaxColumn (damping : ℚ) (useTarget : Bool) (g : SGraph)
    (col : List ℕ) : SameButY g (relaxColumn damping useTarget g col) := by
  refine foldl_rel SameButY id (fun _ _ _ u v => sameButY_trans u v) _ ?_ col g g (sameButY_refl g)
  intro st a
  simp only [id]
  split <;> split
  · exact sameButY_refl st
  · exact sameButY_setNode_y st a _
  · exact sameButY_refl st
  · exact sameButY_setNode_y st a _

theorem sameButY_upwardSweep (cfg : SConfig) (g : SGraph) (sorted : List ℕ) :
    SameButY g (upwardSweep cfg g sorted) := by
  refine foldl_rel SameButY id (fun _ _ _ u v => sameButY_trans u v) _ ?_ _ g g (sameButY_refl g)
  intro st a
  simp only [id]
  rw [usStep]
  split
  · exact sameButY_setNode_y st _ _
  · exact sameButY_refl st

theorem sameButY_pushDown (cfg : SConfig) (g : SGraph) (sorted : List ℕ) :
    SameButY g (pushDown cfg g sorted) := by
  rw [pushDown]
  refine foldl_rel SameButY Prod.fst (fun _ _ _ u v => sameButY_trans u v) _ ?_ sorted
    (g, cfg.padTop) g (sameButY_refl g)
  intro st a
  rw [pdStep]
  dsimp only
  split
  · exact sameButY_setNode_y st.1 a _
  · exact sameButY_refl st.1

theorem resolveCollisions_some {cfg : SConfig} {g : SGraph} {col : List ℕ}
    {g' : SGraph} {col' : List ℕ}
    (h : resolveCollisions cfg g col = some (g', col')) :
    SameButY g g' ∧
      col' = sortBy (fun i j => decide ((nodeAt g i).y ≤ (nodeAt g j).y)) col := by
  rw [resolveCollisions] at h
  cases hlast : (sortBy (fun i j => decide ((nodeAt g i).y ≤ (nodeAt g j).y)) col).getLast? with
  | none =>
    rw [hlast] at h
    cases h
  | some lastIdx =>
    rw [hlast] at h
    rw [Option.some_inj, Prod.mk.injEq] at h
    obtain ⟨hg, hc⟩ := h
    refine ⟨?_, hc.symm⟩
    rw [← hg]
    have h₁ := sameButY_pushDown cfg g
      (sortBy (fun i j => decide ((nodeAt g i).y ≤ (nodeAt g j).y)) col)
    split
    · exact sameButY_trans h₁ (sameButY_trans (sameButY_setNode_y _ lastIdx _)
        (sameButY_upwardSweep cfg _ _))
    · exact h₁

theorem resolveCollisions_none_iff {cfg : SConfig} {g : SGraph} {col : List ℕ} :
    resolveCollisions cfg g col = none ↔ col = [] := by
  rw [resolveCollisions]
  cases hlast : (sortBy (fun i j => decide ((nodeAt g i).y ≤ (nodeAt g j).y)) col).getLast? with
  | none =>
    have h0 := List.getLast?_eq_none_iff.mp hlast
    have hlen := sortBy_length (fun i j => decide ((nodeAt g i).y ≤ (nodeAt g j).y)) col
    rw [h0] at hlen
    have hcol : col = [] := List.length_eq_zero.mp hlen.symm
    simp [hcol]
  | some lastIdx =>
    constructor
    · intro h
      cases h
    · intro h
      subst h
      simp [sortBy] at hlast

theorem relaxResolveAt_some {cfg : SConfig} {damping : ℚ} {useTarget : Bool}
    {st st' : SGraph × List (List ℕ)} {c : ℕ}
    (h : relaxResolveAt cfg damping useTarget st c = some st') :
    SameButY st.1 st'.1 := by
  rw [relaxResolveAt] at h
  cases hres : resolveCollisions cfg (relaxColumn damping useTarget st.1 (st.2.getD c []))
      (st.2.getD c []) with
  | none => rw [hres] at h; cases h
  | some p =>
    rw [hres] at h
    obtain ⟨g'', col'⟩ := p
    simp only [Option.some_inj] at h
    have h₁ := sameButY_relaxColumn damping useTarget st.1 (st.2.getD c [])
    have h₂ := (resolveCollisions_some hres).1
    have : st'.1 = g'' := by rw [← h]
    rw [this]
    exact sameButY_trans h₁ h₂

theorem relaxIteration_some {cfg : SConfig} {total i : ℕ}
    {st st' : SGraph × List (List ℕ)}
    (h : relaxIteration cfg total i st = some st') : SameButY st.1 st'.1 := by
  rw [relaxIteration] at h
  simp only [bind, Option.bind_eq_bind] at h
  cases h₁ : ((List.range st.2.length).drop 1).foldlM
      (relaxResolveAt cfg (relaxDamping total i) true) st with
  | none => rw [h₁] at h; cases h
  | some st₁ =>
    rw [h₁] at h
    replace h : ((List.range (st.2.length - 1)).reverse).foldlM
        (relaxResolveAt cfg (relaxDamping total i) false) st₁ = some st' := h
    have ha : SameButY st.1 st₁.1 :=
      foldlM_rel SameButY Prod.fst (fun _ _ _ u v => sameButY_trans u v) _
        (fun s a s' hs => relaxResolveAt_some hs) _ st st₁ h₁ st.1 (sameButY_refl st.1)
    have hb : SameButY st₁.1 st'.1 :=
      foldlM_rel SameButY Prod.fst (fun _ _ _ u v => sameButY_trans u v) _
        (fun s a s' hs => relaxResolveAt_some hs) _ st₁ st' h st₁.1 (sameButY_refl st₁.1)
    exact sameButY_trans ha hb

theorem relaxLoopAux_none (cfg : SConfig) (total : ℕ) :
    ∀ rem i : ℕ, relaxLoopAux cfg total i rem none = none := by
  intro rem
  induction rem with
  | zero => intro i; rfl
  | succ rem ih =>
    intro i
    rw [relaxLoopAux]
    exact ih (i + 1)

theorem relaxLoopAux_some {cfg : SConfig} {total : ℕ} :
    ∀ {rem i : ℕ} {st st' : SGraph × List (List ℕ)},
      relaxLoopAux cfg total i rem (some st) = some st' → SameButY st.1 st'.1 := by
  intro rem
  induction rem with
  | zero =>
    intro i st st' h
    cases h
    exact sameButY_refl _
  | succ rem ih =>
    intro i st st' h
    rw [relaxLoopAux,
      show (some st >>= relaxIteration cfg total i) = relaxIteration cfg total i st from rfl] at h
    cases h₁ : relaxIteration cfg total i st with
    | none =>
      rw [h₁, relaxLoopAux_none] at h
      cases h
    | some st₁ =>
      rw [h₁] at h
      exact sameButY_trans (relaxIteration_some h₁) (ih h)

theorem relaxNodePositions_some {cfg : SConfig} {g h : SGraph}
    (hr : relaxNodePositions cfg g = some h) : SameButY g h := by
  rw [relaxNodePositions] at hr
  cases hl : relaxLoopAux cfg cfg.iterations 0 cfg.iterations (some (g, getColumns g)) with
  | none => rw [hl] at hr; cases hr
  | some st' =>
    rw [hl] at hr
    have hr' : st'.1 = h := Option.some_inj.mp hr
    have hs := relaxLoopAux_some hl
    rw [hr'] at hs
    exact hs

/-! ### The offsets stage only reorders link lists and writes link geometry -/

theorem sameButLinkOrder_setNode_lists (g : SGraph) (i : ℕ)
    (sf tf : SNode → List ℕ)
    (hs : ∀ n, (sf n).Perm n.sourceLinks) (ht : ∀ n, (tf n).Perm n.targetLinks) :
    SameButLinkOrder g (setNode g i fun n =>
      { n with sourceLinks := sf n, targetLinks := tf n }) := by
  by_cases hi : i < g.nodes.length
  · refine ⟨rfl, by simp [setNode], fun j => ?_⟩
    by_cases hj : j = i
    · subst hj
      rw [nodeAt_setNode_self _ hi]
      exact ⟨rfl, hs _, ht _⟩
    · rw [nodeAt_setNode_ne _ (fun h => hj h.symm)]
      exact ⟨rfl, List.Perm.refl _, List.Perm.refl _⟩
  · rw [setNode_out_of_range _ hi]
    exact sameButLinkOrder_refl g

theorem sameButLinkOrder_sortNodeLinks (g : SGraph) :
    SameButLinkOrder g (sortNodeLinks g) := by
  rw [sortNodeLinks]
  refine foldl_rel SameButLinkOrder id (fun _ _ _ u v => sameButLinkOrder_trans u v) _ ?_ _ g g
    (sameButLinkOrder_refl g)
  intro st col
  simp only [id]
  refine foldl_rel SameButLinkOrder id (fun _ _ _ u v => sameButLinkOrder_trans u v) _ ?_ _ st st
    (sameButLinkOrder_refl st)
  intro st' i
  simp only [id]
  exact sameButLinkOrder_setNode_lists st' i _ _
    (fun n => sortBy_perm _ n.sourceLinks) (fun n => sortBy_perm _ n.targetLinks)

theorem sameButLinkGeom_setLink_geom (g : SGraph) (l : ℕ) (f : SLink → SLink)
    (hf : ∀ lk, f lk = { lk with width := (f lk).width, sy := (f lk).sy, ty := (f lk).ty }) :
    SameButLinkGeom g (setLink g l f) := by
  by_cases hl : l < g.links.length
  · refine ⟨rfl, by simp [setLink], fun m => ?_⟩
    by_cases hm : m = l
    · subst hm
      rw [linkAt_setLink_self _ hl]
      exact hf _
    · rw [linkAt_setLink_ne _ (fun h => hm h.symm)]
  · rw [show setLink g l f = g by
      simp [setLink, List.set_eq_of_length_le (Nat.le_of_not_lt hl)]]
    exact sameButLinkGeom_refl g

theorem sameButLinkGeom_widthStep (T : ℚ) (i : ℕ) (st : SGraph × ℚ) (l : ℕ) :
    SameButLinkGeom st.1 (widthStep T i st l).1 := by
  rw [widthStep]
  exact sameButLinkGeom_setLink_geom st.1 l _ (fun lk => rfl)

theorem sameButLinkGeom_setWidths (g : SGraph) : SameButLinkGeom g (setWidths g) := by
  rw [setWidths]
  refine foldl_rel SameButLinkGeom id (fun _ _ _ u v => sameButLinkGeom_trans u v) _ ?_ _ g g
    (sameButLinkGeom_refl g)
  intro st i
  simp only [id]
  rw [widthNodeStep]
  refine foldl_rel SameButLinkGeom Prod.fst (fun _ _ _ u v => sameButLinkGeom_trans u v) _ ?_ _ (st, 0) st
    (sameButLinkGeom_refl st)
  intro st' l
  exact sameButLinkGeom_widthStep _ i st' l

theorem sameButLinkGeom_tyStep (st : SGraph × ℚ) (l : ℕ) :
    SameButLinkGeom st.1 (tyStep st l).1 := by
  rw [tyStep]
  exact sameButLinkGeom_setLink_geom st.1 l _ (fun lk => rfl)

theorem sameButLinkGeom_setTys (g : SGraph) : SameButLinkGeom g (setTys g) := by
  rw [setTys]
  refine foldl_rel SameButLinkGeom id (fun _ _ _ u v => sameButLinkGeom_trans u v) _ ?_ _ g g
    (sameButLinkGeom_refl g)
  intro st i
  simp only [id]
  rw [tyNodeStep]
  refine foldl_rel SameButLinkGeom Prod.fst (fun _ _ _ u v => sameButLinkGeom_trans u v) _ ?_ _ (st, 0) st
    (sameButLinkGeom_refl st)
  intro st' l
  exact sameButLinkGeom_tyStep st' l

theorem layoutFrame_computeLinkOffsets (g : SGraph) :
    LayoutFrame g (computeLinkOffsets g) := by
  rw [computeLinkOffsets]
  refine layoutFrame_trans (layoutFrame_of_sameButLinkOrder (sameButLinkOrder_sortNodeLinks g))
    (layoutFrame_trans (layoutFrame_of_sameButLinkGeom (sameButLinkGeom_setWidths _))
      (layoutFrame_of_sameButLinkGeom (sameButLinkGeom_setTys _)))

/-! ### C10: the frame of the late layout stages -/

/-- C10: once the early stages have fixed `depth`, `value`, `x`, `width`
and `height`, the remaining stages — relaxation with collision resolution,
then link-offset computation — only change node `y` coordinates, the order
of the per-node link lists, and the link `width`/`sy`/`ty` fields: node
`id`, `depth`, `value`, `x`, `width`, `height` and link
`source`/`target`/`value` all retain their values. -/
theorem late_stages_frame (cfg : SConfig) (g h : SGraph)
    (hr : relaxNodePositions cfg g = some h) :
    LayoutFrame g (computeLinkOffsets h) :=
  layoutFrame_trans (layoutFrame_of_sameButY (relaxNodePositions_some hr))
    (layoutFrame_computeLinkOffsets h)

/-- C10 witness: the frame property at the pair graph with the relaxation
loop configured off. -/
theorem c10_witness : LayoutFrame gPair (computeLinkOffsets gPair) :=
  late_stages_frame cfgZeroIter gPair gPair (by decide)

/-! ### The initial vertical placement: heights from the global scale -/

theorem sameButYH_refl (g : SGraph) : SameButYH g g :=
  ⟨rfl, rfl, fun _ => rfl⟩

theorem sameButYH_trans {a b c : SGraph} (h₁ : SameButYH a b) (h₂ : SameButYH b c) :
    SameButYH a c := by
  refine ⟨h₂.1.trans h₁.1, h₂.2.1.trans h₁.2.1, fun i => ?_⟩
  rw [h₂.2.2 i, h₁.2.2 i]

theorem sameButYH_of_sameButY {a b : SGraph} (h : SameButY a b) : SameButYH a b := by
  refine ⟨h.1, h.2.1, fun i => ?_⟩
  rw [h.2.2 i]

theorem sameButYH_stackStep (cfg : SConfig) (scale : ℚ) (st : SGraph × ℚ) (i : ℕ) :
    SameButYH st.1 (stackStep cfg scale st i).1 := by
  rw [stackStep]
  by_cases hi : i < st.1.nodes.length
  · refine ⟨rfl, by simp [setNode], fun j => ?_⟩
    by_cases hj : j = i
    · subst hj
      rw [nodeAt_setNode_self _ hi]
    · rw [nodeAt_setNode_ne _ (fun h => hj h.symm)]
  · rw [setNode_out_of_range _ hi]
    exact sameButYH_refl st.1

theorem stackFold_not_mem (cfg : SConfig) (scale : ℚ) :
    ∀ (L : List ℕ) (st : SGraph × ℚ) (i : ℕ), ¬ i ∈ L →
      nodeAt ((L.foldl (stackStep cfg scale) st).1) i = nodeAt st.1 i := by
  intro L
  induction L with
  | nil => intro st i _; rfl
  | cons a L ih =>
    intro st i hmem
    rw [List.foldl_cons]
    rw [ih _ i (fun h => hmem (List.mem_cons_of_mem a h))]
    rw [stackStep]
    exact nodeAt_setNode_ne _ fun h => hmem (h ▸ List.mem_cons_self a L)

theorem stackFold_length (cfg : SConfig) (scale : ℚ) :
    ∀ (L : List ℕ) (st : SGraph × ℚ),
      ((L.foldl (stackStep cfg scale) st).1).nodes.length = st.1.nodes.length := by
  intro L
  induction L with
  | nil => intro st; rfl
  | cons a L ih =>
    intro st
    rw [List.foldl_cons, ih]
    rw [stackStep]
    exact length_nodes_setNode _ _ _

theorem stackFold_height (cfg : SConfig) (scale : ℚ) :
    ∀ (L : List ℕ) (st : SGraph × ℚ) (i : ℕ), i < st.1.nodes.length → i ∈ L →
      (nodeAt ((L.foldl (stackStep cfg scale) st).1) i).height =
        max 1 ((nodeAt st.1 i).value * scale) := by
  intro L
  induction L with
  | nil => intro st i _ hmem; cases hmem
  | cons a L ih =>
    intro st i hi hmem
    rw [List.foldl_cons]
    by_cases hL : i ∈ L
    · have hlen : i < ((stackStep cfg scale st a).1).nodes.length := by
        rw [stackStep, length_nodes_setNode]
        exact hi
      rw [ih _ i hlen hL]
      have hval := (sameButYH_stackStep cfg scale st a).2.2 i
      rw [hval]
    · have ha : i = a := by
        rcases List.mem_cons.mp hmem with h | h
        · exact h
        · exact absurd h hL
      subst ha
      rw [stackFold_not_mem cfg scale L _ i hL]
      rw [stackStep, nodeAt_setNode_self _ hi]

theorem sameButYH_stackColumn (cfg : SConfig) (scale : ℚ) (g : SGraph) (col : List ℕ) :
    SameButYH g (stackColumn cfg scale g col) := by
  rw [stackColumn]
  refine foldl_rel SameButYH Prod.fst (fun _ _ _ u v => sameButYH_trans u v) _ ?_ _
    (g, cfg.padTop) g (sameButYH_refl g)
  intro st a
  exact sameButYH_stackStep cfg scale st a

theorem stackColumn_not_mem (cfg : SConfig) (scale : ℚ) (g : SGraph) {col : List ℕ}
    {i : ℕ} (hmem : ¬ i ∈ col) : nodeAt (stackColumn cfg scale g col) i = nodeAt g i := by
  rw [stackColumn]
  refine stackFold_not_mem cfg scale _ _ i ?_
  intro h
  exact hmem ((sortBy_perm _ col).mem_iff.mp h)

theorem stackColumn_height (cfg : SConfig) (scale : ℚ) (g : SGraph) {col : List ℕ}
    {i : ℕ} (hi : i < g.nodes.length) (hmem : i ∈ col) :
    (nodeAt (stackColumn cfg scale g col) i).height =
      max 1 ((nodeAt g i).value * scale) := by
  rw [stackColumn]
  exact stackFold_height cfg scale _ _ i hi ((sortBy_perm _ col).mem_iff.mpr hmem)

theorem le_foldr_max (l : List ℕ) (x : ℕ) (h : x ∈ l) : x ≤ l.foldr max 0 := by
  induction l with
  | nil => cases h
  | cons a l ih =>
    rcases List.mem_cons.mp h with rfl | h
    · exact Nat.le_max_left _ _
    · exact Nat.le_trans (ih h) (Nat.le_max_right _ _)

theorem depth_le_maxDepth {g : SGraph} {i : ℕ} (hi : i < g.nodes.length) :
    (nodeAt g i).depth ≤ maxDepth g := by
  rw [maxDepth]
  refine le_foldr_max _ _ ?_
  rw [nodeAt_eq_get hi]
  exact List.mem_map_of_mem _ (List.get_mem _ _ _)

theorem mem_columnOf_iff (g : SGraph) (d i : ℕ) :
    i ∈ (List.range g.nodes.length).filter (fun j => (nodeAt g j).depth = d) ↔
      i < g.nodes.length ∧ (nodeAt g i).depth = d := by
  simp [List.mem_filter, List.mem_range]

theorem initializeNodeY_eq_foldRange (cfg : SConfig) (g : SGraph) :
    initializeNodeY cfg g = (List.range (maxDepth g + 1)).foldl
      (fun g' d => stackColumn cfg (globalScale cfg g) g'
        ((List.range g.nodes.length).filter fun j => (nodeAt g j).depth = d)) g := by
  rw [initializeNodeY, getColumns, List.foldl_map]

theorem stackRange_not_mem (cfg : SConfig) (scale : ℚ) (colFn : ℕ → List ℕ) :
    ∀ (L : List ℕ) (g : SGraph) (i : ℕ), (∀ d ∈ L, ¬ i ∈ colFn d) →
      nodeAt (L.foldl (fun g' d => stackColumn cfg scale g' (colFn d)) g) i = nodeAt g i := by
  intro L
  induction L with
  | nil => intro g i _; rfl
  | cons a L ih =>
    intro g i hmem
    rw [List.foldl_cons]
    rw [ih _ i fun d hd => hmem d (List.mem_cons_of_mem a hd)]
    exact stackColumn_not_mem cfg scale g (hmem a (List.mem_cons_self a L))

theorem stackRange_height (cfg : SConfig) (scale : ℚ) (g₀ : SGraph) :
    ∀ (L : List ℕ) (g : SGraph) (i : ℕ), i < g.nodes.length →
      g.nodes.length = g₀.nodes.length →
      (∀ j, (nodeAt g j).depth = (nodeAt g₀ j).depth) →
      (nodeAt g i).depth ∈ L → L.Nodup →
      (nodeAt ((L.foldl (fun g' d => stackColumn cfg scale g'
          ((List.range g₀.nodes.length).filter fun j => (nodeAt g₀ j).depth = d)) g)) i).height =
        max 1 ((nodeAt g i).value * scale) := by
  intro L
  induction L with
  | nil => intro g i _ _ _ hmem _; cases hmem
  | cons a L ih =>
    intro g i hi hlen hdep hmem hnd
    rw [List.foldl_cons]
    set col := (List.range g₀.nodes.length).filter
      (fun j => (nodeAt g₀ j).depth = a) with hcol
    have hYH := sameButYH_stackColumn cfg scale g col
    by_cases hL : (nodeAt g i).depth ∈ L
    · have hlen' : i < (stackColumn cfg scale g col).nodes.length := by
        rw [hYH.2.1]; exact hi
      have hstep := ih (stackColumn cfg scale g col) i hlen'
        (by rw [hYH.2.1]; exact hlen)
        (fun j => by rw [hYH.2.2 j]; exact hdep j)
        (by rw [hYH.2.2 i]; exact hL)
        (List.Nodup.of_cons hnd)
      rw [hstep, hYH.2.2 i]
    · have ha : (nodeAt g i).depth = a := by
        rcases List.mem_cons.mp hmem with h | h
        · exact h
        · exact absurd h hL
      have hmem' : i ∈ col := by
        rw [hcol, mem_columnOf_iff]
        exact ⟨by rw [← hlen]; exact hi, by rw [← hdep i]; exact ha⟩
      have huntouched := stackRange_not_mem cfg scale
        (fun d => (List.range g₀.nodes.length).filter fun j => (nodeAt g₀ j).depth = d)
        L (stackColumn cfg scale g col) i
        (by
          intro d hd hc
          rw [mem_columnOf_iff] at hc
          have : (nodeAt g i).depth = d := by rw [hdep i]; exact hc.2
          rw [this] at hL
          exact hL hd)
      rw [huntouched]
      exact stackColumn_height cfg scale g hi hmem'

theorem initializeNodeY_height (cfg : SConfig) (g : SGraph) (i : ℕ)
    (hi : i < g.nodes.length) :
    (nodeAt (initializeNodeY cfg g) i).height =
      max 1 ((nodeAt g i).value * globalScale cfg g) := by
  rw [initializeNodeY_eq_foldRange]
  exact stackRange_height cfg (globalScale cfg g) g (List.range (maxDepth g + 1)) g i hi rfl
    (fun _ => rfl)
    (List.mem_range.mpr (Nat.lt_succ_of_le (depth_le_maxDepth hi)))
    (List.nodup_range _)

theorem sameButYH_initializeNodeY (cfg : SConfig) (g : SGraph) :
    SameButYH g (initializeNodeY cfg g) := by
  rw [initializeNodeY]
  refine foldl_rel SameButYH id (fun _ _ _ u v => sameButYH_trans u v) _ ?_ _ g g
    (sameButYH_refl g)
  intro st col
  exact sameButYH_stackColumn cfg (globalScale cfg g) st col

theorem globalScale_congr {cfg : SConfig} {a b : SGraph}
    (hlen : b.nodes.length = a.nodes.length)
    (hdep : ∀ i, (nodeAt b i).depth = (nodeAt a i).depth)
    (hval : ∀ i, (nodeAt b i).value = (nodeAt a i).value) :
    globalScale cfg b = globalScale cfg a := by
  have hmap : b.nodes.map (fun n => n.depth) = a.nodes.map (fun n => n.depth) := by
    apply List.ext_getElem
    · simp [hlen]
    · intro k h1 h2
      rw [List.getElem_map, List.getElem_map]
      have hk : k < b.nodes.length := by simpa using h1
      have hk2 : k < a.nodes.length := by simpa using h2
      have hd := hdep k
      rw [nodeAt_eq_get hk, nodeAt_eq_get hk2] at hd
      simpa using hd
  have hmaxD : maxDepth b = maxDepth a := by rw [maxDepth, maxDepth, hmap]
  have hcols : getColumns b = getColumns a := by
    rw [getColumns, getColumns, hmaxD, hlen]
    apply List.map_congr_left
    intro d _
    apply List.filter_congr
    intro i _
    rw [hdep i]
  have hcolval : ∀ col, columnValue b col = columnValue a col := by
    intro col
    rw [columnValue, columnValue]
    apply congrArg
    apply List.map_congr_left
    intro i _
    rw [hval i]
  simp only [globalScale, hcols, hcolval]

theorem compute_decomp {cfg : SConfig} {g g' : SGraph} (hne : ¬ g.nodes.isEmpty = true)
    (h : compute cfg g = some g') :
    ∃ g₅, relaxNodePositions cfg
        (initializeNodeY cfg (positionNodesX cfg (computeNodeValues (computeDepths cfg g)))) =
          some g₅ ∧
      g' = computeLinkOffsets g₅ := by
  rw [compute, if_neg hne] at h
  replace h : (relaxNodePositions cfg
      (initializeNodeY cfg (positionNodesX cfg (computeNodeValues (computeDepths cfg g)))) >>=
        fun g₅ => some (computeLinkOffsets g₅)) = some g' := h
  cases hrel : relaxNodePositions cfg
      (initializeNodeY cfg (positionNodesX cfg (computeNodeValues (computeDepths cfg g)))) with
  | none =>
    rw [hrel] at h
    simp at h
  | some g₅ =>
    rw [hrel] at h
    replace h : some (computeLinkOffsets g₅) = some g' := h
    exact ⟨g₅, rfl, (Option.some_inj.mp h).symm⟩

/-! ### C5: node heights from the single clamped global scale -/

/-- C5 counterexample: under `nodePadding = −40`, the code clamps the
per-column spacing term `(count−1)·nodePadding` at 0 while the claimed
formula does not, so on two disjoint one-link chains the code gives
every node height `max(1, 1·230) = 230` while the claim's unclamped scale
is `min((460+40)/2) = 250`. -/
theorem c5_counterexample :
    compute cfgNegPad gTwoChains = some gTwoChainsOut ∧
    (nodeAt gTwoChainsOut 0).height ≠
      max 1 ((nodeAt gTwoChainsOut 0).value * specGlobalScale cfgNegPad gTwoChainsOut) := by
  constructor
  · decide
  · decide

/-- C5 (amended): with `innerHeight = height − padding.top − padding.bottom`,
let S be the minimum over depth-columns with positive total value of
`(innerHeight − max(0, (count−1)·nodePadding)) / totalValue` — the spacing
term clamped below at 0, exactly as the source computes it — or 0 if no
column has positive total value; then after `compute()` every node's height
equals `max(1, node.value × S)`, with the same single global S in every
column. -/
theorem c5_heights (cfg : SConfig) (g g' : SGraph) (hc : compute cfg g = some g')
    (i : ℕ) (hi : i < g'.nodes.length) :
    (nodeAt g' i).height = max 1 ((nodeAt g' i).value * globalScale cfg g') := by
  by_cases hne : g.nodes.isEmpty
  · rw [compute, if_pos hne] at hc
    have hg : g = g' := Option.some_inj.mp hc
    subst hg
    rw [List.isEmpty_iff] at hne
    rw [hne] at hi
    cases hi
  · obtain ⟨g₅, hrel, hg'⟩ := compute_decomp hne hc
    set g₃ := positionNodesX cfg (computeNodeValues (computeDepths cfg g)) with hg₃
    set g₄ := initializeNodeY cfg g₃ with hg₄
    have hYH : SameButYH g₃ g₄ := sameButYH_initializeNodeY cfg g₃
    have hLF : LayoutFrame g₄ g' := by
      rw [hg']
      exact layoutFrame_trans (layoutFrame_of_sameButY (relaxNodePositions_some hrel))
        (layoutFrame_computeLinkOffsets g₅)
    have hlen4 : g'.nodes.length = g₄.nodes.length := hLF.1
    have hlen3 : g₄.nodes.length = g₃.nodes.length := hYH.2.1
    have hi3 : i < g₃.nodes.length := by rw [← hlen3, ← hlen4]; exact hi
    have hh : (nodeAt g' i).height = (nodeAt g₄ i).height := (hLF.2.2.1 i).2.2.2.2.2.1
    have hinit := initializeNodeY_height cfg g₃ i hi3
    rw [← hg₄] at hinit
    have hv4 : (nodeAt g₄ i).value = (nodeAt g₃ i).value := by rw [hYH.2.2 i]
    have hv : (nodeAt g' i).value = (nodeAt g₃ i).value :=
      ((hLF.2.2.1 i).2.2.1).trans hv4
    have hscale : globalScale cfg g' = globalScale cfg g₃ := by
      refine globalScale_congr (hlen4.trans hlen3) (fun j => ?_) (fun j => ?_)
      · exact ((hLF.2.2.1 j).2.1).trans (by rw [hYH.2.2 j])
      · exact ((hLF.2.2.1 j).2.2.1).trans (by rw [hYH.2.2 j])
    rw [hh, hinit, hv, hscale]

/-- C5 witness: the amended height formula evaluated on the computed pair
graph. -/
theorem c5_witness :
    (nodeAt gPairOut 0).height =
      max 1 ((nodeAt gPairOut 0).value * globalScale cfgZeroIter gPairOut) :=
  c5_heights cfgZeroIter gPair gPairOut (by decide) 0 (by decide)

/-! ### C8: the fully cyclic fallback -/

theorem nodeAt_withMap (g : SGraph) (f : SNode → SNode) (i : ℕ) :
    nodeAt { g with nodes := g.nodes.map f } i =
      if i < g.nodes.length then f (nodeAt g i) else default :=
  nodeAt_mapNodes g f g.links i

theorem depth_withMap (g : SGraph) (f : SNode → SNode)
    (hf : ∀ n, (f n).depth = n.depth) (i : ℕ) :
    (nodeAt { g with nodes := g.nodes.map f } i).depth = (nodeAt g i).depth := by
  rw [nodeAt_withMap]
  split
  · exact hf _
  · rw [nodeAt_out_of_range (by assumption)]

theorem depth_computeNodeValues (g : SGraph) (i : ℕ) :
    (nodeAt (computeNodeValues g) i).depth = (nodeAt g i).depth := by
  rw [computeNodeValues]
  apply depth_withMap
  intro n
  rfl

theorem length_computeNodeValues (g : SGraph) :
    (computeNodeValues g).nodes.length = g.nodes.length := by
  simp [computeNodeValues]

theorem depth_positionNodesX (cfg : SConfig) (g : SGraph) (i : ℕ) :
    (nodeAt (positionNodesX cfg g) i).depth = (nodeAt g i).depth := by
  rw [positionNodesX]
  apply depth_withMap
  intro n
  rfl

theorem length_positionNodesX (cfg : SConfig) (g : SGraph) :
    (positionNodesX cfg g).nodes.length = g.nodes.length := by
  simp [positionNodesX]

theorem depth_setAllDepth (g : SGraph) (d : ℕ) {i : ℕ} (hi : i < g.nodes.length) :
    (nodeAt (setAllDepth g d) i).depth = d := by
  rw [setAllDepth, nodeAt_withMap, if_pos hi]

theorem length_setAllDepth (g : SGraph) (d : ℕ) :
    (setAllDepth g d).nodes.length = g.nodes.length := by
  simp [setAllDepth]

theorem sourcesOf_eq_nil {g : SGraph}
    (h : ∀ i, i < g.nodes.length → ¬ (nodeAt g i).targetLinks.isEmpty = true) :
    sourcesOf g = [] := by
  rw [sourcesOf]
  rw [List.filter_eq_nil_iff]
  intro i hi
  exact h i (List.mem_range.mp hi)

theorem foldr_max_zero (l : List ℕ) (h : ∀ x ∈ l, x = 0) : l.foldr max 0 = 0 := by
  induction l with
  | nil => rfl
  | cons a l ih =>
    rw [List.foldr_cons, h a (List.mem_cons_self a l), ih fun x hx => h x (List.mem_cons_of_mem a hx)]
    simp

theorem maxDepth_eq_zero {g : SGraph}
    (h : ∀ i, i < g.nodes.length → (nodeAt g i).depth = 0) : maxDepth g = 0 := by
  rw [maxDepth]
  apply foldr_max_zero
  intro x hx
  rw [List.mem_map] at hx
  obtain ⟨n, hn, rfl⟩ := hx
  obtain ⟨k, rfl⟩ := List.mem_iff_get.mp hn
  have hd := h k.1 k.isLt
  rw [nodeAt_eq_get k.isLt] at hd
  exact hd

theorem relaxIteration_single_column {cfg : SConfig} {total i : ℕ}
    {st : SGraph × List (List ℕ)} (h : st.2.length = 1) :
    relaxIteration cfg total i st = some st := by
  rw [relaxIteration, h]
  rfl

theorem relaxLoopAux_id {cfg : SConfig} {total : ℕ}
    {st : SGraph × List (List ℕ)} (h : st.2.length = 1) :
    ∀ rem i, relaxLoopAux cfg total i rem (some st) = some st := by
  intro rem
  induction rem with
  | zero => intro i; rfl
  | succ rem ih =>
    intro i
    rw [relaxLoopAux,
      show (some st >>= relaxIteration cfg total i) = relaxIteration cfg total i st from rfl,
      relaxIteration_single_column h]
    exact ih (i + 1)

theorem relaxNodePositions_single_column {cfg : SConfig} {g : SGraph}
    (h : maxDepth g = 0) : relaxNodePositions cfg g = some g := by
  have hlen : (getColumns g).length = 1 := by
    rw [getColumns, List.length_map, List.length_range, h]
  rw [relaxNodePositions, @relaxLoopAux_id cfg cfg.iterations (g, getColumns g) hlen]
  rfl

/-- C8: when the graph has at least one node and every node has at least
one incoming link (an entirely cyclic graph, so no BFS source exists),
`compute` completes and assigns depth 0 to every node. -/
theorem cyclic_graph_depth_zero (cfg : SConfig) (g : SGraph)
    (hne : g.nodes ≠ [])
    (hcyc : ∀ n ∈ g.nodes, n.targetLinks ≠ []) :
    ∃ g', compute cfg g = some g' ∧
      ∀ i, i < g'.nodes.length → (nodeAt g' i).depth = 0 := by
  have hne' : ¬ g.nodes.isEmpty = true := by
    rw [List.isEmpty_iff]
    exact hne
  have hsrc : sourcesOf g = [] := by
    apply sourcesOf_eq_nil
    intro i hi hempty
    refine hcyc (nodeAt g i) ?_ (List.isEmpty_iff.mp hempty)
    rw [nodeAt_eq_get hi]
    exact List.get_mem _ _ _
  have hdepths : computeDepths cfg g = setAllDepth g 0 := by
    rw [computeDepths, hsrc]
    rfl
  set g₃ := positionNodesX cfg (computeNodeValues (computeDepths cfg g)) with hg₃
  set g₄ := initializeNodeY cfg g₃ with hg₄
  have hd3 : ∀ i, i < g₃.nodes.length → (nodeAt g₃ i).depth = 0 := by
    intro i hi
    rw [hg₃, depth_positionNodesX, depth_computeNodeValues, hdepths]
    apply depth_setAllDepth
    rw [hg₃, length_positionNodesX, length_computeNodeValues, hdepths,
      length_setAllDepth] at hi
    exact hi
  have hYH : SameButYH g₃ g₄ := sameButYH_initializeNodeY cfg g₃
  have hd4 : ∀ i, i < g₄.nodes.length → (nodeAt g₄ i).depth = 0 := by
    intro i hi
    rw [hYH.2.2 i]
    exact hd3 i (by rw [← hYH.2.1]; exact hi)
  have hmax4 : maxDepth g₄ = 0 := maxDepth_eq_zero hd4
  have hrel : relaxNodePositions cfg g₄ = some g₄ := relaxNodePositions_single_column hmax4
  refine ⟨computeLinkOffsets g₄, ?_, ?_⟩
  · rw [compute, if_neg hne']
    show (relaxNodePositions cfg g₄ >>= fun g₅ => some (computeLinkOffsets g₅)) = _
    rw [hrel]
    rfl
  · intro i hi
    have hLF : LayoutFrame g₄ (computeLinkOffsets g₄) := layoutFrame_computeLinkOffsets g₄
    rw [(hLF.2.2.1 i).2.1]
    exact hd4 i (by rw [← hLF.1]; exact hi)

/-- C8 witness: the two-node cycle computes with both depths 0. -/
theorem c8_witness :
    ∃ g', compute cfgTwoIter gCycle = some g' ∧
      ∀ i, i < g'.nodes.length → (nodeAt g' i).depth = 0 :=
  cyclic_graph_depth_zero cfgTwoIter gCycle (by decide)
    (by decide)

/-! ### Shape preservation across the whole pipeline -/

theorem sameShape_refl (g : SGraph) : SameShape g g :=
  ⟨rfl, rfl, fun _ => ⟨rfl, rfl, rfl⟩, fun _ => ⟨rfl, List.Perm.refl _, List.Perm.refl _⟩⟩

theorem sameShape_trans {a b c : SGraph} (h₁ : SameShape a b) (h₂ : SameShape b c) :
    SameShape a c := by
  obtain ⟨n₁, l₁, hl₁, hn₁⟩ := h₁
  obtain ⟨n₂, l₂, hl₂, hn₂⟩ := h₂
  refine ⟨n₂.trans n₁, l₂.trans l₁, fun l => ?_, fun i => ?_⟩
  · obtain ⟨a1, a2, a3⟩ := hl₁ l
    obtain ⟨b1, b2, b3⟩ := hl₂ l
    exact ⟨b1.trans a1, b2.trans a2, b3.trans a3⟩
  · obtain ⟨a1, a2, a3⟩ := hn₁ i
    obtain ⟨b1, b2, b3⟩ := hn₂ i
    exact ⟨b1.trans a1, b2.trans a2, b3.trans a3⟩

theorem sameShape_of_layoutFrame {a b : SGraph} (h : LayoutFrame a b) : SameShape a b :=
  ⟨h.1, h.2.1, fun l => h.2.2.2 l,
    fun i => ⟨(h.2.2.1 i).1, (h.2.2.1 i).2.2.2.2.2.2.1, (h.2.2.1 i).2.2.2.2.2.2.2⟩⟩

theorem sameShape_of_sameButYH {a b : SGraph} (h : SameButYH a b) : SameShape a b := by
  refine ⟨h.2.1, by rw [h.1], fun l => ?_, fun i => ?_⟩
  · rw [show linkAt b l = linkAt a l by rw [linkAt, linkAt, h.1]]
    exact ⟨rfl, rfl, rfl⟩
  · rw [h.2.2 i]
    exact ⟨rfl, List.Perm.refl _, List.Perm.refl _⟩

theorem sameShape_withMap (g : SGraph) (f : SNode → SNode)
    (hid : ∀ n, (f n).id = n.id)
    (hsrc : ∀ n, (f n).sourceLinks = n.sourceLinks)
    (htgt : ∀ n, (f n).targetLinks = n.targetLinks) :
    SameShape g { g with nodes := g.nodes.map f } := by
  refine ⟨by simp, rfl, fun l => ⟨rfl, rfl, rfl⟩, fun i => ?_⟩
  rw [nodeAt_withMap]
  split
  · rw [hid, hsrc, htgt]
    exact ⟨rfl, List.Perm.refl _, List.Perm.refl _⟩
  · rw [nodeAt_out_of_range (by assumption)]
    exact ⟨rfl, List.Perm.refl _, List.Perm.refl _⟩

theorem sameShape_setNode_keep (g : SGraph) (i : ℕ) (f : SNode → SNode)
    (hid : ∀ n, (f n).id = n.id)
    (hsrc : ∀ n, (f n).sourceLinks = n.sourceLinks)
    (htgt : ∀ n, (f n).targetLinks = n.targetLinks) :
    SameShape g (setNode g i f) := by
  by_cases hi : i < g.nodes.length
  · refine ⟨by simp [setNode], rfl, fun l => ⟨rfl, rfl, rfl⟩, fun j => ?_⟩
    by_cases hj : j = i
    · subst hj
      rw [nodeAt_setNode_self _ hi, hid, hsrc, htgt]
      exact ⟨rfl, List.Perm.refl _, List.Perm.refl _⟩
    · rw [nodeAt_setNode_ne _ (fun h => hj h.symm)]
      exact ⟨rfl, List.Perm.refl _, List.Perm.refl _⟩
  · rw [setNode_out_of_range _ hi]
    exact sameShape_refl g

theorem sameShape_bfsLevel (g : SGraph) (vis current : List ℕ) (d : ℕ) :
    SameShape g (bfsLevel g vis current d).1 := by
  rw [bfsLevel]
  refine foldl_rel SameShape Prod.fst (fun _ _ _ u v => sameShape_trans u v) _ ?_ current
    (g, vis, []) g (sameShape_refl g)
  intro st a
  rw [bfsStepNode]
  dsimp only
  split
  · exact sameShape_refl st.1
  · exact sameShape_setNode_keep st.1 a _ (fun _ => rfl) (fun _ => rfl) (fun _ => rfl)

theorem sameShape_bfsAux :
    ∀ (fuel : ℕ) (g : SGraph) (vis current : List ℕ) (d : ℕ),
      SameShape g (bfsAux fuel g vis current d).1 := by
  intro fuel
  induction fuel with
  | zero => intro g vis current d; exact sameShape_refl g
  | succ fuel ih =>
    intro g vis current d
    rw [bfsAux]
    split
    · exact sameShape_refl g
    · exact sameShape_trans (sameShape_bfsLevel g vis current d) (ih _ _ _ _)

theorem nodeAt_unvisitedFallback (g : SGraph) (vis : List ℕ) (i : ℕ) :
    nodeAt (unvisitedFallback g vis) i =
      if i < g.nodes.length then
        (if i ∈ vis then nodeAt g i else { nodeAt g i with depth := 0 })
      else default := by
  by_cases hi : i < g.nodes.length
  · rw [if_pos hi]
    have h1 : (g.nodes.enum.map fun p =>
        if p.1 ∈ vis then p.2 else { p.2 with depth := 0 })[i]? =
        some (if i ∈ vis then g.nodes.get ⟨i, hi⟩
          else { g.nodes.get ⟨i, hi⟩ with depth := 0 }) := by
      rw [List.getElem?_map, List.getElem?_enum, List.getElem?_eq_getElem hi]
      rfl
    rw [show nodeAt (unvisitedFallback g vis) i =
      ((g.nodes.enum.map fun p => if p.1 ∈ vis then p.2
        else { p.2 with depth := 0 }).getD i default) from rfl]
    rw [List.getD_eq_getElem?_getD, h1]
    rw [nodeAt_eq_get hi]
    rfl
  · rw [if_neg hi]
    have hlen : (unvisitedFallback g vis).nodes.length = g.nodes.length := by
      simp [unvisitedFallback]
    exact nodeAt_out_of_range (by rw [hlen]; exact hi)

theorem sameShape_unvisitedFallback (g : SGraph) (vis : List ℕ) :
    SameShape g (unvisitedFallback g vis) := by
  refine ⟨by simp [unvisitedFallback], rfl, fun l => ⟨rfl, rfl, rfl⟩, fun i => ?_⟩
  rw [nodeAt_unvisitedFallback]
  split
  · split
    · exact ⟨rfl, List.Perm.refl _, List.Perm.refl _⟩
    · exact ⟨rfl, List.Perm.refl _, List.Perm.refl _⟩
  · rw [nodeAt_out_of_range (by assumption)]
    exact ⟨rfl, List.Perm.refl _, List.Perm.refl _⟩

theorem sameShape_computeDepths (cfg : SConfig) (g : SGraph) :
    SameShape g (computeDepths cfg g) := by
  rw [computeDepths]
  dsimp only
  split
  · rw [setAllDepth]
    exact sameShape_withMap g _ (fun _ => rfl) (fun _ => rfl) (fun _ => rfl)
  · have h₁ := sameShape_bfsAux (g.nodes.length + 2) g [] (sourcesOf g) 0
    have h₂ := sameShape_unvisitedFallback
      (bfsAux (g.nodes.length + 2) g [] (sourcesOf g) 0).1
      (bfsAux (g.nodes.length + 2) g [] (sourcesOf g) 0).2
    have h₁₂ := sameShape_trans h₁ h₂
    split
    · refine sameShape_trans h₁₂ ?_
      rw [justifyAdjust]
      refine sameShape_withMap _ _ (fun n => ?_) (fun n => ?_) (fun n => ?_) <;>
        (split <;> rfl)
    · exact h₁₂

theorem sameShape_computeNodeValues (g : SGraph) :
    SameShape g (computeNodeValues g) := by
  rw [computeNodeValues]
  exact sameShape_withMap g _ (fun _ => rfl) (fun _ => rfl) (fun _ => rfl)

theorem sameShape_positionNodesX (cfg : SConfig) (g : SGraph) :
    SameShape g (positionNodesX cfg g) := by
  rw [positionNodesX]
  exact sameShape_withMap g _ (fun _ => rfl) (fun _ => rfl) (fun _ => rfl)

theorem wf_of_sameShape {a b : SGraph} (hwf : WF a) (h : SameShape a b) : WF b := by
  obtain ⟨hids, hlinks, hnodes⟩ := hwf
  obtain ⟨hlen, hllen, hl, hn⟩ := h
  refine ⟨?_, ?_, ?_⟩
  · have hmap : b.nodes.map (fun n => n.id) = a.nodes.map (fun n => n.id) := by
      apply List.ext_getElem
      · simp [hlen]
      · intro k h1 h2
        rw [List.getElem_map, List.getElem_map]
        have hk : k < b.nodes.length := by simpa using h1
        have hk2 : k < a.nodes.length := by simpa using h2
        have hd := (hn k).1
        rw [nodeAt_eq_get hk, nodeAt_eq_get hk2] at hd
        simpa using hd
    rw [hmap]
    exact hids
  · intro lk hmem
    obtain ⟨l, rfl⟩ := List.mem_iff_get.mp hmem
    have hlt : l.1 < a.links.length := by rw [← hllen]; exact l.isLt
    have h1 : b.links.get l = linkAt b l.1 := by
      rw [linkAt, List.getD_eq_getElem?_getD, List.getElem?_eq_getElem l.isLt]
      rfl
    rw [h1]
    have hsrc := (hl l.1).1
    have htgt := (hl l.1).2.1
    have horig := hlinks (linkAt a l.1) (by
      rw [linkAt, List.getD_eq_getElem?_getD, List.getElem?_eq_getElem hlt]
      exact List.getElem_mem _)
    rw [hsrc, htgt, hlen]
    exact horig
  · intro i hi
    have hi' : i ∈ List.range a.nodes.length := by
      rw [List.mem_range] at hi ⊢
      rw [← hlen]
      exact hi
    obtain ⟨hnd₁, hnd₂, hb₁, hb₂, hiff⟩ := hnodes i hi'
    obtain ⟨_, hps, hpt⟩ := hn i
    refine ⟨hps.symm.nodup hnd₁, hpt.symm.nodup hnd₂, ?_, ?_, ?_⟩
    · intro l hl'
      rw [hllen]
      exact hb₁ l (hps.mem_iff.mp hl')
    · intro l hl'
      rw [hllen]
      exact hb₂ l (hpt.mem_iff.mp hl')
    · intro l hlr
      have hlr' : l ∈ List.range a.links.length := by
        rw [List.mem_range] at hlr ⊢
        rw [← hllen]
        exact hlr
      constructor
      · rw [hps.mem_iff, (hiff l hlr').1, (hl l).1]
      · rw [hpt.mem_iff, (hiff l hlr').2, (hl l).2.1]

/-! ### Pointwise characterization of the width and offset sweeps -/

theorem setLink_out_of_range {g : SGraph} {l : ℕ} (f : SLink → SLink)
    (h : ¬ l < g.links.length) : setLink g l f = g := by
  simp [setLink, List.set_eq_of_length_le (Nat.le_of_not_lt h)]

theorem nodeAt_congr_nodes {a b : SGraph} (h : a.nodes = b.nodes) (i : ℕ) :
    nodeAt a i = nodeAt b i := by
  rw [nodeAt, nodeAt, h]

theorem linkAt_setLink_keep {g : SGraph} {l : ℕ} (f : SLink → SLink)
    (pr : SLink → ℚ) (hf : ∀ lk, pr (f lk) = pr lk) (m : ℕ) :
    pr (linkAt (setLink g l f) m) = pr (linkAt g m) := by
  by_cases hlt : l < g.links.length
  · by_cases hm : m = l
    · subst hm
      rw [linkAt_setLink_self _ hlt, hf]
    · rw [linkAt_setLink_ne _ (fun h => hm h.symm)]
  · rw [setLink_out_of_range _ hlt]

theorem widthFold_nodes (T : ℚ) (i : ℕ) :
    ∀ (L : List ℕ) (st : SGraph × ℚ), ((L.foldl (widthStep T i) st).1).nodes = st.1.nodes := by
  intro L
  induction L with
  | nil => intro st; rfl
  | cons a L ih =>
    intro st
    rw [List.foldl_cons, ih]
    rfl

theorem widthFold_links_length (T : ℚ) (i : ℕ) :
    ∀ (L : List ℕ) (st : SGraph × ℚ),
      ((L.foldl (widthStep T i) st).1).links.length = st.1.links.length := by
  intro L
  induction L with
  | nil => intro st; rfl
  | cons a L ih =>
    intro st
    rw [List.foldl_cons, ih, widthStep]
    exact length_links_setLink _ _ _

theorem widthFold_value (T : ℚ) (i : ℕ) :
    ∀ (L : List ℕ) (st : SGraph × ℚ) (m : ℕ),
      (linkAt ((L.foldl (widthStep T i) st).1) m).value = (linkAt st.1 m).value := by
  intro L
  induction L with
  | nil => intro st m; rfl
  | cons a L ih =>
    intro st m
    rw [List.foldl_cons, ih, widthStep]
    dsimp only
    apply linkAt_setLink_keep
    intro lk
    rfl

theorem widthFold_not_mem (T : ℚ) (i : ℕ) :
    ∀ (L : List ℕ) (st : SGraph × ℚ) (m : ℕ), ¬ m ∈ L →
      linkAt ((L.foldl (widthStep T i) st).1) m = linkAt st.1 m := by
  intro L
  induction L with
  | nil => intro st m _; rfl
  | cons a L ih =>
    intro st m hm
    rw [List.foldl_cons, ih _ m (fun h => hm (List.mem_cons_of_mem a h)), widthStep]
    exact linkAt_setLink_ne _ fun h => hm (h ▸ List.mem_cons_self a L)

theorem widthFold_spec (T : ℚ) (i : ℕ) :
    ∀ (L : List ℕ) (st : SGraph × ℚ), L.Nodup → (∀ l ∈ L, l < st.1.links.length) →
      ∀ (k : ℕ) (hk : k < L.length),
        linkAt ((L.foldl (widthStep T i) st).1) (L.get ⟨k, hk⟩) =
          { linkAt st.1 (L.get ⟨k, hk⟩) with
            width := (if 0 < T then
              (linkAt st.1 (L.get ⟨k, hk⟩)).value / T * (nodeAt st.1 i).height else 0),
            sy := st.2 + ((L.take k).map (fun m => if 0 < T then
              (linkAt st.1 m).value / T * (nodeAt st.1 i).height else 0)).sum } := by
  intro L
  induction L with
  | nil => intro st _ _ k hk; cases hk
  | cons a L ih =>
    intro st hnd hb k hk
    rw [List.foldl_cons]
    have halt : a < st.1.links.length := hb a (List.mem_cons_self a L)
    have hstep : linkAt (widthStep T i st a).1 a =
        { linkAt st.1 a with
          width := (if 0 < T then (linkAt st.1 a).value / T * (nodeAt st.1 i).height else 0),
          sy := st.2 } := by
      rw [widthStep]
      exact linkAt_setLink_self _ halt
    have hne : ∀ m, m ≠ a → linkAt (widthStep T i st a).1 m = linkAt st.1 m := by
      intro m hm
      rw [widthStep]
      exact linkAt_setLink_ne _ fun h => hm h.symm
    have hnodes : (widthStep T i st a).1.nodes = st.1.nodes := rfl
    have hsnd : (widthStep T i st a).2 =
        st.2 + (if 0 < T then (linkAt st.1 a).value / T * (nodeAt st.1 i).height else 0) := rfl
    cases k with
    | zero =>
      have hanotL : ¬ a ∈ L := (List.nodup_cons.mp hnd).1
      rw [show (a :: L).get ⟨0, hk⟩ = a from rfl]
      rw [widthFold_not_mem T i L _ a hanotL, hstep]
      simp
    | succ k' =>
      have hk' : k' < L.length := Nat.lt_of_succ_lt_succ hk
      have hget : (a :: L).get ⟨k' + 1, hk⟩ = L.get ⟨k', hk'⟩ := rfl
      rw [hget]
      have hbl : ∀ l ∈ L, l < (widthStep T i st a).1.links.length := by
        intro l hl
        rw [widthStep, length_links_setLink]
        exact hb l (List.mem_cons_of_mem a hl)
      have hihk := ih (widthStep T i st a) (List.nodup_cons.mp hnd).2 hbl k' hk'
      rw [hihk]
      have hmemL : L.get ⟨k', hk'⟩ ∈ L := List.get_mem _ _ _
      have hganotA : L.get ⟨k', hk'⟩ ≠ a := by
        intro h
        exact (List.nodup_cons.mp hnd).1 (h ▸ hmemL)
      rw [hne _ hganotA]
      have hheight : (nodeAt (widthStep T i st a).1 i).height = (nodeAt st.1 i).height := by
        rw [nodeAt_congr_nodes hnodes]
      have hmap : (L.take k').map (fun m => if 0 < T then
          (linkAt (widthStep T i st a).1 m).value / T *
            (nodeAt (widthStep T i st a).1 i).height else 0) =
          (L.take k').map (fun m => if 0 < T then
            (linkAt st.1 m).value / T * (nodeAt st.1 i).height else 0) := by
        apply List.map_congr_left
        intro m hm
        have hmL : m ∈ L := List.take_subset k' L hm
        have hmne : m ≠ a := by
          intro h
          exact (List.nodup_cons.mp hnd).1 (h ▸ hmL)
        rw [hne m hmne, hheight]
      have hwidth : (if 0 < T then
          (linkAt st.1 (L.get ⟨k', hk'⟩)).value / T *
            (nodeAt (widthStep T i st a).1 i).height else 0) =
          (if 0 < T then (linkAt st.1 (L.get ⟨k', hk'⟩)).value / T *
            (nodeAt st.1 i).height else 0) := by
        rw [hheight]
      rw [hwidth, hmap, hsnd]
      have htake : (a :: L).take (k' + 1) = a :: L.take k' := rfl
      rw [htake, List.map_cons, List.sum_cons, add_assoc]

theorem tyFold_nodes :
    ∀ (L : List ℕ) (st : SGraph × ℚ), ((L.foldl tyStep st).1).nodes = st.1.nodes := by
  intro L
  induction L with
  | nil => intro st; rfl
  | cons a L ih =>
    intro st
    rw [List.foldl_cons, ih]
    rfl

theorem tyFold_links_length :
    ∀ (L : List ℕ) (st : SGraph × ℚ),
      ((L.foldl tyStep st).1).links.length = st.1.links.length := by
  intro L
  induction L with
  | nil => intro st; rfl
  | cons a L ih =>
    intro st
    rw [List.foldl_cons, ih, tyStep]
    exact length_links_setLink _ _ _

theorem tyFold_keep (pr : SLink → ℚ) (hpr : ∀ lk t, pr { lk with ty := t } = pr lk) :
    ∀ (L : List ℕ) (st : SGraph × ℚ) (m : ℕ),
      pr (linkAt ((L.foldl tyStep st).1) m) = pr (linkAt st.1 m) := by
  intro L
  induction L with
  | nil => intro st m; rfl
  | cons a L ih =>
    intro st m
    rw [List.foldl_cons, ih, tyStep]
    dsimp only
    apply linkAt_setLink_keep
    intro lk
    exact hpr lk st.2

theorem tyFold_not_mem :
    ∀ (L : List ℕ) (st : SGraph × ℚ) (m : ℕ), ¬ m ∈ L →
      linkAt ((L.foldl tyStep st).1) m = linkAt st.1 m := by
  intro L
  induction L with
  | nil => intro st m _; rfl
  | cons a L ih =>
    intro st m hm
    rw [List.foldl_cons, ih _ m (fun h => hm (List.mem_cons_of_mem a h)), tyStep]
    exact linkAt_setLink_ne _ fun h => hm (h ▸ List.mem_cons_self a L)

theorem tyFold_spec :
    ∀ (L : List ℕ) (st : SGraph × ℚ), L.Nodup → (∀ l ∈ L, l < st.1.links.length) →
      ∀ (k : ℕ) (hk : k < L.length),
        linkAt ((L.foldl tyStep st).1) (L.get ⟨k, hk⟩) =
          { linkAt st.1 (L.get ⟨k, hk⟩) with
            ty := st.2 + ((L.take k).map (fun m => (linkAt st.1 m).width)).sum } := by
  intro L
  induction L with
  | nil => intro st _ _ k hk; cases hk
  | cons a L ih =>
    intro st hnd hb k hk
    rw [List.foldl_cons]
    have halt : a < st.1.links.length := hb a (List.mem_cons_self a L)
    have hstep : linkAt (tyStep st a).1 a = { linkAt st.1 a with ty := st.2 } := by
      rw [tyStep]
      exact linkAt_setLink_self _ halt
    have hne : ∀ m, m ≠ a → linkAt (tyStep st a).1 m = linkAt st.1 m := by
      intro m hm
      rw [tyStep]
      exact linkAt_setLink_ne _ fun h => hm h.symm
    have hsnd : (tyStep st a).2 = st.2 + (linkAt st.1 a).width := rfl
    cases k with
    | zero =>
      have hanotL : ¬ a ∈ L := (List.nodup_cons.mp hnd).1
      rw [show (a :: L).get ⟨0, hk⟩ = a from rfl]
      rw [tyFold_not_mem L _ a hanotL, hstep]
      simp
    | succ k' =>
      have hk' : k' < L.length := Nat.lt_of_succ_lt_succ hk
      rw [show (a :: L).get ⟨k' + 1, hk⟩ = L.get ⟨k', hk'⟩ from rfl]
      have hbl : ∀ l ∈ L, l < (tyStep st a).1.links.length := by
        intro l hl
        rw [tyStep, length_links_setLink]
        exact hb l (List.mem_cons_of_mem a hl)
      rw [ih (tyStep st a) (List.nodup_cons.mp hnd).2 hbl k' hk']
      have hmemL : L.get ⟨k', hk'⟩ ∈ L := List.get_mem _ _ _
      have hganotA : L.get ⟨k', hk'⟩ ≠ a := by
        intro h
        exact (List.nodup_cons.mp hnd).1 (h ▸ hmemL)
      rw [hne _ hganotA]
      have hmap : (L.take k').map (fun m => (linkAt (tyStep st a).1 m).width) =
          (L.take k').map (fun m => (linkAt st.1 m).width) := by
        apply List.map_congr_left
        intro m hm
        have hmL : m ∈ L := List.take_subset k' L hm
        have hmne : m ≠ a := by
          intro h
          exact (List.nodup_cons.mp hnd).1 (h ▸ hmL)
        rw [hne m hmne]
      rw [hmap, hsnd]
      rw [show (a :: L).take (k' + 1) = a :: L.take k' from rfl, List.map_cons,
        List.sum_cons, add_assoc]

theorem sumVals_congr {a b : SGraph} (h : ∀ m, (linkAt a m).value = (linkAt b m).value)
    (L : List ℕ) : sumVals a L = sumVals b L := by
  rw [sumVals, sumVals]
  apply congrArg
  apply List.map_congr_left
  intro m _
  exact h m

theorem widthOuter_nodes : ∀ (L : List ℕ) (g : SGraph),
    (L.foldl widthNodeStep g).nodes = g.nodes := by
  intro L
  induction L with
  | nil => intro g; rfl
  | cons a L ih =>
    intro g
    rw [List.foldl_cons, ih, widthNodeStep, widthFold_nodes]

theorem widthOuter_links_length : ∀ (L : List ℕ) (g : SGraph),
    (L.foldl widthNodeStep g).links.length = g.links.length := by
  intro L
  induction L with
  | nil => intro g; rfl
  | cons a L ih =>
    intro g
    rw [List.foldl_cons, ih, widthNodeStep, widthFold_links_length]

theorem widthOuter_value : ∀ (L : List ℕ) (g : SGraph) (m : ℕ),
    (linkAt (L.foldl widthNodeStep g) m).value = (linkAt g m).value := by
  intro L
  induction L with
  | nil => intro g m; rfl
  | cons a L ih =>
    intro g m
    rw [List.foldl_cons, ih, widthNodeStep, widthFold_value]

theorem widthOuter_untouched (g₀ : SGraph) :
    ∀ (L : List ℕ) (g : SGraph) (m : ℕ), g.nodes = g₀.nodes →
      (∀ j ∈ L, ¬ m ∈ (nodeAt g₀ j).sourceLinks) →
      linkAt (L.foldl widthNodeStep g) m = linkAt g m := by
  intro L
  induction L with
  | nil => intro g m _ _; rfl
  | cons a L ih =>
    intro g m hnodes hnot
    rw [List.foldl_cons]
    have hstepnodes : (widthNodeStep g a).nodes = g₀.nodes := by
      rw [widthNodeStep, widthFold_nodes]
      exact hnodes
    rw [ih _ m hstepnodes fun j hj => hnot j (List.mem_cons_of_mem a hj)]
    rw [widthNodeStep]
    apply widthFold_not_mem
    rw [nodeAt_congr_nodes hnodes]
    exact hnot a (List.mem_cons_self a L)

theorem widthOuter_spec (g : SGraph) (i : ℕ)
    (hb : ∀ l ∈ (nodeAt g i).sourceLinks, l < g.links.length)
    (hnd : (nodeAt g i).sourceLinks.Nodup)
    (hdis : ∀ j, j ≠ i → ∀ l ∈ (nodeAt g i).sourceLinks,
      ¬ l ∈ (nodeAt g j).sourceLinks) :
    ∀ (L : List ℕ), L.Nodup → i ∈ L →
    ∀ (g' : SGraph), g'.nodes = g.nodes → g'.links.length = g.links.length →
      (∀ m, (linkAt g' m).value = (linkAt g m).value) →
      (∀ l ∈ (nodeAt g i).sourceLinks, linkAt g' l = linkAt g l) →
      ∀ (k : ℕ) (hk : k < (nodeAt g i).sourceLinks.length),
        linkAt (L.foldl widthNodeStep g') ((nodeAt g i).sourceLinks.get ⟨k, hk⟩) =
          { linkAt g ((nodeAt g i).sourceLinks.get ⟨k, hk⟩) with
            width := (if 0 < sumVals g (nodeAt g i).sourceLinks then
              (linkAt g ((nodeAt g i).sourceLinks.get ⟨k, hk⟩)).value /
                sumVals g (nodeAt g i).sourceLinks * (nodeAt g i).height else 0),
            sy := (((nodeAt g i).sourceLinks.take k).map (fun m =>
              if 0 < sumVals g (nodeAt g i).sourceLinks then
                (linkAt g m).value / sumVals g (nodeAt g i).sourceLinks *
                  (nodeAt g i).height else 0)).sum } := by
  intro L
  induction L with
  | nil => intro h₁ h₂; cases h₂
  | cons j L ih =>
    intro hndL hmemL g' hnodes hlen hval hkeep k hk
    rw [List.foldl_cons]
    by_cases hiL : i ∈ L
    · have hji : j ≠ i := by
        intro h
        exact (List.nodup_cons.mp hndL).1 (h ▸ hiL)
      have h1 : (widthNodeStep g' j).nodes = g.nodes := by
        rw [widthNodeStep, widthFold_nodes]
        exact hnodes
      have h2 : (widthNodeStep g' j).links.length = g.links.length := by
        rw [widthNodeStep, widthFold_links_length]
        exact hlen
      have h3 : ∀ m, (linkAt (widthNodeStep g' j) m).value = (linkAt g m).value := by
        intro m
        rw [widthNodeStep, widthFold_value]
        exact hval m
      have h4 : ∀ l ∈ (nodeAt g i).sourceLinks,
          linkAt (widthNodeStep g' j) l = linkAt g l := by
        intro l hl
        rw [widthNodeStep]
        rw [widthFold_not_mem]
        · exact hkeep l hl
        · rw [nodeAt_congr_nodes hnodes]
          exact hdis j hji l hl
      exact ih (List.nodup_cons.mp hndL).2 hiL _ h1 h2 h3 h4 k hk
    · have hji : j = i := by
        rcases List.mem_cons.mp hmemL with h | h
        · exact h.symm
        · exact absurd h hiL
      subst hji
      have hlist : (nodeAt g' j).sourceLinks = (nodeAt g j).sourceLinks := by
        rw [nodeAt_congr_nodes hnodes]
      have hbl : ∀ l ∈ (nodeAt g' j).sourceLinks, l < g'.links.length := by
        intro l hl
        rw [hlen]
        exact hb l (hlist ▸ hl)
      have hndl : (nodeAt g' j).sourceLinks.Nodup := by
        rw [hlist]
        exact hnd
      have hinner := widthFold_spec (sumVals g' (nodeAt g' j).sourceLinks) j
        (nodeAt g' j).sourceLinks (g', 0) hndl hbl
      rw [hlist] at hinner
      have hmemk : (nodeAt g j).sourceLinks.get ⟨k, hk⟩ ∈ (nodeAt g j).sourceLinks :=
        List.get_mem _ _ _
      have huntouched : linkAt (L.foldl widthNodeStep (widthNodeStep g' j))
          ((nodeAt g j).sourceLinks.get ⟨k, hk⟩) =
          linkAt (widthNodeStep g' j) ((nodeAt g j).sourceLinks.get ⟨k, hk⟩) := by
        apply widthOuter_untouched g
        · rw [widthNodeStep, widthFold_nodes]
          exact hnodes
        · intro j' hj' hmem'
          have hj'i : j' ≠ j := by
            intro h
            exact hiL (h ▸ hj')
          exact hdis j' hj'i _ hmemk hmem'
      rw [huntouched]
      rw [show widthNodeStep g' j = ((nodeAt g' j).sourceLinks.foldl
        (widthStep (sumVals g' (nodeAt g' j).sourceLinks) j) (g', 0)).1 from rfl]
      rw [hlist]
      rw [hinner k hk]
      dsimp only
      have hT : sumVals g' (nodeAt g j).sourceLinks =
          sumVals g (nodeAt g j).sourceLinks := sumVals_congr hval _
      have hheight : (nodeAt g' j).height = (nodeAt g j).height := by
        rw [nodeAt_congr_nodes hnodes]
      have hkeepk := hkeep _ hmemk
      have hmap : ((nodeAt g j).sourceLinks.take k).map (fun m =>
          if 0 < sumVals g' (nodeAt g j).sourceLinks then
            (linkAt g' m).value / sumVals g' (nodeAt g j).sourceLinks *
              (nodeAt g' j).height else 0) =
          ((nodeAt g j).sourceLinks.take k).map (fun m =>
            if 0 < sumVals g (nodeAt g j).sourceLinks then
              (linkAt g m).value / sumVals g (nodeAt g j).sourceLinks *
                (nodeAt g j).height else 0) := by
        rw [hT, hheight]
        apply List.map_congr_left
        intro m hm
        rw [hval m]
      rw [hmap, hT, hheight, hkeepk, zero_add]

theorem setWidths_spec (g : SGraph) (i : ℕ) (hi : i < g.nodes.length)
    (hb : ∀ l ∈ (nodeAt g i).sourceLinks, l < g.links.length)
    (hnd : (nodeAt g i).sourceLinks.Nodup)
    (hdis : ∀ j, j ≠ i → ∀ l ∈ (nodeAt g i).sourceLinks,
      ¬ l ∈ (nodeAt g j).sourceLinks) :
    ∀ (k : ℕ) (hk : k < (nodeAt g i).sourceLinks.length),
      linkAt (setWidths g) ((nodeAt g i).sourceLinks.get ⟨k, hk⟩) =
        { linkAt g ((nodeAt g i).sourceLinks.get ⟨k, hk⟩) with
          width := (if 0 < sumVals g (nodeAt g i).sourceLinks then
            (linkAt g ((nodeAt g i).sourceLinks.get ⟨k, hk⟩)).value /
              sumVals g (nodeAt g i).sourceLinks * (nodeAt g i).height else 0),
          sy := (((nodeAt g i).sourceLinks.take k).map (fun m =>
            if 0 < sumVals g (nodeAt g i).sourceLinks then
              (linkAt g m).value / sumVals g (nodeAt g i).sourceLinks *
                (nodeAt g i).height else 0)).sum } := by
  intro k hk
  rw [setWidths]
  exact widthOuter_spec g i hb hnd hdis (List.range g.nodes.length)
    (List.nodup_range _) (List.mem_range.mpr hi) g rfl rfl (fun _ => rfl)
    (fun _ _ => rfl) k hk

theorem tyOuter_nodes : ∀ (L : List ℕ) (g : SGraph),
    (L.foldl tyNodeStep g).nodes = g.nodes := by
  intro L
  induction L with
  | nil => intro g; rfl
  | cons a L ih =>
    intro g
    rw [List.foldl_cons, ih, tyNodeStep, tyFold_nodes]

theorem tyOuter_keep (pr : SLink → ℚ) (hpr : ∀ lk t, pr { lk with ty := t } = pr lk) :
    ∀ (L : List ℕ) (g : SGraph) (m : ℕ),
      pr (linkAt (L.foldl tyNodeStep g) m) = pr (linkAt g m) := by
  intro L
  induction L with
  | nil => intro g m; rfl
  | cons a L ih =>
    intro g m
    rw [List.foldl_cons, ih, tyNodeStep, tyFold_keep pr hpr]

theorem tyOuter_untouched (g₀ : SGraph) :
    ∀ (L : List ℕ) (g : SGraph) (m : ℕ), g.nodes = g₀.nodes →
      (∀ j ∈ L, ¬ m ∈ (nodeAt g₀ j).targetLinks) →
      linkAt (L.foldl tyNodeStep g) m = linkAt g m := by
  intro L
  induction L with
  | nil => intro g m _ _; rfl
  | cons a L ih =>
    intro g m hnodes hnot
    rw [List.foldl_cons]
    have hstepnodes : (tyNodeStep g a).nodes = g₀.nodes := by
      rw [tyNodeStep, tyFold_nodes]
      exact hnodes
    rw [ih _ m hstepnodes fun j hj => hnot j (List.mem_cons_of_mem a hj)]
    rw [tyNodeStep]
    apply tyFold_not_mem
    rw [nodeAt_congr_nodes hnodes]
    exact hnot a (List.mem_cons_self a L)

theorem tyOuter_spec (g : SGraph) (i : ℕ)
    (hb : ∀ l ∈ (nodeAt g i).targetLinks, l < g.links.length)
    (hnd : (nodeAt g i).targetLinks.Nodup)
    (hdis : ∀ j, j ≠ i → ∀ l ∈ (nodeAt g i).targetLinks,
      ¬ l ∈ (nodeAt g j).targetLinks) :
    ∀ (L : List ℕ), L.Nodup → i ∈ L →
    ∀ (g' : SGraph), g'.nodes = g.nodes → g'.links.length = g.links.length →
      (∀ m, (linkAt g' m).width = (linkAt g m).width) →
      (∀ l ∈ (nodeAt g i).targetLinks, linkAt g' l = linkAt g l) →
      ∀ (k : ℕ) (hk : k < (nodeAt g i).targetLinks.length),
        linkAt (L.foldl tyNodeStep g') ((nodeAt g i).targetLinks.get ⟨k, hk⟩) =
          { linkAt g ((nodeAt g i).targetLinks.get ⟨k, hk⟩) with
            ty := (((nodeAt g i).targetLinks.take k).map (fun m =>
              (linkAt g m).width)).sum } := by
  intro L
  induction L with
  | nil => intro h₁ h₂; cases h₂
  | cons j L ih =>
    intro hndL hmemL g' hnodes hlen hwid hkeep k hk
    rw [List.foldl_cons]
    by_cases hiL : i ∈ L
    · have hji : j ≠ i := by
        intro h
        exact (List.nodup_cons.mp hndL).1 (h ▸ hiL)
      have h1 : (tyNodeStep g' j).nodes = g.nodes := by
        rw [tyNodeStep, tyFold_nodes]
        exact hnodes
      have h2 : (tyNodeStep g' j).links.length = g.links.length := by
        rw [tyNodeStep, tyFold_links_length]
        exact hlen
      have h3 : ∀ m, (linkAt (tyNodeStep g' j) m).width = (linkAt g m).width := by
        intro m
        rw [tyNodeStep, tyFold_keep (fun lk => lk.width) (fun _ _ => rfl)]
        exact hwid m
      have h4 : ∀ l ∈ (nodeAt g i).targetLinks,
          linkAt (tyNodeStep g' j) l = linkAt g l := by
        intro l hl
        rw [tyNodeStep]
        rw [tyFold_not_mem]
        · exact hkeep l hl
        · rw [nodeAt_congr_nodes hnodes]
          exact hdis j hji l hl
      exact ih (List.nodup_cons.mp hndL).2 hiL _ h1 h2 h3 h4 k hk
    · have hji : j = i := by
        rcases List.mem_cons.mp hmemL with h | h
        · exact h.symm
        · exact absurd h hiL
      subst hji
      have hlist : (nodeAt g' j).targetLinks = (nodeAt g j).targetLinks := by
        rw [nodeAt_congr_nodes hnodes]
      have hbl : ∀ l ∈ (nodeAt g' j).targetLinks, l < g'.links.length := by
        intro l hl
        rw [hlen]
        exact hb l (hlist ▸ hl)
      have hndl : (nodeAt g' j).targetLinks.Nodup := by
        rw [hlist]
        exact hnd
      have hinner := tyFold_spec (nodeAt g' j).targetLinks (g', 0) hndl hbl
      rw [hlist] at hinner
      have hmemk : (nodeAt g j).targetLinks.get ⟨k, hk⟩ ∈ (nodeAt g j).targetLinks :=
        List.get_mem _ _ _
      have huntouched : linkAt (L.foldl tyNodeStep (tyNodeStep g' j))
          ((nodeAt g j).targetLinks.get ⟨k, hk⟩) =
          linkAt (tyNodeStep g' j) ((nodeAt g j).targetLinks.get ⟨k, hk⟩) := by
        apply tyOuter_untouched g
        · rw [tyNodeStep, tyFold_nodes]
          exact hnodes
        · intro j' hj' hmem'
          have hj'i : j' ≠ j := by
            intro h
            exact hiL (h ▸ hj')
          exact hdis j' hj'i _ hmemk hmem'
      rw [huntouched]
      rw [show tyNodeStep g' j =
        ((nodeAt g' j).targetLinks.foldl tyStep (g', 0)).1 from rfl]
      rw [hlist]
      rw [hinner k hk]
      dsimp only
      have hkeepk := hkeep _ hmemk
      have hmap : ((nodeAt g j).targetLinks.take k).map
          (fun m => (linkAt g' m).width) =
          ((nodeAt g j).targetLinks.take k).map (fun m => (linkAt g m).width) := by
        apply List.map_congr_left
        intro m hm
        rw [hwid m]
      rw [hmap, hkeepk, zero_add]

theorem setTys_spec (g : SGraph) (i : ℕ) (hi : i < g.nodes.length)
    (hb : ∀ l ∈ (nodeAt g i).targetLinks, l < g.links.length)
    (hnd : (nodeAt g i).targetLinks.Nodup)
    (hdis : ∀ j, j ≠ i → ∀ l ∈ (nodeAt g i).targetLinks,
      ¬ l ∈ (nodeAt g j).targetLinks) :
    ∀ (k : ℕ) (hk : k < (nodeAt g i).targetLinks.length),
      linkAt (setTys g) ((nodeAt g i).targetLinks.get ⟨k, hk⟩) =
        { linkAt g ((nodeAt g i).targetLinks.get ⟨k, hk⟩) with
          ty := (((nodeAt g i).targetLinks.take k).map (fun m =>
            (linkAt g m).width)).sum } := by
  intro k hk
  rw [setTys]
  exact tyOuter_spec g i hb hnd hdis (List.range g.nodes.length)
    (List.nodup_range _) (List.mem_range.mpr hi) g rfl rfl (fun _ => rfl)
    (fun _ _ => rfl) k hk

theorem setWidths_nodes (g : SGraph) : (setWidths g).nodes = g.nodes := by
  rw [setWidths]
  exact widthOuter_nodes _ g

theorem setTys_nodes (g : SGraph) : (setTys g).nodes = g.nodes := by
  rw [setTys]
  exact tyOuter_nodes _ g

theorem setTys_keep_width (g : SGraph) (m : ℕ) :
    (linkAt (setTys g) m).width = (linkAt g m).width := by
  rw [setTys]
  exact tyOuter_keep (fun lk => lk.width) (fun _ _ => rfl) _ g m

theorem setTys_keep_sy (g : SGraph) (m : ℕ) :
    (linkAt (setTys g) m).sy = (linkAt g m).sy := by
  rw [setTys]
  exact tyOuter_keep (fun lk => lk.sy) (fun _ _ => rfl) _ g m

theorem setTys_keep_value (g : SGraph) (m : ℕ) :
    (linkAt (setTys g) m).value = (linkAt g m).value := by
  rw [setTys]
  exact tyOuter_keep (fun lk => lk.value) (fun _ _ => rfl) _ g m

theorem setWidths_value (g : SGraph) (m : ℕ) :
    (linkAt (setWidths g) m).value = (linkAt g m).value := by
  rw [setWidths]
  exact widthOuter_value _ g m

theorem sourceLinks_default : (default : SNode).sourceLinks = [] := rfl

theorem targetLinks_default : (default : SNode).targetLinks = [] := rfl

theorem setWidths_links_length (g : SGraph) :
    (setWidths g).links.length = g.links.length := by
  rw [setWidths]
  exact widthOuter_links_length _ g

theorem getD_eq_get' {α : Type _} (d : α) : ∀ (l : List α) (n : ℕ) (hn : n < l.length),
    l.getD n d = l.get ⟨n, hn⟩ := by
  intro l
  induction l with
  | nil => intro n hn; cases hn
  | cons a l ih =>
    intro n hn
    cases n with
    | zero => rfl
    | succ n => exact ih n (Nat.lt_of_succ_lt_succ hn)

theorem sum_div_mul (T H : ℚ) :
    ∀ l : List ℚ, (l.map fun v => v / T * H).sum = l.sum / T * H := by
  intro l
  induction l with
  | nil => simp
  | cons a l ih =>
    rw [List.map_cons, List.sum_cons, List.sum_cons, ih]
    ring

theorem wf_sourceLinks_disjoint {g : SGraph} (hwf : WF g) {i : ℕ}
    (hi : i < g.nodes.length) :
    ∀ j, j ≠ i → ∀ l ∈ (nodeAt g i).sourceLinks, ¬ l ∈ (nodeAt g j).sourceLinks := by
  intro j hj l hl hlj
  have hii := hwf.2.2 i (List.mem_range.mpr hi)
  have hlr : l < g.links.length := hii.2.2.1 l hl
  by_cases hjr : j < g.nodes.length
  · have hjj := hwf.2.2 j (List.mem_range.mpr hjr)
    have hi' : (linkAt g l).source = i :=
      (hii.2.2.2.2 l (List.mem_range.mpr hlr)).1.mp hl
    have hj' : (linkAt g l).source = j :=
      (hjj.2.2.2.2 l (List.mem_range.mpr hlr)).1.mp hlj
    exact hj (by rw [← hj', hi'])
  · rw [nodeAt_out_of_range hjr, sourceLinks_default] at hlj
    exact List.not_mem_nil l hlj

theorem wf_targetLinks_disjoint {g : SGraph} (hwf : WF g) {i : ℕ}
    (hi : i < g.nodes.length) :
    ∀ j, j ≠ i → ∀ l ∈ (nodeAt g i).targetLinks, ¬ l ∈ (nodeAt g j).targetLinks := by
  intro j hj l hl hlj
  have hii := hwf.2.2 i (List.mem_range.mpr hi)
  have hlr : l < g.links.length := hii.2.2.2.1 l hl
  by_cases hjr : j < g.nodes.length
  · have hjj := hwf.2.2 j (List.mem_range.mpr hjr)
    have hi' : (linkAt g l).target = i :=
      (hii.2.2.2.2 l (List.mem_range.mpr hlr)).2.mp hl
    have hj' : (linkAt g l).target = j :=
      (hjj.2.2.2.2 l (List.mem_range.mpr hlr)).2.mp hlj
    exact hj (by rw [← hj', hi'])
  · rw [nodeAt_out_of_range hjr, targetLinks_default] at hlj
    exact List.not_mem_nil l hlj

theorem sameShape_pipeline (cfg : SConfig) {g g₅ : SGraph}
    (hrel : relaxNodePositions cfg
      (initializeNodeY cfg (positionNodesX cfg (computeNodeValues (computeDepths cfg g)))) =
        some g₅) :
    SameShape g (sortNodeLinks g₅) := by
  have s1 := sameShape_computeDepths cfg g
  have s2 := sameShape_computeNodeValues (computeDepths cfg g)
  have s3 := sameShape_positionNodesX cfg (computeNodeValues (computeDepths cfg g))
  have s4 := sameShape_of_sameButYH (sameButYH_initializeNodeY cfg
    (positionNodesX cfg (computeNodeValues (computeDepths cfg g))))
  have s5 := sameShape_of_layoutFrame (layoutFrame_of_sameButY (relaxNodePositions_some hrel))
  have s6 := sameShape_of_layoutFrame (layoutFrame_of_sameButLinkOrder
    (sameButLinkOrder_sortNodeLinks g₅))
  exact sameShape_trans (sameShape_trans (sameShape_trans (sameShape_trans
    (sameShape_trans s1 s2) s3) s4) s5) s6

theorem compute_offsets_stage {cfg : SConfig} {g g' : SGraph} (hwf : WF g)
    (hne : ¬ g.nodes.isEmpty = true) (hc : compute cfg g = some g') :
    ∃ g₆ : SGraph, WF g₆ ∧ g' = setTys (setWidths g₆) ∧
      g'.nodes = g₆.nodes ∧
      ∀ m, (linkAt g' m).value = (linkAt g₆ m).value := by
  obtain ⟨g₅, hrel, hg'⟩ := compute_decomp hne hc
  refine ⟨sortNodeLinks g₅, wf_of_sameShape hwf (sameShape_pipeline cfg hrel), ?_, ?_, ?_⟩
  · rw [hg']
    rfl
  · rw [hg']
    show (setTys (setWidths (sortNodeLinks g₅))).nodes = _
    rw [setTys_nodes, setWidths_nodes]
  · intro m
    rw [hg']
    show (linkAt (setTys (setWidths (sortNodeLinks g₅))) m).value = _
    rw [setTys_keep_value, setWidths_value]

/-- C2: after `compute()`, for every node whose outgoing links have positive
total value, each outgoing link's width equals
`value / total outgoing value × node.height`; in the stored (sorted) order
of `sourceLinks` every link's `sy` is the sum of the widths of the links
before it, so the first `sy` is 0 and each subsequent `sy` is the previous
`sy` plus the previous width; the outgoing widths therefore tile the
node's height exactly — their sum equals `node.height`, in particular
with absolute error below 1e-5. -/
theorem c2_outgoing_tiling (cfg : SConfig) (g g' : SGraph) (hwf : WF g)
    (hc : compute cfg g = some g') (i : ℕ) (hi : i < g'.nodes.length)
    (hpos : 0 < sumVals g' (nodeAt g' i).sourceLinks) :
    (∀ k, k < (nodeAt g' i).sourceLinks.length →
      (linkAt g' ((nodeAt g' i).sourceLinks.getD k 0)).width =
        (linkAt g' ((nodeAt g' i).sourceLinks.getD k 0)).value /
          sumVals g' (nodeAt g' i).sourceLinks * (nodeAt g' i).height) ∧
    (∀ k, k < (nodeAt g' i).sourceLinks.length →
      (linkAt g' ((nodeAt g' i).sourceLinks.getD k 0)).sy =
        (((nodeAt g' i).sourceLinks.take k).map fun m => (linkAt g' m).width).sum) ∧
    (0 < (nodeAt g' i).sourceLinks.length →
      (linkAt g' ((nodeAt g' i).sourceLinks.getD 0 0)).sy = 0) ∧
    (∀ k, k + 1 < (nodeAt g' i).sourceLinks.length →
      (linkAt g' ((nodeAt g' i).sourceLinks.getD (k + 1) 0)).sy =
        (linkAt g' ((nodeAt g' i).sourceLinks.getD k 0)).sy +
          (linkAt g' ((nodeAt g' i).sourceLinks.getD k 0)).width) ∧
    sumWidths g' (nodeAt g' i).sourceLinks = (nodeAt g' i).height ∧
    |sumWidths g' (nodeAt g' i).sourceLinks - (nodeAt g' i).height| < 1 / 100000 := by
  by_cases hne : g.nodes.isEmpty = true
  · exfalso
    rw [compute, if_pos hne] at hc
    obtain rfl : g = g' := Option.some_inj.mp hc
    cases hnil : g.nodes with
    | nil => rw [hnil] at hi; simp at hi
    | cons a t => rw [hnil] at hne; simp at hne
  · obtain ⟨g₆, hwf₆, hgeq, hnodes, hval⟩ := compute_offsets_stage hwf hne hc
    have hn' : nodeAt g' i = nodeAt g₆ i := nodeAt_congr_nodes hnodes i
    have hL : (nodeAt g' i).sourceLinks = (nodeAt g₆ i).sourceLinks := by rw [hn']
    have hH : (nodeAt g' i).height = (nodeAt g₆ i).height := by rw [hn']
    have hTT : sumVals g' (nodeAt g₆ i).sourceLinks =
        sumVals g₆ (nodeAt g₆ i).sourceLinks := sumVals_congr hval _
    have hi₆ : i < g₆.nodes.length := hnodes ▸ hi
    have hii := hwf₆.2.2 i (List.mem_range.mpr hi₆)
    have hspec := setWidths_spec g₆ i hi₆ hii.2.2.1 hii.1
      (wf_sourceLinks_disjoint hwf₆ hi₆)
    have hpos₆ : 0 < sumVals g₆ (nodeAt g₆ i).sourceLinks := by
      rw [hL, hTT] at hpos
      exact hpos
    have hw' : ∀ k, k < (nodeAt g₆ i).sourceLinks.length →
        (linkAt g' ((nodeAt g₆ i).sourceLinks.getD k 0)).width =
          (linkAt g₆ ((nodeAt g₆ i).sourceLinks.getD k 0)).value /
            sumVals g₆ (nodeAt g₆ i).sourceLinks * (nodeAt g₆ i).height := by
      intro k hk
      rw [getD_eq_get' 0 _ _ hk, hgeq, setTys_keep_width, hspec k hk, if_pos hpos₆]
    have hs' : ∀ k, k < (nodeAt g₆ i).sourceLinks.length →
        (linkAt g' ((nodeAt g₆ i).sourceLinks.getD k 0)).sy =
          (((nodeAt g₆ i).sourceLinks.take k).map fun m =>
            (linkAt g₆ m).value / sumVals g₆ (nodeAt g₆ i).sourceLinks *
              (nodeAt g₆ i).height).sum := by
      intro k hk
      rw [getD_eq_get' 0 _ _ hk, hgeq, setTys_keep_sy, hspec k hk]
      have hcong : (((nodeAt g₆ i).sourceLinks.take k).map fun m =>
          if 0 < sumVals g₆ (nodeAt g₆ i).sourceLinks then
            (linkAt g₆ m).value / sumVals g₆ (nodeAt g₆ i).sourceLinks *
              (nodeAt g₆ i).height else 0) =
          ((nodeAt g₆ i).sourceLinks.take k).map fun m =>
            (linkAt g₆ m).value / sumVals g₆ (nodeAt g₆ i).sourceLinks *
              (nodeAt g₆ i).height :=
        List.map_congr_left fun m _ => if_pos hpos₆
      rw [hcong]
    have hmemD : ∀ k, k < (nodeAt g₆ i).sourceLinks.length →
        (nodeAt g₆ i).sourceLinks.getD k 0 ∈ (nodeAt g₆ i).sourceLinks := by
      intro k hk
      rw [getD_eq_get' 0 _ _ hk]
      exact List.get_mem _ _ _
    have hwmem : ∀ m ∈ (nodeAt g₆ i).sourceLinks,
        (linkAt g' m).width = (linkAt g₆ m).value /
          sumVals g₆ (nodeAt g₆ i).sourceLinks * (nodeAt g₆ i).height := by
      intro m hm
      obtain ⟨⟨k, hk⟩, hgk⟩ := List.mem_iff_get.mp hm
      have hthis := hw' k hk
      rw [getD_eq_get' 0 _ _ hk, hgk] at hthis
      exact hthis
    have hsum : sumWidths g' (nodeAt g' i).sourceLinks = (nodeAt g' i).height := by
      rw [hL, hH, sumWidths]
      have h1 : ((nodeAt g₆ i).sourceLinks.map fun m => (linkAt g' m).width) =
          (nodeAt g₆ i).sourceLinks.map fun m =>
            (linkAt g₆ m).value / sumVals g₆ (nodeAt g₆ i).sourceLinks *
              (nodeAt g₆ i).height :=
        List.map_congr_left hwmem
      have h2 : ((nodeAt g₆ i).sourceLinks.map fun m =>
          (linkAt g₆ m).value / sumVals g₆ (nodeAt g₆ i).sourceLinks *
            (nodeAt g₆ i).height) =
          ((nodeAt g₆ i).sourceLinks.map fun m => (linkAt g₆ m).value).map fun v =>
            v / sumVals g₆ (nodeAt g₆ i).sourceLinks * (nodeAt g₆ i).height := by
        rw [List.map_map]
        rfl
      rw [h1, h2, sum_div_mul]
      rw [show (((nodeAt g₆ i).sourceLinks.map fun m => (linkAt g₆ m).value).sum) =
        sumVals g₆ (nodeAt g₆ i).sourceLinks from rfl]
      rw [div_self (ne_of_gt hpos₆), one_mul]
    refine ⟨?_, ?_, ?_, ?_, hsum, ?_⟩
    · intro k hk
      rw [hL] at hk ⊢
      rw [hval, hTT, hH]
      exact hw' k hk
    · intro k hk
      rw [hL] at hk ⊢
      rw [hs' k hk]
      have h1 : (((nodeAt g₆ i).sourceLinks.take k).map fun m => (linkAt g' m).width) =
          ((nodeAt g₆ i).sourceLinks.take k).map fun m =>
            (linkAt g₆ m).value / sumVals g₆ (nodeAt g₆ i).sourceLinks *
              (nodeAt g₆ i).height :=
        List.map_congr_left fun m hm => hwmem m (List.take_subset k _ hm)
      rw [h1]
    · intro h0
      rw [hL] at h0 ⊢
      rw [hs' 0 h0]
      simp
    · intro k hk1
      rw [hL] at hk1 ⊢
      have hk : k < (nodeAt g₆ i).sourceLinks.length := Nat.lt_of_succ_lt hk1
      rw [hs' (k + 1) hk1, hs' k hk, hwmem _ (hmemD k hk)]
      have e1 : (nodeAt g₆ i).sourceLinks.take (k + 1) =
          (nodeAt g₆ i).sourceLinks.take k ++ [(nodeAt g₆ i).sourceLinks.getD k 0] := by
        rw [getD_eq_get' 0 _ _ hk, ← List.concat_eq_append]
        exact (List.take_concat_get _ k hk).symm
      rw [e1, List.map_append, List.sum_append]
      simp
    · rw [hsum, sub_self, abs_zero]
      norm_num

set_option maxRecDepth 100000 in
theorem c2_witness :
    WF gPair ∧ compute cfgZeroIter gPair = some gPairOut ∧
    0 < sumVals gPairOut (nodeAt gPairOut 0).sourceLinks ∧
    sumWidths gPairOut (nodeAt gPairOut 0).sourceLinks = (nodeAt gPairOut 0).height :=
  ⟨by unfold WF; decide, by decide, by decide,
    (c2_outgoing_tiling cfgZeroIter gPair gPairOut (by unfold WF; decide) (by decide) 0
      (by decide) (by decide)).2.2.2.2.1⟩

/-- C1 counterexample: on the chain A→B (value 10), B→C (value 7) the
incoming link of C keeps the width 460 fixed on B's outgoing side while
C's height is 322, so the sum of the incoming links' widths does not equal
the node's height, not even within the claimed 1e-5 tolerance. -/
theorem c1_counterexample :
    compute cfgZeroIter gChain = some gChainOut ∧
    ¬ |sumWidths gChainOut (nodeAt gChainOut 2).targetLinks -
        (nodeAt gChainOut 2).height| < 1 / 100000 := by
  constructor
  · decide
  · decide

/-- C1 (amended): after `compute()`, each node's incoming (`ty`) offsets
accumulate the widths already fixed on the source side — in the stored
(sorted) order of `targetLinks`, every link's `ty` is the sum of the widths
of the incoming links before it, so the first `ty` is 0 and each subsequent
`ty` is the previous `ty` plus the previous link's reused width; the
incoming widths sum to the total of the source-side widths, which need not
equal the node's height. -/
theorem c1_incoming_reuse (cfg : SConfig) (g g' : SGraph) (hwf : WF g)
    (hc : compute cfg g = some g') (i : ℕ) (hi : i < g'.nodes.length) :
    (∀ k, k < (nodeAt g' i).targetLinks.length →
      (linkAt g' ((nodeAt g' i).targetLinks.getD k 0)).ty =
        (((nodeAt g' i).targetLinks.take k).map fun m => (linkAt g' m).width).sum) ∧
    (0 < (nodeAt g' i).targetLinks.length →
      (linkAt g' ((nodeAt g' i).targetLinks.getD 0 0)).ty = 0) ∧
    (∀ k, k + 1 < (nodeAt g' i).targetLinks.length →
      (linkAt g' ((nodeAt g' i).targetLinks.getD (k + 1) 0)).ty =
        (linkAt g' ((nodeAt g' i).targetLinks.getD k 0)).ty +
          (linkAt g' ((nodeAt g' i).targetLinks.getD k 0)).width) := by
  by_cases hne : g.nodes.isEmpty = true
  · exfalso
    rw [compute, if_pos hne] at hc
    obtain rfl : g = g' := Option.some_inj.mp hc
    cases hnil : g.nodes with
    | nil => rw [hnil] at hi; simp at hi
    | cons a t => rw [hnil] at hne; simp at hne
  · obtain ⟨g₆, hwf₆, hgeq, hnodes, hval⟩ := compute_offsets_stage hwf hne hc
    have hn' : nodeAt g' i = nodeAt g₆ i := nodeAt_congr_nodes hnodes i
    have hL : (nodeAt g' i).targetLinks = (nodeAt g₆ i).targetLinks := by rw [hn']
    have hi₆ : i < g₆.nodes.length := hnodes ▸ hi
    have hii := hwf₆.2.2 i (List.mem_range.mpr hi₆)
    have hnw : (setWidths g₆).nodes = g₆.nodes := setWidths_nodes g₆
    have hnw' : nodeAt (setWidths g₆) i = nodeAt g₆ i := nodeAt_congr_nodes hnw i
    have hLw : (nodeAt (setWidths g₆) i).targetLinks = (nodeAt g₆ i).targetLinks := by
      rw [hnw']
    have hi_w : i < (setWidths g₆).nodes.length := by
      rw [hnw]
      exact hi₆
    have hnd_w : (nodeAt (setWidths g₆) i).targetLinks.Nodup := by
      rw [hLw]
      exact hii.2.1
    have hb_w : ∀ l ∈ (nodeAt (setWidths g₆) i).targetLinks,
        l < (setWidths g₆).links.length := by
      intro l hl
      rw [hLw] at hl
      rw [setWidths_links_length]
      exact hii.2.2.2.1 l hl
    have hdis_w : ∀ j, j ≠ i → ∀ l ∈ (nodeAt (setWidths g₆) i).targetLinks,
        ¬ l ∈ (nodeAt (setWidths g₆) j).targetLinks := by
      intro j hj l hl hlj
      rw [nodeAt_congr_nodes hnw] at hl hlj
      exact wf_targetLinks_disjoint hwf₆ hi₆ j hj l hl hlj
    have hspec := setTys_spec (setWidths g₆) i hi_w hb_w hnd_w hdis_w
    have hty : ∀ k, k < (nodeAt g₆ i).targetLinks.length →
        (linkAt g' ((nodeAt g₆ i).targetLinks.getD k 0)).ty =
          (((nodeAt g₆ i).targetLinks.take k).map fun m =>
            (linkAt g' m).width).sum := by
      intro k hk
      rw [← hLw] at hk ⊢
      rw [getD_eq_get' 0 _ _ hk, hgeq, hspec k hk]
      have hcong : (((nodeAt (setWidths g₆) i).targetLinks.take k).map fun m =>
          (linkAt (setTys (setWidths g₆)) m).width) =
          ((nodeAt (setWidths g₆) i).targetLinks.take k).map fun m =>
            (linkAt (setWidths g₆) m).width :=
        List.map_congr_left fun m _ => setTys_keep_width _ m
      rw [hcong]
    have hmemD : ∀ k, k < (nodeAt g₆ i).targetLinks.length →
        (nodeAt g₆ i).targetLinks.getD k 0 ∈ (nodeAt g₆ i).targetLinks := by
      intro k hk
      rw [getD_eq_get' 0 _ _ hk]
      exact List.get_mem _ _ _
    refine ⟨?_, ?_, ?_⟩
    · intro k hk
      rw [hL] at hk ⊢
      exact hty k hk
    · intro h0
      rw [hL] at h0 ⊢
      rw [hty 0 h0]
      simp
    · intro k hk1
      rw [hL] at hk1 ⊢
      have hk : k < (nodeAt g₆ i).targetLinks.length := Nat.lt_of_succ_lt hk1
      rw [hty (k + 1) hk1, hty k hk]
      have e1 : (nodeAt g₆ i).targetLinks.take (k + 1) =
          (nodeAt g₆ i).targetLinks.take k ++ [(nodeAt g₆ i).targetLinks.getD k 0] := by
        rw [getD_eq_get' 0 _ _ hk, ← List.concat_eq_append]
        exact (List.take_concat_get _ k hk).symm
      rw [e1, List.map_append, List.sum_append]
      simp

set_option maxRecDepth 100000 in
theorem c1_witness :
    WF gChain ∧ compute cfgZeroIter gChain = some gChainOut ∧
    (linkAt gChainOut ((nodeAt gChainOut 2).targetLinks.getD 0 0)).ty = 0 :=
  ⟨by unfold WF; decide, by decide,
    (c1_incoming_reuse cfgZeroIter gChain gChainOut (by unfold WF; decide) (by decide) 2
      (by decide)).2.1 (by decide)⟩

/-! ### List and column access helpers for the collision development -/

theorem getD_mem_of_lt {α : Type _} (d : α) (l : List α) (k : ℕ) (hk : k < l.length) :
    l.getD k d ∈ l := by
  rw [getD_eq_get' d l k hk]
  exact List.get_mem _ _ _

theorem getD_out_of_range {α : Type _} (d : α) :
    ∀ (l : List α) (n : ℕ), l.length ≤ n → l.getD n d = d := by
  intro l
  induction l with
  | nil => intro n _; cases n <;> rfl
  | cons a l ih =>
    intro n hn
    cases n with
    | zero => cases hn
    | succ n => exact ih n (Nat.le_of_succ_le_succ hn)

theorem getD_set_self {α : Type _} (d : α) :
    ∀ (l : List α) (c : ℕ) (x : α), c < l.length → (l.set c x).getD c d = x := by
  intro l
  induction l with
  | nil => intro c x hc; cases hc
  | cons a l ih =>
    intro c x hc
    cases c with
    | zero => rfl
    | succ c => exact ih c x (Nat.lt_of_succ_lt_succ hc)

theorem getD_set_ne {α : Type _} (d : α) :
    ∀ (l : List α) (c e : ℕ) (x : α), e ≠ c → (l.set c x).getD e d = l.getD e d := by
  intro l
  induction l with
  | nil => intro c e x _; cases c <;> rfl
  | cons a l ih =>
    intro c e x hne
    cases c with
    | zero =>
      cases e with
      | zero => exact absurd rfl hne
      | succ e => rfl
    | succ c =>
      cases e with
      | zero => rfl
      | succ e => exact ih c e x fun h => hne (congrArg Nat.succ h)

theorem nodup_getD_ne {l : List ℕ} (hnd : l.Nodup) {p q : ℕ}
    (hp : p < l.length) (hq : q < l.length) (hpq : p ≠ q) :
    l.getD p 0 ≠ l.getD q 0 := by
  rw [getD_eq_get' 0 l p hp, getD_eq_get' 0 l q hq]
  intro h
  exact hpq (Fin.mk.injEq _ _ _ _ ▸ (List.Nodup.get_inj_iff hnd).mp h)

theorem getColumns_length (g : SGraph) : (getColumns g).length = maxDepth g + 1 := by
  rw [getColumns, List.length_map, List.length_range]

theorem getColumns_getD {g : SGraph} {c : ℕ} (hc : c < maxDepth g + 1) :
    (getColumns g).getD c [] =
      (List.range g.nodes.length).filter fun j => (nodeAt g j).depth = c := by
  rw [getColumns]
  have hlen : c < ((List.range (maxDepth g + 1)).map fun d =>
      (List.range g.nodes.length).filter fun i => (nodeAt g i).depth = d).length := by
    rw [List.length_map, List.length_range]
    exact hc
  rw [getD_eq_get' [] _ c hlen, List.get_eq_getElem, List.getElem_map, List.getElem_range]

theorem getColumns_getD_out {g : SGraph} {c : ℕ} (hc : ¬ c < maxDepth g + 1) :
    (getColumns g).getD c [] = [] := by
  apply getD_out_of_range
  rw [getColumns_length]
  exact Nat.le_of_not_lt hc

theorem getColumns_nodup (g : SGraph) (c : ℕ) : ((getColumns g).getD c []).Nodup := by
  by_cases hc : c < maxDepth g + 1
  · rw [getColumns_getD hc]
    exact (List.nodup_range _).filter _
  · rw [getColumns_getD_out hc]
    exact List.nodup_nil

theorem getColumns_bnd (g : SGraph) (c : ℕ) :
    ∀ m ∈ (getColumns g).getD c [], m < g.nodes.length := by
  intro m hm
  by_cases hc : c < maxDepth g + 1
  · rw [getColumns_getD hc, mem_columnOf_iff] at hm
    exact hm.1
  · rw [getColumns_getD_out hc] at hm
    cases hm

theorem getColumns_depth (g : SGraph) (c : ℕ) :
    ∀ m ∈ (getColumns g).getD c [], (nodeAt g m).depth = c := by
  intro m hm
  by_cases hc : c < maxDepth g + 1
  · rw [getColumns_getD hc, mem_columnOf_iff] at hm
    exact hm.2
  · rw [getColumns_getD_out hc] at hm
    cases hm

theorem getColumns_disjoint (g : SGraph) :
    ∀ c e, c ≠ e → ∀ m ∈ (getColumns g).getD c [], ¬ m ∈ (getColumns g).getD e [] := by
  intro c e hne m hmc hme
  exact hne ((getColumns_depth g c m hmc).symm.trans (getColumns_depth g e m hme))

theorem mem_getColumns_self {g : SGraph} {m : ℕ} (hm : m < g.nodes.length) :
    m ∈ (getColumns g).getD ((nodeAt g m).depth) [] := by
  rw [getColumns_getD (Nat.lt_succ_of_le (depth_le_maxDepth hm)), mem_columnOf_iff]
  exact ⟨hm, rfl⟩

theorem getColumns_congr {a b : SGraph} (hlen : b.nodes.length = a.nodes.length)
    (hdep : ∀ i, (nodeAt b i).depth = (nodeAt a i).depth) :
    getColumns b = getColumns a := by
  have hmap : b.nodes.map (fun n => n.depth) = a.nodes.map (fun n => n.depth) := by
    apply List.ext_getElem
    · simp [hlen]
    · intro k h1 h2
      rw [List.getElem_map, List.getElem_map]
      have hk : k < b.nodes.length := by simpa using h1
      have hk2 : k < a.nodes.length := by simpa using h2
      have hd := hdep k
      rw [nodeAt_eq_get hk, nodeAt_eq_get hk2] at hd
      simpa using hd
  have hmaxD : maxDepth b = maxDepth a := by rw [maxDepth, maxDepth, hmap]
  rw [getColumns, getColumns, hmaxD, hlen]
  apply List.map_congr_left
  intro d _
  apply List.filter_congr
  intro i _
  rw [hdep i]

theorem height_of_sameButY {a b : SGraph} (h : SameButY a b) (m : ℕ) :
    (nodeAt b m).height = (nodeAt a m).height := by
  rw [h.2.2 m]

theorem depth_of_sameButY {a b : SGraph} (h : SameButY a b) (m : ℕ) :
    (nodeAt b m).depth = (nodeAt a m).depth := by
  rw [h.2.2 m]

theorem y_of_sameButY_eq {a b : SGraph} (h : SameButY a b) (m : ℕ)
    (hy : (nodeAt b m).y = (nodeAt a m).y) : nodeAt b m = nodeAt a m := by
  rw [h.2.2 m, hy]

theorem colSep_of_pairs {cfg : SConfig} {g : SGraph} {col : List ℕ}
    (h : ∀ j, j + 1 < col.length → SepPair cfg g (col.getD j 0) (col.getD (j + 1) 0)) :
    ColSep cfg g col := by
  rw [ColSep, List.chain'_iff_get]
  intro k hk
  have hk1 : k + 1 < col.length := by omega
  have h1 := h k hk1
  rw [getD_eq_get' 0 _ _ (by omega), getD_eq_get' 0 _ _ hk1] at h1
  exact h1

theorem colSep_pairs_of {cfg : SConfig} {g : SGraph} {col : List ℕ}
    (h : ColSep cfg g col) :
    ∀ j, j + 1 < col.length → SepPair cfg g (col.getD j 0) (col.getD (j + 1) 0) := by
  rw [ColSep, List.chain'_iff_get] at h
  intro j hj
  have h1 := h j (by omega)
  rw [getD_eq_get' 0 _ _ (by omega), getD_eq_get' 0 _ _ hj]
  exact h1

theorem sepPair_congr {cfg : SConfig} {g g' : SGraph} {a b : ℕ}
    (ha : nodeAt g' a = nodeAt g a) (hb : nodeAt g' b = nodeAt g b)
    (h : SepPair cfg g a b) : SepPair cfg g' a b := by
  rw [SepPair, ha, hb]
  exact h

theorem colSep_congr {cfg : SConfig} {g g' : SGraph} {col : List ℕ}
    (h : ∀ m ∈ col, nodeAt g' m = nodeAt g m) (hsep : ColSep cfg g col) :
    ColSep cfg g' col := by
  apply colSep_of_pairs
  intro j hj
  exact sepPair_congr (h _ (getD_mem_of_lt 0 col j (by omega)))
    (h _ (getD_mem_of_lt 0 col (j + 1) hj)) (colSep_pairs_of hsep j hj)

theorem colSep_le_of_pos {cfg : SConfig} {g : SGraph} {l : List ℕ}
    (hpad : 0 ≤ cfg.nodePadding)
    (hh : ∀ m ∈ l, 0 ≤ (nodeAt g m).height) (hsep : ColSep cfg g l) :
    ∀ (d p : ℕ), p + d + 1 < l.length →
      (nodeAt g (l.getD p 0)).y + (nodeAt g (l.getD p 0)).height ≤
        (nodeAt g (l.getD (p + d + 1) 0)).y := by
  intro d
  induction d with
  | zero =>
    intro p hp
    have h1 := colSep_pairs_of hsep p hp
    rw [SepPair] at h1
    linarith
  | succ d ih =>
    intro p hp
    have hp' : p + d + 1 < l.length := by omega
    have h1 := ih p (by omega)
    have h2 := colSep_pairs_of hsep (p + d + 1) (by omega)
    rw [SepPair] at h2
    have hhm : 0 ≤ (nodeAt g (l.getD (p + d + 1) 0)).height :=
      hh _ (getD_mem_of_lt 0 l (p + d + 1) hp')
    have hgoal : (nodeAt g (l.getD p 0)).y + (nodeAt g (l.getD p 0)).height ≤
        (nodeAt g (l.getD (p + d + 1 + 1) 0)).y := by linarith
    have he : p + d + 1 + 1 = p + (d + 1) + 1 := by omega
    rw [he] at hgoal
    exact hgoal

theorem colSep_apart {cfg : SConfig} {g : SGraph} {l : List ℕ}
    (hpad : 0 ≤ cfg.nodePadding)
    (hh : ∀ m ∈ l, 0 ≤ (nodeAt g m).height)
    (hsep : ColSep cfg g l)
    {i j : ℕ} (hi : i ∈ l) (hj : j ∈ l) (hij : i ≠ j) :
    (nodeAt g i).y + (nodeAt g i).height ≤ (nodeAt g j).y ∨
    (nodeAt g j).y + (nodeAt g j).height ≤ (nodeAt g i).y := by
  obtain ⟨⟨p, hp⟩, hip⟩ := List.mem_iff_get.mp hi
  obtain ⟨⟨q, hq⟩, hjq⟩ := List.mem_iff_get.mp hj
  have hip' : l.getD p 0 = i := by rw [getD_eq_get' 0 l p hp]; exact hip
  have hjq' : l.getD q 0 = j := by rw [getD_eq_get' 0 l q hq]; exact hjq
  rcases Nat.lt_trichotomy p q with hlt | heq | hgt
  · left
    have h1 := colSep_le_of_pos hpad hh hsep (q - p - 1) p (by omega)
    rw [show p + (q - p - 1) + 1 = q from by omega, hip', hjq'] at h1
    exact h1
  · exfalso
    apply hij
    rw [← hip', ← hjq', heq]
  · right
    have h1 := colSep_le_of_pos hpad hh hsep (p - q - 1) q (by omega)
    rw [show q + (p - q - 1) + 1 = p from by omega, hip', hjq'] at h1
    exact h1

theorem mem_of_getLast?' {α : Type _} :
    ∀ {l : List α} {a : α}, l.getLast? = some a → a ∈ l := by
  intro l
  induction l with
  | nil => intro a h; cases h
  | cons x l ih =>
    intro a h
    cases hl : l with
    | nil =>
      subst hl
      rw [List.getLast?_singleton] at h
      rw [← Option.some_inj.mp h]
      exact List.mem_cons_self x []
    | cons y t =>
      subst hl
      rw [List.getLast?_cons_cons] at h
      exact List.mem_cons_of_mem x (ih h)

theorem pdFold_not_mem (cfg : SConfig) :
    ∀ (L : List ℕ) (st : SGraph × ℚ) (m : ℕ), ¬ m ∈ L →
      nodeAt ((L.foldl (pdStep cfg) st).1) m = nodeAt st.1 m := by
  intro L
  induction L with
  | nil => intro st m _; rfl
  | cons a L ih =>
    intro st m hm
    rw [List.foldl_cons, ih _ m fun h => hm (List.mem_cons_of_mem a h)]
    have hma : m ≠ a := fun h => hm (h ▸ List.mem_cons_self a L)
    rw [pdStep]
    dsimp only
    split
    · exact nodeAt_setNode_ne _ fun h => hma h.symm
    · rfl

theorem pdFold_sameButY (cfg : SConfig) (L : List ℕ) (st : SGraph × ℚ) :
    SameButY st.1 ((L.foldl (pdStep cfg) st).1) := by
  refine foldl_rel SameButY Prod.fst (fun _ _ _ u v => sameButY_trans u v) _ ?_ L st st.1
    (sameButY_refl st.1)
  intro s a
  rw [pdStep]
  dsimp only
  split
  · exact sameButY_setNode_y s.1 a _
  · exact sameButY_refl s.1

theorem pdFold_spec (cfg : SConfig) :
    ∀ (L : List ℕ) (st : SGraph × ℚ), L.Nodup →
      (∀ m ∈ L, m < st.1.nodes.length) →
      (∀ b ∈ L.head?, st.2 ≤ (nodeAt ((L.foldl (pdStep cfg) st).1) b).y) ∧
      ColSep cfg ((L.foldl (pdStep cfg) st).1) L := by
  intro L
  induction L with
  | nil =>
    intro st _ _
    refine ⟨fun b hb => ?_, List.chain'_nil⟩
    cases hb
  | cons a L ih =>
    intro st hnd hbnd
    have ha_lt : a < st.1.nodes.length := hbnd a (List.mem_cons_self a L)
    have hanotL : ¬ a ∈ L := (List.nodup_cons.mp hnd).1
    have hstep1 : (pdStep cfg st a).1 =
        if 0 < st.2 - (nodeAt st.1 a).y
          then setNode st.1 a (fun n => { n with y := n.y + (st.2 - (nodeAt st.1 a).y) })
          else st.1 := rfl
    have hstep2 : (pdStep cfg st a).2 =
        (nodeAt (pdStep cfg st a).1 a).y + (nodeAt (pdStep cfg st a).1 a).height +
          cfg.nodePadding := rfl
    have hya : st.2 ≤ (nodeAt (pdStep cfg st a).1 a).y := by
      rw [hstep1]
      by_cases hdy : 0 < st.2 - (nodeAt st.1 a).y
      · rw [if_pos hdy, nodeAt_setNode_self _ ha_lt]
        dsimp only
        linarith
      · rw [if_neg hdy]
        linarith
    have hlen1 : (pdStep cfg st a).1.nodes.length = st.1.nodes.length := by
      rw [hstep1]
      by_cases hdy : 0 < st.2 - (nodeAt st.1 a).y
      · rw [if_pos hdy, length_nodes_setNode]
      · rw [if_neg hdy]
    have hbnd1 : ∀ m ∈ L, m < (pdStep cfg st a).1.nodes.length := by
      intro m hm
      rw [hlen1]
      exact hbnd m (List.mem_cons_of_mem a hm)
    have hih := ih (pdStep cfg st a) (List.nodup_cons.mp hnd).2 hbnd1
    have huntouched : nodeAt ((L.foldl (pdStep cfg) (pdStep cfg st a)).1) a =
        nodeAt (pdStep cfg st a).1 a := pdFold_not_mem cfg L (pdStep cfg st a) a hanotL
    rw [List.foldl_cons]
    constructor
    · intro b hb
      have hba : a = b := by simpa using hb
      rw [← hba, huntouched]
      exact hya
    · rw [ColSep, List.chain'_cons']
      refine ⟨?_, hih.2⟩
      intro b hb
      have hGb := hih.1 b hb
      rw [SepPair, huntouched, ← hstep2]
      exact hGb

theorem usFold_untouched (cfg : SConfig) (sorted : List ℕ) :
    ∀ (P : List ℕ) (g : SGraph) (m : ℕ), (∀ p ∈ P, m ≠ sorted.getD p 0) →
      nodeAt (P.foldl (usStep cfg sorted) g) m = nodeAt g m := by
  intro P
  induction P with
  | nil => intro g m _; rfl
  | cons p P ih =>
    intro g m hm
    rw [List.foldl_cons, ih _ m fun q hq => hm q (List.mem_cons_of_mem p hq)]
    rw [usStep]
    split
    · exact nodeAt_setNode_ne _ fun h => (hm p (List.mem_cons_self p P)) h.symm
    · rfl

theorem usFold_spec (cfg : SConfig) (sorted : List ℕ) (hnd : sorted.Nodup) :
    ∀ (t : ℕ) (g : SGraph), t + 1 ≤ sorted.length →
      (∀ m ∈ sorted, m < g.nodes.length) →
      (∀ j, t ≤ j → j + 1 < sorted.length →
        SepPair cfg g (sorted.getD j 0) (sorted.getD (j + 1) 0)) →
      ∀ j, j + 1 < sorted.length →
        SepPair cfg (((List.range t).reverse).foldl (usStep cfg sorted) g)
          (sorted.getD j 0) (sorted.getD (j + 1) 0) := by
  intro t
  induction t with
  | zero =>
    intro g _ _ hpre j hj
    exact hpre j (Nat.zero_le j) hj
  | succ s ih =>
    intro g hlen hbnd hpre j hj
    have hrange : (List.range (s + 1)).reverse = s :: (List.range s).reverse := by
      rw [List.range_succ, List.reverse_append]
      rfl
    rw [hrange, List.foldl_cons]
    have hs1 : s + 1 < sorted.length := hlen
    have hs0 : s < sorted.length := Nat.lt_of_succ_lt hs1
    have hab : sorted.getD s 0 ≠ sorted.getD (s + 1) 0 :=
      nodup_getD_ne hnd hs0 hs1 (by omega)
    have ha_lt : sorted.getD s 0 < g.nodes.length :=
      hbnd _ (getD_mem_of_lt 0 sorted s hs0)
    have hg1 : usStep cfg sorted g s =
        if 0 < (nodeAt g (sorted.getD s 0)).y + (nodeAt g (sorted.getD s 0)).height +
            cfg.nodePadding - (nodeAt g (sorted.getD (s + 1) 0)).y
          then setNode g (sorted.getD s 0) (fun n => { n with
            y := n.y - ((nodeAt g (sorted.getD s 0)).y + (nodeAt g (sorted.getD s 0)).height +
              cfg.nodePadding - (nodeAt g (sorted.getD (s + 1) 0)).y) })
          else g := rfl
    have huntouch : ∀ m, m ≠ sorted.getD s 0 →
        nodeAt (usStep cfg sorted g s) m = nodeAt g m := by
      intro m hm
      rw [hg1]
      by_cases hov : 0 < (nodeAt g (sorted.getD s 0)).y + (nodeAt g (sorted.getD s 0)).height +
          cfg.nodePadding - (nodeAt g (sorted.getD (s + 1) 0)).y
      · rw [if_pos hov]
        exact nodeAt_setNode_ne _ fun h => hm h.symm
      · rw [if_neg hov]
    have hsep_s : SepPair cfg (usStep cfg sorted g s)
        (sorted.getD s 0) (sorted.getD (s + 1) 0) := by
      rw [hg1]
      by_cases hov : 0 < (nodeAt g (sorted.getD s 0)).y + (nodeAt g (sorted.getD s 0)).height +
          cfg.nodePadding - (nodeAt g (sorted.getD (s + 1) 0)).y
      · rw [if_pos hov, SepPair, nodeAt_setNode_self _ ha_lt,
          nodeAt_setNode_ne _ fun h => hab h]
        dsimp only
        linarith
      · rw [if_neg hov, SepPair]
        linarith
    have hlen1 : (usStep cfg sorted g s).nodes.length = g.nodes.length := by
      rw [hg1]
      by_cases hov : 0 < (nodeAt g (sorted.getD s 0)).y + (nodeAt g (sorted.getD s 0)).height +
          cfg.nodePadding - (nodeAt g (sorted.getD (s + 1) 0)).y
      · rw [if_pos hov, length_nodes_setNode]
      · rw [if_neg hov]
    apply ih (usStep cfg sorted g s) (by omega) ?_ ?_ j hj
    · intro m hm
      rw [hlen1]
      exact hbnd m hm
    · intro p hps hp1
      by_cases hpeq : p = s
      · subst hpeq
        exact hsep_s
      · have hpgt : s + 1 ≤ p := by omega
        have h1 : sorted.getD p 0 ≠ sorted.getD s 0 :=
          nodup_getD_ne hnd (by omega) hs0 (by omega)
        have h2 : sorted.getD (p + 1) 0 ≠ sorted.getD s 0 :=
          nodup_getD_ne hnd hp1 hs0 (by omega)
        exact sepPair_congr (huntouch _ h1) (huntouch _ h2) (hpre p (by omega) hp1)

theorem resolveCollisions_sep {cfg : SConfig} {g : SGraph} {col : List ℕ}
    {g₂ : SGraph} {col' : List ℕ} (hnd : col.Nodup)
    (hbnd : ∀ m ∈ col, m < g.nodes.length)
    (h : resolveCollisions cfg g col = some (g₂, col')) :
    ColSep cfg g₂ col' ∧ (∀ m, ¬ m ∈ col → nodeAt g₂ m = nodeAt g m) ∧
      col'.Perm col := by
  rw [resolveCollisions] at h
  cases hlast : (sortBy (fun i j => decide ((nodeAt g i).y ≤ (nodeAt g j).y)) col).getLast? with
  | none =>
    rw [hlast] at h
    cases h
  | some lastIdx =>
    rw [hlast] at h
    rw [Option.some_inj, Prod.mk.injEq] at h
    obtain ⟨hg, hc⟩ := h
    have hperm : (sortBy (fun i j => decide ((nodeAt g i).y ≤ (nodeAt g j).y)) col).Perm col :=
      sortBy_perm _ col
    have hnds : (sortBy (fun i j => decide ((nodeAt g i).y ≤ (nodeAt g j).y)) col).Nodup :=
      hperm.symm.nodup hnd
    have hbnds : ∀ m ∈ sortBy (fun i j => decide ((nodeAt g i).y ≤ (nodeAt g j).y)) col,
        m < g.nodes.length := fun m hm => hbnd m (hperm.mem_iff.mp hm)
    have hpos : 0 < (sortBy (fun i j => decide ((nodeAt g i).y ≤ (nodeAt g j).y)) col).length := by
      rw [List.length_pos]
      intro hnil
      rw [hnil] at hlast
      cases hlast
    have hlastmem : lastIdx ∈ sortBy (fun i j => decide ((nodeAt g i).y ≤ (nodeAt g j).y)) col :=
      mem_of_getLast?' hlast
    have hpd := pdFold_spec cfg (sortBy (fun i j => decide ((nodeAt g i).y ≤ (nodeAt g j).y)) col)
      (g, cfg.padTop) hnds hbnds
    have hpdg : pushDown cfg g (sortBy (fun i j => decide ((nodeAt g i).y ≤ (nodeAt g j).y)) col) =
        ((sortBy (fun i j => decide ((nodeAt g i).y ≤ (nodeAt g j).y)) col).foldl
          (pdStep cfg) (g, cfg.padTop)).1 := rfl
    have hpduntouch : ∀ m,
        ¬ m ∈ sortBy (fun i j => decide ((nodeAt g i).y ≤ (nodeAt g j).y)) col →
        nodeAt (pushDown cfg g (sortBy (fun i j => decide ((nodeAt g i).y ≤ (nodeAt g j).y)) col))
          m = nodeAt g m := by
      intro m hm
      rw [hpdg]
      exact pdFold_not_mem cfg _ _ m hm
    have hpdlen : (pushDown cfg g
        (sortBy (fun i j => decide ((nodeAt g i).y ≤ (nodeAt g j).y)) col)).nodes.length =
        g.nodes.length := by
      rw [hpdg]
      exact (pdFold_sameButY cfg _ _).2.1
    subst hc
    rw [← hg]
    split
    · refine ⟨?_, ?_, hperm⟩
      · apply colSep_of_pairs
        intro j hj
        rw [upwardSweep]
        apply usFold_spec cfg _ hnds
          ((sortBy (fun i j => decide ((nodeAt g i).y ≤ (nodeAt g j).y)) col).length - 1)
          _ (by omega) ?_ ?_ j hj
        · intro m hm
          rw [length_nodes_setNode, hpdlen]
          exact hbnds m hm
        · intro p hp1 hp2
          exact absurd hp2 (by omega)
      · intro m hm
        have hms : ¬ m ∈ sortBy (fun i j => decide ((nodeAt g i).y ≤ (nodeAt g j).y)) col :=
          fun hx => hm (hperm.mem_iff.mp hx)
        rw [upwardSweep]
        rw [usFold_untouched cfg _ _ _ m ?_]
        · rw [nodeAt_setNode_ne _ fun hlm => hms (by rw [← hlm]; exact hlastmem)]
          exact hpduntouch m hms
        · intro p hp
          have hp' : p < (sortBy (fun i j => decide ((nodeAt g i).y ≤ (nodeAt g j).y)) col).length := by
            have h1 := List.mem_range.mp (List.mem_reverse.mp hp)
            omega
          intro heq
          exact hms (heq ▸ getD_mem_of_lt 0 _ p hp')
    · refine ⟨?_, fun m hm => hpduntouch m (fun hx => hm (hperm.mem_iff.mp hx)), hperm⟩
      rw [hpdg]
      exact hpd.2

theorem foldl_step_not_mem (f : SGraph → ℕ → SGraph)
    (hf : ∀ g a m, m ≠ a → nodeAt (f g a) m = nodeAt g m) :
    ∀ (L : List ℕ) (g : SGraph) (m : ℕ), ¬ m ∈ L →
      nodeAt (L.foldl f g) m = nodeAt g m := by
  intro L
  induction L with
  | nil => intro g m _; rfl
  | cons a L ih =>
    intro g m hm
    rw [List.foldl_cons, ih _ m fun h => hm (List.mem_cons_of_mem a h)]
    exact hf g a m fun h => hm (h ▸ List.mem_cons_self a L)

theorem relaxColumn_not_mem (damping : ℚ) (useTarget : Bool) (g : SGraph)
    (col : List ℕ) (m : ℕ) (hm : ¬ m ∈ col) :
    nodeAt (relaxColumn damping useTarget g col) m = nodeAt g m := by
  rw [relaxColumn]
  refine foldl_step_not_mem _ ?_ col g m hm
  intro g' a m' hma
  dsimp only
  split <;> split
  · rfl
  · exact nodeAt_setNode_ne _ fun h => hma h.symm
  · rfl
  · exact nodeAt_setNode_ne _ fun h => hma h.symm

theorem foldlM_inv {σ α : Type _} (P : σ → Prop) (f : σ → α → Option σ)
    (hf : ∀ s a s', P s → f s a = some s' → P s') :
    ∀ (L : List α) (s s' : σ), P s → L.foldlM f s = some s' → P s' := by
  intro L
  induction L with
  | nil =>
    intro s s' hP h
    rw [List.foldlM_nil] at h
    exact (Option.some_inj.mp h) ▸ hP
  | cons a L ih =>
    intro s s' hP h
    rw [List.foldlM_cons] at h
    cases hfa : f s a with
    | none =>
      rw [hfa] at h
      cases h
    | some s₁ =>
      rw [hfa] at h
      replace h : L.foldlM f s₁ = some s' := h
      exact ih s₁ s' (hf s a s₁ hP hfa) h

theorem relaxResolveAt_inv {cfg : SConfig} {n₀ : ℕ} {cols₀ : List (List ℕ)}
    (hnd₀ : ∀ c, (cols₀.getD c []).Nodup)
    (hbnd₀ : ∀ c, ∀ m ∈ cols₀.getD c [], m < n₀)
    (hdis₀ : ∀ c e, c ≠ e → ∀ m ∈ cols₀.getD c [], ¬ m ∈ cols₀.getD e [])
    {damping : ℚ} {useTarget : Bool} {st st' : SGraph × List (List ℕ)} {c : ℕ}
    (hinv : RelaxInv cfg n₀ cols₀ st)
    (h : relaxResolveAt cfg damping useTarget st c = some st') :
    RelaxInv cfg n₀ cols₀ st' := by
  obtain ⟨hn, hlen, hperm, hsep⟩ := hinv
  rw [relaxResolveAt] at h
  cases hres : resolveCollisions cfg (relaxColumn damping useTarget st.1 (st.2.getD c []))
      (st.2.getD c []) with
  | none =>
    rw [hres] at h
    cases h
  | some p =>
    obtain ⟨g'', col'⟩ := p
    rw [hres] at h
    replace h : some (g'', st.2.set c col') = some st' := h
    obtain rfl : (g'', st.2.set c col') = st' := Option.some_inj.mp h
    have hcolnd : (st.2.getD c []).Nodup := (hperm c).symm.nodup (hnd₀ c)
    have hbnd_col : ∀ m ∈ st.2.getD c [],
        m < (relaxColumn damping useTarget st.1 (st.2.getD c [])).nodes.length := by
      intro m hm
      rw [(sameButY_relaxColumn damping useTarget st.1 _).2.1, hn]
      exact hbnd₀ c m ((hperm c).mem_iff.mp hm)
    have hrs := resolveCollisions_sep hcolnd hbnd_col hres
    have hnonmem : ∀ m, ¬ m ∈ st.2.getD c [] → nodeAt g'' m = nodeAt st.1 m := by
      intro m hm
      rw [hrs.2.1 m hm]
      exact relaxColumn_not_mem damping useTarget st.1 _ m hm
    have hsb : SameButY st.1 g'' :=
      sameButY_trans (sameButY_relaxColumn damping useTarget st.1 _)
        (resolveCollisions_some hres).1
    have hc_lt : c < st.2.length := by
      by_contra hcge
      have hnil : st.2.getD c [] = [] := getD_out_of_range [] st.2 c (Nat.le_of_not_lt hcge)
      rw [hnil, resolveCollisions_none_iff.mpr rfl] at hres
      cases hres
    refine ⟨?_, ?_, ?_, ?_⟩
    · show g''.nodes.length = n₀
      rw [hsb.2.1]
      exact hn
    · show (st.2.set c col').length = cols₀.length
      rw [List.length_set]
      exact hlen
    · intro d
      show ((st.2.set c col').getD d []).Perm (cols₀.getD d [])
      by_cases hdc : d = c
      · subst hdc
        rw [getD_set_self [] st.2 d col' hc_lt]
        exact hrs.2.2.trans (hperm d)
      · rw [getD_set_ne [] st.2 c d col' hdc]
        exact hperm d
    · intro d
      show ∃ l, l.Perm ((st.2.set c col').getD d []) ∧ ColSep cfg g'' l
      by_cases hdc : d = c
      · subst hdc
        rw [getD_set_self [] st.2 d col' hc_lt]
        exact ⟨col', List.Perm.refl col', hrs.1⟩
      · rw [getD_set_ne [] st.2 c d col' hdc]
        obtain ⟨l, hl, hlsep⟩ := hsep d
        refine ⟨l, hl, colSep_congr ?_ hlsep⟩
        intro m hm
        apply hnonmem
        intro hmc
        exact hdis₀ d c hdc m ((hperm d).mem_iff.mp (hl.mem_iff.mp hm))
          ((hperm c).mem_iff.mp hmc)

theorem relaxIteration_inv {cfg : SConfig} {n₀ : ℕ} {cols₀ : List (List ℕ)}
    (hnd₀ : ∀ c, (cols₀.getD c []).Nodup)
    (hbnd₀ : ∀ c, ∀ m ∈ cols₀.getD c [], m < n₀)
    (hdis₀ : ∀ c e, c ≠ e → ∀ m ∈ cols₀.getD c [], ¬ m ∈ cols₀.getD e [])
    {total i : ℕ} {st st' : SGraph × List (List ℕ)}
    (hinv : RelaxInv cfg n₀ cols₀ st)
    (h : relaxIteration cfg total i st = some st') :
    RelaxInv cfg n₀ cols₀ st' := by
  rw [relaxIteration] at h
  simp only [bind, Option.bind_eq_bind] at h
  cases h₁ : ((List.range st.2.length).drop 1).foldlM
      (relaxResolveAt cfg (relaxDamping total i) true) st with
  | none =>
    rw [h₁] at h
    cases h
  | some st₁ =>
    rw [h₁] at h
    replace h : ((List.range (st.2.length - 1)).reverse).foldlM
        (relaxResolveAt cfg (relaxDamping total i) false) st₁ = some st' := h
    have ha : RelaxInv cfg n₀ cols₀ st₁ :=
      foldlM_inv (RelaxInv cfg n₀ cols₀) _
        (fun s a s' hs hsa => relaxResolveAt_inv hnd₀ hbnd₀ hdis₀ hs hsa) _ st st₁ hinv h₁
    exact foldlM_inv (RelaxInv cfg n₀ cols₀) _
      (fun s a s' hs hsa => relaxResolveAt_inv hnd₀ hbnd₀ hdis₀ hs hsa) _ st₁ st' ha h

theorem relaxLoopAux_inv {cfg : SConfig} {n₀ : ℕ} {cols₀ : List (List ℕ)}
    (hnd₀ : ∀ c, (cols₀.getD c []).Nodup)
    (hbnd₀ : ∀ c, ∀ m ∈ cols₀.getD c [], m < n₀)
    (hdis₀ : ∀ c e, c ≠ e → ∀ m ∈ cols₀.getD c [], ¬ m ∈ cols₀.getD e [])
    {total : ℕ} :
    ∀ {rem i : ℕ} {st st' : SGraph × List (List ℕ)},
      RelaxInv cfg n₀ cols₀ st →
      relaxLoopAux cfg total i rem (some st) = some st' →
      RelaxInv cfg n₀ cols₀ st' := by
  intro rem
  induction rem with
  | zero =>
    intro i st st' hinv h
    cases h
    exact hinv
  | succ rem ih =>
    intro i st st' hinv h
    rw [relaxLoopAux,
      show (some st >>= relaxIteration cfg total i) = relaxIteration cfg total i st from rfl] at h
    cases h₁ : relaxIteration cfg total i st with
    | none =>
      rw [h₁, relaxLoopAux_none] at h
      cases h
    | some st₁ =>
      rw [h₁] at h
      exact ih (relaxIteration_inv hnd₀ hbnd₀ hdis₀ hinv h₁) h

theorem stackFold_chain (cfg : SConfig) (scale : ℚ) :
    ∀ (L : List ℕ) (st : SGraph × ℚ), L.Nodup →
      (∀ m ∈ L, m < st.1.nodes.length) →
      (∀ b ∈ L.head?, (nodeAt ((L.foldl (stackStep cfg scale) st).1) b).y = st.2) ∧
      ColSep cfg ((L.foldl (stackStep cfg scale) st).1) L := by
  intro L
  induction L with
  | nil =>
    intro st _ _
    refine ⟨fun b hb => ?_, List.chain'_nil⟩
    cases hb
  | cons a L ih =>
    intro st hnd hbnd
    have ha_lt : a < st.1.nodes.length := hbnd a (List.mem_cons_self a L)
    have hanotL : ¬ a ∈ L := (List.nodup_cons.mp hnd).1
    have hstep1 : (stackStep cfg scale st a).1 =
        setNode st.1 a (fun n => { n with
          y := st.2, height := max 1 ((nodeAt st.1 a).value * scale) }) := rfl
    have hya : (nodeAt (stackStep cfg scale st a).1 a).y = st.2 := by
      rw [hstep1, nodeAt_setNode_self _ ha_lt]
    have hha : (nodeAt (stackStep cfg scale st a).1 a).height =
        max 1 ((nodeAt st.1 a).value * scale) := by
      rw [hstep1, nodeAt_setNode_self _ ha_lt]
    have hstep2 : (stackStep cfg scale st a).2 =
        st.2 + max 1 ((nodeAt st.1 a).value * scale) + cfg.nodePadding := rfl
    have hlen1 : (stackStep cfg scale st a).1.nodes.length = st.1.nodes.length := by
      rw [hstep1, length_nodes_setNode]
    have hbnd1 : ∀ m ∈ L, m < (stackStep cfg scale st a).1.nodes.length := by
      intro m hm
      rw [hlen1]
      exact hbnd m (List.mem_cons_of_mem a hm)
    have hih := ih (stackStep cfg scale st a) (List.nodup_cons.mp hnd).2 hbnd1
    have huntouched :
        nodeAt ((L.foldl (stackStep cfg scale) (stackStep cfg scale st a)).1) a =
          nodeAt (stackStep cfg scale st a).1 a :=
      stackFold_not_mem cfg scale L (stackStep cfg scale st a) a hanotL
    rw [List.foldl_cons]
    constructor
    · intro b hb
      have hba : a = b := by simpa using hb
      rw [← hba, huntouched]
      exact hya
    · rw [ColSep, List.chain'_cons']
      refine ⟨?_, hih.2⟩
      intro b hb
      have hGb := hih.1 b hb
      rw [SepPair, huntouched, hya, hha, hGb, hstep2]

theorem stackColumn_chain (cfg : SConfig) (scale : ℚ) (g : SGraph) (col : List ℕ)
    (hnd : col.Nodup) (hbnd : ∀ m ∈ col, m < g.nodes.length) :
    ∃ l, l.Perm col ∧ ColSep cfg (stackColumn cfg scale g col) l := by
  refine ⟨sortBy (fun i j => decide ((nodeAt g j).value ≤ (nodeAt g i).value)) col,
    sortBy_perm _ col, ?_⟩
  rw [stackColumn]
  exact (stackFold_chain cfg scale _ (g, cfg.padTop)
    ((sortBy_perm _ col).symm.nodup hnd)
    (fun m hm => hbnd m ((sortBy_perm _ col).mem_iff.mp hm))).2

theorem stackRange_colSep (cfg : SConfig) (scale : ℚ) (g₀ : SGraph) :
    ∀ (L : List ℕ) (g : SGraph) (c : ℕ), c ∈ L → L.Nodup →
      g.nodes.length = g₀.nodes.length →
      (∀ j, (nodeAt g j).depth = (nodeAt g₀ j).depth) →
      ∃ l, l.Perm ((List.range g₀.nodes.length).filter fun j => (nodeAt g₀ j).depth = c) ∧
        ColSep cfg (L.foldl (fun g' d => stackColumn cfg scale g'
          ((List.range g₀.nodes.length).filter fun j => (nodeAt g₀ j).depth = d)) g) l := by
  intro L
  induction L with
  | nil => intro g c hmem _ _ _; cases hmem
  | cons a L ih =>
    intro g c hmem hnd hlen hdep
    rw [List.foldl_cons]
    set col := (List.range g₀.nodes.length).filter
      (fun j => (nodeAt g₀ j).depth = a) with hcol
    have hYH := sameButYH_stackColumn cfg scale g col
    by_cases hcL : c ∈ L
    · exact ih (stackColumn cfg scale g col) c hcL (List.Nodup.of_cons hnd)
        (by rw [hYH.2.1]; exact hlen)
        (fun j => by rw [hYH.2.2 j]; exact hdep j)
    · have hca : c = a := by
        rcases List.mem_cons.mp hmem with h | h
        · exact h
        · exact absurd h hcL
      subst hca
      have hbnd_col : ∀ m ∈ col, m < g.nodes.length := by
        intro m hm
        rw [hcol, mem_columnOf_iff] at hm
        rw [hlen]
        exact hm.1
      have hnd_col : col.Nodup := by
        rw [hcol]
        exact (List.nodup_range _).filter _
      obtain ⟨l, hlperm, hlsep⟩ := stackColumn_chain cfg scale g col hnd_col hbnd_col
      refine ⟨l, by rw [hcol] at hlperm; exact hlperm, ?_⟩
      refine colSep_congr ?_ hlsep
      intro m hm
      refine stackRange_not_mem cfg scale
        (fun d => (List.range g₀.nodes.length).filter fun j => (nodeAt g₀ j).depth = d) L
        (stackColumn cfg scale g col) m ?_
      intro d hd hc2
      rw [mem_columnOf_iff] at hc2
      have hm_col : m ∈ col := hlperm.mem_iff.mp hm
      rw [hcol, mem_columnOf_iff] at hm_col
      have hcd : c = d := hm_col.2.symm.trans hc2.2
      exact hcL (hcd.symm ▸ hd)

theorem initializeNodeY_colSepUpTo (cfg : SConfig) (g : SGraph) (c : ℕ) :
    ∃ l, l.Perm ((getColumns g).getD c []) ∧ ColSep cfg (initializeNodeY cfg g) l := by
  by_cases hc : c < maxDepth g + 1
  · rw [getColumns_getD hc, initializeNodeY_eq_foldRange]
    exact stackRange_colSep cfg (globalScale cfg g) g (List.range (maxDepth g + 1)) g c
      (List.mem_range.mpr hc) (List.nodup_range _) rfl (fun _ => rfl)
  · rw [getColumns_getD_out hc]
    exact ⟨[], List.Perm.refl [], List.chain'_nil⟩

/-- C4: after a successful `compute()` under any nonnegative `nodePadding`
and any relaxation iteration count (including 0), no two distinct nodes of
the same depth have overlapping vertical ranges `[y, y + height)`: one of
the two lies entirely at or above the other's top edge. -/
theorem c4_no_overlap (cfg : SConfig) (g g' : SGraph)
    (hpad : 0 ≤ cfg.nodePadding) (hc : compute cfg g = some g')
    (i j : ℕ) (hi : i < g'.nodes.length) (hj : j < g'.nodes.length) (hij : i ≠ j)
    (hd : (nodeAt g' i).depth = (nodeAt g' j).depth) :
    (nodeAt g' i).y + (nodeAt g' i).height ≤ (nodeAt g' j).y ∨
    (nodeAt g' j).y + (nodeAt g' j).height ≤ (nodeAt g' i).y := by
  by_cases hne : g.nodes.isEmpty = true
  · exfalso
    rw [compute, if_pos hne] at hc
    obtain rfl : g = g' := Option.some_inj.mp hc
    cases hnil : g.nodes with
    | nil => rw [hnil] at hi; simp at hi
    | cons a t => rw [hnil] at hne; simp at hne
  · obtain ⟨g₅, hrel, hg'⟩ := compute_decomp hne hc
    set g₄ := initializeNodeY cfg (positionNodesX cfg (computeNodeValues (computeDepths cfg g)))
      with hg₄
    have hsbY := relaxNodePositions_some hrel
    have hYH := sameButYH_initializeNodeY cfg
      (positionNodesX cfg (computeNodeValues (computeDepths cfg g)))
    rw [← hg₄] at hYH
    -- conversions between g' and g₅
    have hso := sameButLinkOrder_sortNodeLinks g₅
    have hnodes' : g'.nodes = (sortNodeLinks g₅).nodes := by
      rw [hg']
      show (setTys (setWidths (sortNodeLinks g₅))).nodes = _
      rw [setTys_nodes, setWidths_nodes]
    have hrec : ∀ m, nodeAt g' m = { nodeAt g₅ m with
        sourceLinks := (nodeAt (sortNodeLinks g₅) m).sourceLinks,
        targetLinks := (nodeAt (sortNodeLinks g₅) m).targetLinks } := by
      intro m
      rw [nodeAt_congr_nodes hnodes' m]
      exact (hso.2.2 m).1
    have hy' : ∀ m, (nodeAt g' m).y = (nodeAt g₅ m).y := fun m => by rw [hrec m]
    have hh' : ∀ m, (nodeAt g' m).height = (nodeAt g₅ m).height := fun m => by rw [hrec m]
    have hd' : ∀ m, (nodeAt g' m).depth = (nodeAt g₅ m).depth := fun m => by rw [hrec m]
    have hlen' : g'.nodes.length = g₅.nodes.length := by
      rw [hnodes', hso.2.1]
    -- dissect the relaxation loop
    rw [relaxNodePositions] at hrel
    cases hloop : relaxLoopAux cfg cfg.iterations 0 cfg.iterations
        (some (g₄, getColumns g₄)) with
    | none =>
      rw [hloop] at hrel
      cases hrel
    | some stF =>
      rw [hloop] at hrel
      replace hrel : some stF.1 = some g₅ := hrel
      have hstF : stF.1 = g₅ := Option.some_inj.mp hrel
      have hcols : getColumns g₄ =
          getColumns (positionNodesX cfg (computeNodeValues (computeDepths cfg g))) :=
        getColumns_congr hYH.2.1 (fun m => by rw [hYH.2.2 m])
      have hinv₀ : RelaxInv cfg g₄.nodes.length (getColumns g₄) (g₄, getColumns g₄) := by
        refine ⟨rfl, rfl, fun c => List.Perm.refl _, fun c => ?_⟩
        show ∃ l, l.Perm ((getColumns g₄).getD c []) ∧ ColSep cfg g₄ l
        rw [hcols, hg₄]
        exact initializeNodeY_colSepUpTo cfg _ c
      have hinvF := relaxLoopAux_inv (fun c => getColumns_nodup g₄ c)
        (fun c => getColumns_bnd g₄ c) (getColumns_disjoint g₄) hinv₀ hloop
      obtain ⟨hnF, hlenF, hpermF, hsepF⟩ := hinvF
      have hlen₅₄ : g₅.nodes.length = g₄.nodes.length := hsbY.2.1
      rw [hlen', hlen₅₄] at hi hj
      have hdep₄ : ∀ m, (nodeAt g₅ m).depth = (nodeAt g₄ m).depth := depth_of_sameButY hsbY
      have hdij : (nodeAt g₄ i).depth = (nodeAt g₄ j).depth := by
        rw [← hdep₄ i, ← hdep₄ j, ← hd' i, ← hd' j]
        exact hd
      have hi_mem : i ∈ (getColumns g₄).getD ((nodeAt g₄ i).depth) [] := mem_getColumns_self hi
      have hj_mem : j ∈ (getColumns g₄).getD ((nodeAt g₄ i).depth) [] := by
        rw [hdij]
        exact mem_getColumns_self hj
      obtain ⟨l, hl, hlsep⟩ := hsepF ((nodeAt g₄ i).depth)
      have hil : i ∈ l := hl.mem_iff.mpr ((hpermF _).mem_iff.mpr hi_mem)
      have hjl : j ∈ l := hl.mem_iff.mpr ((hpermF _).mem_iff.mpr hj_mem)
      have hh₅ : ∀ m ∈ l, 0 ≤ (nodeAt stF.1 m).height := by
        intro m hm
        have hm₀ : m ∈ (getColumns g₄).getD ((nodeAt g₄ i).depth) [] :=
          (hpermF _).mem_iff.mp (hl.mem_iff.mp hm)
        have hm_lt : m < g₄.nodes.length := getColumns_bnd g₄ _ m hm₀
        have hm₃ : m < (positionNodesX cfg (computeNodeValues (computeDepths cfg g))).nodes.length := by
          rw [← hYH.2.1]
          exact hm_lt
        rw [hstF, height_of_sameButY hsbY m, hg₄, initializeNodeY_height cfg _ m hm₃]
        exact le_trans zero_le_one (le_max_left 1 _)
      have happly := colSep_apart hpad hh₅ hlsep hil hjl hij
      rw [hstF] at happly
      rcases happly with h1 | h1
      · left
        rw [hy' i, hy' j, hh' i]
        exact h1
      · right
        rw [hy' i, hy' j, hh' j]
        exact h1

set_option maxRecDepth 100000 in
theorem c4_witness :
    0 ≤ cfgZeroIter.nodePadding ∧
    compute cfgZeroIter gTwoChains = some gTwoChainsZOut ∧
    ((nodeAt gTwoChainsZOut 0).y + (nodeAt gTwoChainsZOut 0).height ≤
        (nodeAt gTwoChainsZOut 1).y ∨
      (nodeAt gTwoChainsZOut 1).y + (nodeAt gTwoChainsZOut 1).height ≤
        (nodeAt gTwoChainsZOut 0).y) :=
  ⟨by decide, by decide,
    c4_no_overlap cfgZeroIter gTwoChains gTwoChainsZOut (by decide) (by decide) 0 1
      (by decide) (by decide) (by decide) (by decide)⟩

theorem bfsStepNode_inv {g₀ : SGraph} {vis₀ : List ℕ} {d : ℕ}
    {st : SGraph × List ℕ × List ℕ}
    (hK : BfsLevelInv g₀ vis₀ d st) (idx : ℕ) :
    BfsLevelInv g₀ vis₀ d (bfsStepNode d st idx) := by
  obtain ⟨hlen, hsub, hold, hnew, hpush⟩ := hK
  have hstep : bfsStepNode d st idx =
      if idx ∈ st.2.1 then st
      else (setNode st.1 idx (fun n => { n with depth := d }), idx :: st.2.1,
        st.2.2 ++ pushTargets (setNode st.1 idx (fun n => { n with depth := d }))
          (idx :: st.2.1) (nodeAt st.1 idx).sourceLinks) := rfl
  rw [hstep]
  by_cases hidx : idx ∈ st.2.1
  · rw [if_pos hidx]
    exact ⟨hlen, hsub, hold, hnew, hpush⟩
  · rw [if_neg hidx]
    refine ⟨?_, ?_, ?_, ?_, ?_⟩
    · show (setNode st.1 idx _).nodes.length = g₀.nodes.length
      rw [length_nodes_setNode]
      exact hlen
    · intro u hu
      exact List.mem_cons_of_mem idx (hsub u hu)
    · intro u hu
      have hne : idx ≠ u := fun h => hidx (h ▸ hsub u hu)
      show nodeAt (setNode st.1 idx _) u = nodeAt g₀ u
      rw [nodeAt_setNode_ne _ hne]
      exact hold u hu
    · intro m hm hmem
      rcases List.mem_cons.mp hmem with rfl | hmem'
      · right
        show (nodeAt (setNode st.1 m _) m).depth = d
        rw [nodeAt_setNode_self _ (by rw [hlen]; exact hm)]
      · rcases hnew m hm hmem' with h | h
        · exact Or.inl h
        · right
          have hne : idx ≠ m := fun he => hidx (he ▸ hmem')
          show (nodeAt (setNode st.1 idx _) m).depth = d
          rw [nodeAt_setNode_ne _ hne]
          exact h
    · intro hne2
      by_cases hold2 : st.2.2 = []
      · have hpt : ¬ pushTargets (setNode st.1 idx (fun n => { n with depth := d }))
            (idx :: st.2.1) ((nodeAt st.1 idx).sourceLinks) = [] := by
          intro h
          apply hne2
          show st.2.2 ++ _ = []
          rw [hold2, h]
          rfl
        have hsl : ¬ (nodeAt st.1 idx).sourceLinks = [] := by
          intro h
          apply hpt
          rw [pushTargets, h]
          rfl
        have hidxlt : idx < g₀.nodes.length := by
          by_contra hge
          apply hsl
          rw [nodeAt_out_of_range (by rw [hlen]; exact hge), sourceLinks_default]
        refine ⟨idx, hidxlt, List.mem_cons_self _ _, ?_, ?_⟩
        · show (nodeAt (setNode st.1 idx _) idx).depth = d
          rw [nodeAt_setNode_self _ (by rw [hlen]; exact hidxlt)]
        · show ¬ (nodeAt (setNode st.1 idx _) idx).sourceLinks = []
          rw [nodeAt_setNode_self _ (by rw [hlen]; exact hidxlt)]
          exact hsl
      · obtain ⟨u, hu1, hu2, hu3, hu4⟩ := hpush hold2
        have hne : idx ≠ u := fun h => hidx (h ▸ hu2)
        refine ⟨u, hu1, List.mem_cons_of_mem idx hu2, ?_, ?_⟩
        · show (nodeAt (setNode st.1 idx _) u).depth = d
          rw [nodeAt_setNode_ne _ hne]
          exact hu3
        · show ¬ (nodeAt (setNode st.1 idx _) u).sourceLinks = []
          rw [nodeAt_setNode_ne _ hne]
          exact hu4

theorem bfsLevel_fold_inv (g : SGraph) (vis : List ℕ) (d : ℕ) :
    ∀ (cur : List ℕ) (st : SGraph × List ℕ × List ℕ), BfsLevelInv g vis d st →
      BfsLevelInv g vis d (cur.foldl (bfsStepNode d) st) := by
  intro cur
  induction cur with
  | nil => intro st h; exact h
  | cons a cur ih =>
    intro st h
    rw [List.foldl_cons]
    exact ih _ (bfsStepNode_inv h a)

theorem bfsLevelInv_init (g : SGraph) (vis : List ℕ) (d : ℕ) :
    BfsLevelInv g vis d (g, vis, []) :=
  ⟨rfl, fun _ hu => hu, fun _ _ => rfl, fun _ _ hm => Or.inl hm, fun h => absurd rfl h⟩

theorem bfsInv_step (g : SGraph) (vis current : List ℕ) (d : ℕ)
    (hI : BfsInv g vis current d) (hcur : ¬ current = []) :
    BfsInv (bfsLevel g vis current d).1 (bfsLevel g vis current d).2.1
      (bfsLevel g vis current d).2.2 (d + 1) := by
  have hK : BfsLevelInv g vis d (bfsLevel g vis current d) := by
    rw [bfsLevel]
    exact bfsLevel_fold_inv g vis d current (g, vis, []) (bfsLevelInv_init g vis d)
  obtain ⟨hlen, hsub, hold, hnew, hpush⟩ := hK
  obtain ⟨hB, hC⟩ := hI
  constructor
  · intro m hm hmem
    rw [hlen] at hm
    rcases hnew m hm hmem with hv | hd
    · have hrec := hold m hv
      rw [hrec]
      obtain ⟨he, hchain⟩ := hB m hm hv
      refine ⟨Nat.lt_succ_of_lt he, ?_⟩
      intro h1
      obtain ⟨u, hu1, hu2, hu3, hu4⟩ := hchain h1
      refine ⟨u, by rw [hlen]; exact hu1, hsub u hu2, ?_, ?_⟩
      · rw [hold u hu2, hu3]
      · rw [hold u hu2]
        exact hu4
    · rw [hd]
      refine ⟨Nat.lt_succ_self d, ?_⟩
      intro h1
      obtain ⟨u, hu1, hu2, hu3, hu4⟩ := hC h1 hcur
      refine ⟨u, by rw [hlen]; exact hu1, hsub u hu2, ?_, ?_⟩
      · rw [hold u hu2, hu3]
      · rw [hold u hu2]
        exact hu4
  · intro _ hne
    obtain ⟨u, hu1, hu2, hu3, hu4⟩ := hpush hne
    exact ⟨u, by rw [hlen]; exact hu1, hu2, hu3, hu4⟩

theorem bfsAux_chain :
    ∀ (fuel : ℕ) (g : SGraph) (vis cur : List ℕ) (d : ℕ), BfsInv g vis cur d →
      ∀ m, m < (bfsAux fuel g vis cur d).1.nodes.length →
        m ∈ (bfsAux fuel g vis cur d).2 →
        1 ≤ (nodeAt (bfsAux fuel g vis cur d).1 m).depth →
        ∃ u, u < (bfsAux fuel g vis cur d).1.nodes.length ∧
          u ∈ (bfsAux fuel g vis cur d).2 ∧
          (nodeAt (bfsAux fuel g vis cur d).1 u).depth =
            (nodeAt (bfsAux fuel g vis cur d).1 m).depth - 1 ∧
          ¬ (nodeAt (bfsAux fuel g vis cur d).1 u).sourceLinks = [] := by
  intro fuel
  induction fuel with
  | zero =>
    intro g vis cur d hI m hm hmem h1
    exact (hI.1 m hm hmem).2 h1
  | succ fuel ih =>
    intro g vis cur d hI
    rw [bfsAux]
    by_cases hcur : cur.isEmpty = true
    · rw [if_pos hcur]
      intro m hm hmem h1
      exact (hI.1 m hm hmem).2 h1
    · rw [if_neg hcur]
      have hcur' : ¬ cur = [] := fun h => hcur (by rw [h]; rfl)
      exact ih _ _ _ _ (bfsInv_step g vis cur d hI hcur')

theorem foldr_max_mem : ∀ (l : List ℕ), ¬ l = [] → ∃ x ∈ l, l.foldr max 0 = x := by
  intro l
  induction l with
  | nil => intro h; exact absurd rfl h
  | cons a l ih =>
    intro _
    cases hl : l with
    | nil =>
      subst hl
      exact ⟨a, List.mem_cons_self a [], by simp⟩
    | cons b t =>
      obtain ⟨x, hx, hfx⟩ := ih (by rw [hl]; intro h; cases h)
      rw [← hl]
      rw [List.foldr_cons, hfx]
      rcases Nat.le_total a x with h | h
      · exact ⟨x, List.mem_cons_of_mem a hx, Nat.max_eq_right h⟩
      · exact ⟨a, List.mem_cons_self a l, Nat.max_eq_left h⟩

theorem foldr_max_le (D : ℕ) : ∀ (l : List ℕ), (∀ x ∈ l, x ≤ D) → l.foldr max 0 ≤ D := by
  intro l
  induction l with
  | nil => intro _; exact Nat.zero_le D
  | cons a l ih =>
    intro h
    rw [List.foldr_cons]
    exact Nat.max_le.mpr ⟨h a (List.mem_cons_self a l),
      ih fun x hx => h x (List.mem_cons_of_mem a hx)⟩

theorem maxDepth_attained {g : SGraph} (hne : ¬ g.nodes = []) :
    ∃ m, m < g.nodes.length ∧ (nodeAt g m).depth = maxDepth g := by
  have hmne : ¬ (g.nodes.map fun n => n.depth) = [] := by
    intro h
    exact hne (List.map_eq_nil_iff.mp h)
  obtain ⟨x, hx, hfx⟩ := foldr_max_mem _ hmne
  rw [List.mem_map] at hx
  obtain ⟨n, hn, rfl⟩ := hx
  obtain ⟨k, rfl⟩ := List.mem_iff_get.mp hn
  refine ⟨k.1, k.isLt, ?_⟩
  rw [nodeAt_eq_get k.isLt, maxDepth, hfx]

theorem maxDepth_le_of {g : SGraph} {D : ℕ}
    (h : ∀ m, m < g.nodes.length → (nodeAt g m).depth ≤ D) : maxDepth g ≤ D := by
  rw [maxDepth]
  apply foldr_max_le
  intro x hx
  rw [List.mem_map] at hx
  obtain ⟨n, hn, rfl⟩ := hx
  obtain ⟨k, rfl⟩ := List.mem_iff_get.mp hn
  have hd := h k.1 k.isLt
  rw [nodeAt_eq_get k.isLt] at hd
  exact hd

theorem length_unvisitedFallback (g : SGraph) (vis : List ℕ) :
    (unvisitedFallback g vis).nodes.length = g.nodes.length := by
  simp [unvisitedFallback]

theorem length_justifyAdjust (g : SGraph) :
    (justifyAdjust g).nodes.length = g.nodes.length := by
  simp [justifyAdjust]

theorem nodeAt_justifyAdjust (g : SGraph) (m : ℕ) :
    nodeAt (justifyAdjust g) m =
      if m < g.nodes.length then
        (if (nodeAt g m).sourceLinks.isEmpty ∧ (nodeAt g m).depth < maxDepth g
          then { nodeAt g m with depth := maxDepth g } else nodeAt g m)
      else default := by
  rw [justifyAdjust]
  rw [nodeAt_withMap]

theorem chain_column_attained {X : SGraph}
    (hchain : ∀ m, m < X.nodes.length → 1 ≤ (nodeAt X m).depth →
      ∃ u, u < X.nodes.length ∧ (nodeAt X u).depth = (nodeAt X m).depth - 1 ∧
        ¬ (nodeAt X u).sourceLinks = [])
    (hne : ¬ X.nodes = []) :
    ∀ k, k ≤ maxDepth X → ∃ m, m < X.nodes.length ∧
      (nodeAt X m).depth = maxDepth X - k ∧
      (1 ≤ k → ¬ (nodeAt X m).sourceLinks = []) := by
  intro k
  induction k with
  | zero =>
    intro _
    obtain ⟨m, hm, hd⟩ := maxDepth_attained hne
    exact ⟨m, hm, by rw [hd]; omega, fun h => absurd h (by omega)⟩
  | succ k ih =>
    intro hk
    obtain ⟨m, hm, hd, _⟩ := ih (by omega)
    have h1 : 1 ≤ (nodeAt X m).depth := by
      rw [hd]
      omega
    obtain ⟨u, hu, hud, hus⟩ := hchain m hm h1
    refine ⟨u, hu, ?_, fun _ => hus⟩
    rw [hud, hd]
    omega

theorem computeDepths_contiguous (cfg : SConfig) (g : SGraph) (hne : ¬ g.nodes = []) :
    ∀ e, e ≤ maxDepth (computeDepths cfg g) →
      ∃ m, m < (computeDepths cfg g).nodes.length ∧
        (nodeAt (computeDepths cfg g) m).depth = e := by
  rw [computeDepths]
  dsimp only
  split
  · -- circular fallback: every node at depth 0
    intro e he
    have hlen0 : 0 < (setAllDepth g 0).nodes.length := by
      rw [length_setAllDepth]
      exact List.length_pos.mpr hne
    have hmax : maxDepth (setAllDepth g 0) = 0 :=
      maxDepth_eq_zero fun i hi =>
        depth_setAllDepth g 0 (by rw [← length_setAllDepth g 0]; exact hi)
    rw [hmax] at he
    interval_cases e
    exact ⟨0, hlen0, depth_setAllDepth g 0 (by rw [← length_setAllDepth g 0]; exact hlen0)⟩
  · -- BFS branch
    have hI₀ : BfsInv g [] (sourcesOf g) 0 :=
      ⟨fun m _ hmem => absurd hmem (List.not_mem_nil m),
        fun h0 _ => absurd h0 (by omega)⟩
    have hchainF := bfsAux_chain (g.nodes.length + 2) g [] (sourcesOf g) 0 hI₀
    have hlenF : (bfsAux (g.nodes.length + 2) g [] (sourcesOf g) 0).1.nodes.length =
        g.nodes.length :=
      (sameShape_bfsAux (g.nodes.length + 2) g [] (sourcesOf g) 0).1
    -- the chain property survives the unvisited fallback
    have hchain1 : ∀ m,
        m < (unvisitedFallback (bfsAux (g.nodes.length + 2) g [] (sourcesOf g) 0).1
          (bfsAux (g.nodes.length + 2) g [] (sourcesOf g) 0).2).nodes.length →
        1 ≤ (nodeAt (unvisitedFallback (bfsAux (g.nodes.length + 2) g [] (sourcesOf g) 0).1
          (bfsAux (g.nodes.length + 2) g [] (sourcesOf g) 0).2) m).depth →
        ∃ u, u < (unvisitedFallback (bfsAux (g.nodes.length + 2) g [] (sourcesOf g) 0).1
            (bfsAux (g.nodes.length + 2) g [] (sourcesOf g) 0).2).nodes.length ∧
          (nodeAt (unvisitedFallback (bfsAux (g.nodes.length + 2) g [] (sourcesOf g) 0).1
            (bfsAux (g.nodes.length + 2) g [] (sourcesOf g) 0).2) u).depth =
            (nodeAt (unvisitedFallback (bfsAux (g.nodes.length + 2) g [] (sourcesOf g) 0).1
              (bfsAux (g.nodes.length + 2) g [] (sourcesOf g) 0).2) m).depth - 1 ∧
          ¬ (nodeAt (unvisitedFallback (bfsAux (g.nodes.length + 2) g [] (sourcesOf g) 0).1
            (bfsAux (g.nodes.length + 2) g [] (sourcesOf g) 0).2) u).sourceLinks = [] := by
      intro m hm h1
      rw [length_unvisitedFallback] at hm
      rw [nodeAt_unvisitedFallback, if_pos hm] at h1
      by_cases hv : m ∈ (bfsAux (g.nodes.length + 2) g [] (sourcesOf g) 0).2
      · rw [if_pos hv] at h1
        obtain ⟨u, hu, huv, hud, hus⟩ := hchainF m hm hv h1
        refine ⟨u, by rw [length_unvisitedFallback]; exact hu, ?_, ?_⟩
        · rw [nodeAt_unvisitedFallback, if_pos hu, if_pos huv,
            nodeAt_unvisitedFallback, if_pos hm, if_pos hv]
          exact hud
        · rw [nodeAt_unvisitedFallback, if_pos hu, if_pos huv]
          exact hus
      · rw [if_neg hv] at h1
        exact absurd h1 (by simp)
    split
    · -- justify branch
      intro e he
      set G1 := unvisitedFallback (bfsAux (g.nodes.length + 2) g [] (sourcesOf g) 0).1
        (bfsAux (g.nodes.length + 2) g [] (sourcesOf g) 0).2 with hG1
      have hlg : G1.nodes.length = g.nodes.length := by
        rw [hG1, length_unvisitedFallback, hlenF]
      have hne1 : ¬ G1.nodes = [] := by
        intro h
        apply hne
        rw [← List.length_eq_zero, ← hlg, h]
        rfl
      -- maxDepth of the justified graph equals maxDepth G1
      have hmax_le : maxDepth (justifyAdjust G1) ≤ maxDepth G1 := by
        apply maxDepth_le_of
        intro m hm
        rw [length_justifyAdjust] at hm
        rw [nodeAt_justifyAdjust, if_pos hm]
        split
        · exact Nat.le_refl _
        · exact depth_le_maxDepth hm
      have hmax_ge : maxDepth G1 ≤ maxDepth (justifyAdjust G1) := by
        obtain ⟨m, hm, hd⟩ := maxDepth_attained hne1
        have hdj : (nodeAt (justifyAdjust G1) m).depth = maxDepth G1 := by
          rw [nodeAt_justifyAdjust, if_pos hm]
          rw [if_neg]
          · exact hd
          · intro hcond
            rw [hd] at hcond
            exact absurd hcond.2 (by omega)
        rw [← hdj]
        exact depth_le_maxDepth (by rw [length_justifyAdjust]; exact hm)
      have hmaxj : maxDepth (justifyAdjust G1) = maxDepth G1 :=
        Nat.le_antisymm hmax_le hmax_ge
      rw [hmaxj] at he
      obtain ⟨m, hm, hd, hsl⟩ := chain_column_attained hchain1 hne1 (maxDepth G1 - e)
        (by omega)
      have hde : (nodeAt G1 m).depth = e := by
        rw [hd]
        omega
      refine ⟨m, by rw [length_justifyAdjust]; exact hm, ?_⟩
      rw [nodeAt_justifyAdjust, if_pos hm]
      by_cases hee : e = maxDepth G1
      · rw [if_neg]
        · rw [hde]
        · intro hcond
          rw [hde, hee] at hcond
          exact absurd hcond.2 (by omega)
      · have hlt : e < maxDepth G1 := by omega
        rw [if_neg]
        · rw [hde]
        · intro hcond
          have hsl' := hsl (by omega)
          rw [List.isEmpty_iff] at hcond
          exact hsl' hcond.1
    · -- no justify
      intro e he
      set G1 := unvisitedFallback (bfsAux (g.nodes.length + 2) g [] (sourcesOf g) 0).1
        (bfsAux (g.nodes.length + 2) g [] (sourcesOf g) 0).2 with hG1
      have hlg : G1.nodes.length = g.nodes.length := by
        rw [hG1, length_unvisitedFallback, hlenF]
      have hne1 : ¬ G1.nodes = [] := by
        intro h
        apply hne
        rw [← List.length_eq_zero, ← hlg, h]
        rfl
      obtain ⟨m, hm, hd, _⟩ := chain_column_attained hchain1 hne1 (maxDepth G1 - e) (by omega)
      refine ⟨m, hm, ?_⟩
      rw [hd]
      omega

theorem relaxResolveAt_total {cfg : SConfig} {damping : ℚ} {useTarget : Bool}
    {st : SGraph × List (List ℕ)} {c : ℕ}
    (hne : ColsNE st) (hc : c < st.2.length) :
    ∃ st', relaxResolveAt cfg damping useTarget st c = some st' ∧ ColsNE st' ∧
      st'.2.length = st.2.length := by
  rw [relaxResolveAt]
  cases hres : resolveCollisions cfg (relaxColumn damping useTarget st.1 (st.2.getD c []))
      (st.2.getD c []) with
  | none =>
    exact absurd (resolveCollisions_none_iff.mp hres) (hne c hc)
  | some p =>
    obtain ⟨g'', col'⟩ := p
    refine ⟨(g'', st.2.set c col'), rfl, ?_, List.length_set st.2 c col'⟩
    intro d hd
    have hd' : d < st.2.length := by
      rw [← List.length_set st.2 c col']
      exact hd
    show ¬ (st.2.set c col').getD d [] = []
    by_cases hdc : d = c
    · subst hdc
      rw [getD_set_self [] st.2 d col' hd']
      intro hnil
      have hpp : col'.Perm (st.2.getD d []) := by
        rw [(resolveCollisions_some hres).2]
        exact sortBy_perm _ _
      rw [hnil] at hpp
      exact hne d hd' hpp.symm.eq_nil
    · rw [getD_set_ne [] st.2 c d col' hdc]
      exact hne d hd'

theorem foldlM_total {σ α : Type _} (P : σ → Prop) (f : σ → α → Option σ) :
    ∀ (L : List α), (∀ s a, a ∈ L → P s → ∃ s', f s a = some s' ∧ P s') →
      ∀ s, P s → ∃ s', L.foldlM f s = some s' ∧ P s' := by
  intro L
  induction L with
  | nil =>
    intro _ s hP
    exact ⟨s, rfl, hP⟩
  | cons a L ih =>
    intro hf s hP
    obtain ⟨s₁, hs₁, hP₁⟩ := hf s a (List.mem_cons_self a L) hP
    obtain ⟨s', hs', hP'⟩ := ih (fun s2 b hb h2 => hf s2 b (List.mem_cons_of_mem a hb) h2) s₁ hP₁
    refine ⟨s', ?_, hP'⟩
    rw [List.foldlM_cons, hs₁]
    exact hs'

theorem relaxIteration_total {cfg : SConfig} {total i : ℕ} {st : SGraph × List (List ℕ)}
    (h : ColsNE st) :
    ∃ st', relaxIteration cfg total i st = some st' ∧ ColsNE st' ∧
      st'.2.length = st.2.length := by
  have hP : ∀ (L : List ℕ), (∀ a ∈ L, a < st.2.length) →
      ∀ (ut : Bool) (s : SGraph × List (List ℕ)),
        ColsNE s ∧ s.2.length = st.2.length →
        ∃ s', L.foldlM (relaxResolveAt cfg (relaxDamping total i) ut) s = some s' ∧
          (ColsNE s' ∧ s'.2.length = st.2.length) := by
    intro L hL ut
    apply foldlM_total (fun s => ColsNE s ∧ s.2.length = st.2.length)
    intro s a ha hs
    obtain ⟨s', h1, h2, h3⟩ := relaxResolveAt_total hs.1 (by rw [hs.2]; exact hL a ha)
    exact ⟨s', h1, h2, by rw [h3]; exact hs.2⟩
  obtain ⟨st₁, h1, hP₁⟩ := hP ((List.range st.2.length).drop 1)
    (fun a ha => List.mem_range.mp (List.mem_of_mem_drop ha)) true st ⟨h, rfl⟩
  obtain ⟨st₂, h2, hP₂⟩ := hP ((List.range (st.2.length - 1)).reverse)
    (fun a ha => by
      have h3 := List.mem_range.mp (List.mem_reverse.mp ha)
      omega) false st₁ hP₁
  refine ⟨st₂, ?_, hP₂.1, hP₂.2⟩
  rw [relaxIteration]
  simp only [bind, Option.bind_eq_bind]
  rw [h1]
  exact h2

theorem relaxLoopAux_total {cfg : SConfig} {total : ℕ} :
    ∀ (rem i : ℕ) (st : SGraph × List (List ℕ)), ColsNE st →
      ∃ st', relaxLoopAux cfg total i rem (some st) = some st' := by
  intro rem
  induction rem with
  | zero => intro i st _; exact ⟨st, rfl⟩
  | succ rem ih =>
    intro i st hst
    obtain ⟨st₁, h1, h2, _⟩ := @relaxIteration_total cfg total i st hst
    obtain ⟨st', h'⟩ := ih (i + 1) st₁ h2
    refine ⟨st', ?_⟩
    rw [relaxLoopAux,
      show (some st >>= relaxIteration cfg total i) = relaxIteration cfg total i st from rfl,
      h1]
    exact h'

theorem relaxNodePositions_total {cfg : SConfig} {g : SGraph}
    (h : ColsNE (g, getColumns g)) : ∃ g₅, relaxNodePositions cfg g = some g₅ := by
  obtain ⟨st', h'⟩ := relaxLoopAux_total cfg.iterations 0 (g, getColumns g) h
  refine ⟨st'.1, ?_⟩
  rw [relaxNodePositions, h']
  rfl

theorem maxDepth_congr {a b : SGraph} (hlen : b.nodes.length = a.nodes.length)
    (hdep : ∀ i, (nodeAt b i).depth = (nodeAt a i).depth) :
    maxDepth b = maxDepth a := by
  have hmap : b.nodes.map (fun n => n.depth) = a.nodes.map (fun n => n.depth) := by
    apply List.ext_getElem
    · simp [hlen]
    · intro k h1 h2
      rw [List.getElem_map, List.getElem_map]
      have hk : k < b.nodes.length := by simpa using h1
      have hk2 : k < a.nodes.length := by simpa using h2
      have hd := hdep k
      rw [nodeAt_eq_get hk, nodeAt_eq_get hk2] at hd
      simpa using hd
  rw [maxDepth, maxDepth, hmap]

/-- C7: `compute()` never fails, for any input graph and any configuration:
it always returns a result — every depth column of the graph handed to the
relaxation loop is nonempty, so `resolveCollisions` never dereferences an
element of an empty column — and on the empty graph it returns the graph
unchanged. -/
theorem c7_no_exceptions (cfg : SConfig) (g : SGraph) :
    (∃ g', compute cfg g = some g') ∧
    (g.nodes = [] → compute cfg g = some g) := by
  by_cases hne : g.nodes.isEmpty = true
  · constructor
    · exact ⟨g, by rw [compute, if_pos hne]⟩
    · intro _
      rw [compute, if_pos hne]
  · have hnil : ¬ g.nodes = [] := fun h => hne (by rw [h]; rfl)
    refine ⟨?_, fun h => absurd h hnil⟩
    set g1 := computeDepths cfg g with hg1
    set g2 := computeNodeValues g1 with hg2
    set g3 := positionNodesX cfg g2 with hg3
    set g4 := initializeNodeY cfg g3 with hg4
    have hYH := sameButYH_initializeNodeY cfg g3
    rw [← hg4] at hYH
    have hlen41 : g4.nodes.length = g1.nodes.length := by
      rw [hYH.2.1, hg3, length_positionNodesX, hg2, length_computeNodeValues]
    have hdep41 : ∀ m, (nodeAt g4 m).depth = (nodeAt g1 m).depth := by
      intro m
      rw [hYH.2.2 m]
      show (nodeAt g3 m).depth = _
      rw [hg3, depth_positionNodesX, hg2, depth_computeNodeValues]
    have hmax41 : maxDepth g4 = maxDepth g1 := maxDepth_congr hlen41 hdep41
    have hcont := computeDepths_contiguous cfg g hnil
    rw [← hg1] at hcont
    have hCN : ColsNE (g4, getColumns g4) := by
      intro c hc
      show ¬ (getColumns g4).getD c [] = []
      have hc' : c < maxDepth g4 + 1 := by
        rw [← getColumns_length g4]
        exact hc
      obtain ⟨m, hm, hd⟩ := hcont c (by omega)
      have hm4 : m < g4.nodes.length := by
        rw [hlen41]
        exact hm
      have hd4 : (nodeAt g4 m).depth = c := by
        rw [hdep41 m]
        exact hd
      intro hnil2
      have hmem : m ∈ (getColumns g4).getD c [] := by
        rw [← hd4]
        exact mem_getColumns_self hm4
      rw [hnil2] at hmem
      cases hmem
    obtain ⟨g₅, h₅⟩ := relaxNodePositions_total hCN
    refine ⟨computeLinkOffsets g₅, ?_⟩
    rw [compute, if_neg hne]
    show ((relaxNodePositions cfg (initializeNodeY cfg (positionNodesX cfg
        (computeNodeValues (computeDepths cfg g))))) >>=
      fun x => some (computeLinkOffsets x)) = some (computeLinkOffsets g₅)
    rw [show initializeNodeY cfg (positionNodesX cfg (computeNodeValues (computeDepths cfg g))) =
      g4 from by rw [hg4, hg3, hg2, hg1]]
    rw [h₅]
    rfl

theorem c7_witness :
    (∃ g', compute cfgTwoIter gEmpty = some g') ∧
    compute cfgTwoIter gEmpty = some gEmpty :=
  ⟨(c7_no_exceptions cfgTwoIter gEmpty).1, (c7_no_exceptions cfgTwoIter gEmpty).2 rfl⟩

/-! ### Generic two-run synchronization tools -/

theorem sameShape_symm {a b : SGraph} (h : SameShape a b) : SameShape b a := by
  obtain ⟨h1, h2, h3, h4⟩ := h
  refine ⟨h1.symm, h2.symm, fun l => ?_, fun i => ?_⟩
  · exact ⟨(h3 l).1.symm, (h3 l).2.1.symm, (h3 l).2.2.symm⟩
  · exact ⟨(h4 i).1.symm, (h4 i).2.1.symm, (h4 i).2.2.symm⟩

theorem perm_isEmpty {α : Type _} {l l' : List α} (h : l.Perm l') :
    l.isEmpty = l'.isEmpty := by
  cases l with
  | nil => rw [← h.nil_eq]
  | cons x t =>
    cases l' with
    | nil => cases h.symm.nil_eq
    | cons y s => rfl

theorem slink_ext {x y : SLink} (h1 : x.source = y.source) (h2 : x.target = y.target)
    (h3 : x.value = y.value) (h4 : x.width = y.width) (h5 : x.sy = y.sy)
    (h6 : x.ty = y.ty) : x = y := by
  cases x; cases y; simp_all

theorem snode_ext {x y : SNode} (h1 : x.id = y.id) (h2 : x.value = y.value)
    (h3 : x.depth = y.depth) (h4 : x.x = y.x) (h5 : x.y = y.y)
    (h6 : x.width = y.width) (h7 : x.height = y.height)
    (h8 : x.sourceLinks = y.sourceLinks) (h9 : x.targetLinks = y.targetLinks) :
    x = y := by
  cases x; cases y; simp_all

theorem sgraph_ext {a b : SGraph} (hn : a.nodes = b.nodes) (hl : a.links = b.links) :
    a = b := by
  cases a; cases b; simp_all

theorem nodes_ext {a b : SGraph} (hlen : a.nodes.length = b.nodes.length)
    (h : ∀ m, nodeAt a m = nodeAt b m) : a.nodes = b.nodes := by
  apply List.ext_getElem hlen
  intro k h1 h2
  have hk := h k
  rw [nodeAt_eq_get h1, nodeAt_eq_get h2] at hk
  simpa using hk

theorem links_ext {a b : SGraph} (hlen : a.links.length = b.links.length)
    (h : ∀ l, linkAt a l = linkAt b l) : a.links = b.links := by
  apply List.ext_getElem hlen
  intro k h1 h2
  have hk := h k
  rw [linkAt, linkAt] at hk
  rw [List.getD_eq_getElem?_getD, List.getElem?_eq_getElem h1] at hk
  rw [List.getD_eq_getElem?_getD, List.getElem?_eq_getElem h2] at hk
  simpa using hk

theorem foldl_sync {σ τ α : Type _} (R : σ → τ → Prop) (f : σ → α → σ) (f' : τ → α → τ)
    (hstep : ∀ x y i, R x y → R (f x i) (f' y i)) :
    ∀ (l : List α) (x : σ) (y : τ), R x y → R (l.foldl f x) (l.foldl f' y) := by
  intro l
  induction l with
  | nil => intro x y h; exact h
  | cons a l ih => intro x y h; exact ih _ _ (hstep x y a h)

theorem foldlM_sync {σ τ α : Type _} (R : σ → τ → Prop) (f : σ → α → Option σ)
    (f' : τ → α → Option τ)
    (hstep : ∀ x y i x', R x y → f x i = some x' → ∃ y', f' y i = some y' ∧ R x' y') :
    ∀ (l : List α) (x : σ) (y : τ) (x' : σ), R x y → l.foldlM f x = some x' →
      ∃ y', l.foldlM f' y = some y' ∧ R x' y' := by
  intro l
  induction l with
  | nil =>
    intro x y x' h hf
    cases hf
    exact ⟨y, rfl, h⟩
  | cons a l ih =>
    intro x y x' h hf
    rw [List.foldlM_cons] at hf
    cases hx : f x a with
    | none => rw [hx] at hf; cases hf
    | some x₁ =>
      rw [hx] at hf
      obtain ⟨y₁, hy₁, hR₁⟩ := hstep x y a x₁ h hx
      obtain ⟨y', hy', hR'⟩ := ih x₁ y₁ x' hR₁ hf
      refine ⟨y', ?_, hR'⟩
      rw [List.foldlM_cons, hy₁]
      exact hy'

/-! ### The BFS outcome depends only on the adjacency relation -/

theorem bfsStep_links (d : ℕ) (st : SGraph × List ℕ × List ℕ) (idx : ℕ) :
    (bfsStepNode d st idx).1.links = st.1.links := by
  rw [bfsStepNode]
  dsimp only
  split
  · rfl
  · exact links_setNode _ _ _

theorem bfsStep_len (d : ℕ) (st : SGraph × List ℕ × List ℕ) (idx : ℕ) :
    (bfsStepNode d st idx).1.nodes.length = st.1.nodes.length := by
  rw [bfsStepNode]
  dsimp only
  split
  · rfl
  · exact length_nodes_setNode _ _ _

theorem nodeAt_setDepth (g : SGraph) (i : ℕ) (d : ℕ) (m : ℕ) :
    nodeAt (setNode g i fun n => { n with depth := d }) m =
      if i = m ∧ i < g.nodes.length then { nodeAt g m with depth := d }
      else nodeAt g m := by
  by_cases hr : i < g.nodes.length
  · by_cases he : i = m
    · subst he
      rw [if_pos ⟨rfl, hr⟩, nodeAt_setNode_self _ hr]
    · rw [if_neg (fun hc : i = m ∧ i < g.nodes.length => he hc.1), nodeAt_setNode_ne _ he]
  · rw [if_neg (fun hc : i = m ∧ i < g.nodes.length => hr hc.2), setNode_out_of_range _ hr]

theorem bfsStep_srcLinks (d : ℕ) (st : SGraph × List ℕ × List ℕ) (idx m : ℕ) :
    (nodeAt (bfsStepNode d st idx).1 m).sourceLinks = (nodeAt st.1 m).sourceLinks := by
  rw [bfsStepNode]
  dsimp only
  split
  · rfl
  · rw [nodeAt_setDepth]
    split
    · rfl
    · rfl

theorem bfsStep_tgtLinks (d : ℕ) (st : SGraph × List ℕ × List ℕ) (idx m : ℕ) :
    (nodeAt (bfsStepNode d st idx).1 m).targetLinks = (nodeAt st.1 m).targetLinks := by
  rw [bfsStepNode]
  dsimp only
  split
  · rfl
  · rw [nodeAt_setDepth]
    split
    · rfl
    · rfl

theorem bfsStep_vis_iff (d : ℕ) (st : SGraph × List ℕ × List ℕ) (idx t : ℕ) :
    t ∈ (bfsStepNode d st idx).2.1 ↔ t ∈ st.2.1 ∨ t = idx := by
  rw [bfsStepNode]
  dsimp only
  split
  · rename_i hin
    constructor
    · exact Or.inl
    · rintro (h | h)
      · exact h
      · exact h ▸ hin
  · rw [List.mem_cons]
    constructor
    · rintro (h | h)
      · exact Or.inr h
      · exact Or.inl h
    · rintro (h | h)
      · exact Or.inr h
      · exact Or.inl h

theorem bfsStep_untouched (d : ℕ) (st : SGraph × List ℕ × List ℕ) (idx m : ℕ)
    (hm : m ∈ st.2.1) : nodeAt (bfsStepNode d st idx).1 m = nodeAt st.1 m := by
  rw [bfsStepNode]
  dsimp only
  split
  · rfl
  · rename_i hidx
    rw [nodeAt_setDepth]
    rw [if_neg (fun hc : idx = m ∧ idx < st.1.nodes.length => hidx (hc.1 ▸ hm))]

theorem bfsFold_links (d : ℕ) :
    ∀ (cur : List ℕ) (st : SGraph × List ℕ × List ℕ),
      (cur.foldl (bfsStepNode d) st).1.links = st.1.links := by
  intro cur
  induction cur with
  | nil => intro st; rfl
  | cons a cur ih =>
    intro st
    rw [List.foldl_cons, ih, bfsStep_links]

theorem bfsFold_len (d : ℕ) :
    ∀ (cur : List ℕ) (st : SGraph × List ℕ × List ℕ),
      (cur.foldl (bfsStepNode d) st).1.nodes.length = st.1.nodes.length := by
  intro cur
  induction cur with
  | nil => intro st; rfl
  | cons a cur ih =>
    intro st
    rw [List.foldl_cons, ih, bfsStep_len]

theorem bfsFold_srcLinks (d : ℕ) :
    ∀ (cur : List ℕ) (st : SGraph × List ℕ × List ℕ) (m : ℕ),
      (nodeAt (cur.foldl (bfsStepNode d) st).1 m).sourceLinks =
        (nodeAt st.1 m).sourceLinks := by
  intro cur
  induction cur with
  | nil => intro st m; rfl
  | cons a cur ih =>
    intro st m
    rw [List.foldl_cons, ih, bfsStep_srcLinks]

theorem bfsFold_tgtLinks (d : ℕ) :
    ∀ (cur : List ℕ) (st : SGraph × List ℕ × List ℕ) (m : ℕ),
      (nodeAt (cur.foldl (bfsStepNode d) st).1 m).targetLinks =
        (nodeAt st.1 m).targetLinks := by
  intro cur
  induction cur with
  | nil => intro st m; rfl
  | cons a cur ih =>
    intro st m
    rw [List.foldl_cons, ih, bfsStep_tgtLinks]

theorem bfsFold_vis_iff (d : ℕ) :
    ∀ (cur : List ℕ) (st : SGraph × List ℕ × List ℕ) (t : ℕ),
      t ∈ (cur.foldl (bfsStepNode d) st).2.1 ↔ t ∈ st.2.1 ∨ t ∈ cur := by
  intro cur
  induction cur with
  | nil =>
    intro st t
    simp
  | cons a cur ih =>
    intro st t
    rw [List.foldl_cons, ih, bfsStep_vis_iff, List.mem_cons]
    tauto

theorem bfsFold_visited_untouched (d : ℕ) :
    ∀ (cur : List ℕ) (st : SGraph × List ℕ × List ℕ) (m : ℕ), m ∈ st.2.1 →
      nodeAt (cur.foldl (bfsStepNode d) st).1 m = nodeAt st.1 m := by
  intro cur
  induction cur with
  | nil => intro st m _; rfl
  | cons a cur ih =>
    intro st m hm
    rw [List.foldl_cons]
    have hm' : m ∈ (bfsStepNode d st a).2.1 := (bfsStep_vis_iff d st a m).mpr (Or.inl hm)
    rw [ih _ m hm', bfsStep_untouched d st a m hm]

theorem bfsFold_new_depth (d : ℕ) :
    ∀ (cur : List ℕ) (st : SGraph × List ℕ × List ℕ) (m : ℕ),
      m ∈ cur → ¬ m ∈ st.2.1 → m < st.1.nodes.length →
      (nodeAt (cur.foldl (bfsStepNode d) st).1 m).depth = d := by
  intro cur
  induction cur with
  | nil => intro st m hm; cases hm
  | cons a cur ih =>
    intro st m hm hnv hlt
    rw [List.foldl_cons]
    by_cases he : m = a
    · subst he
      have hvm : m ∈ (bfsStepNode d st m).2.1 := (bfsStep_vis_iff d st m m).mpr (Or.inr rfl)
      rw [bfsFold_visited_untouched d cur _ m hvm]
      rw [bfsStepNode]
      dsimp only
      rw [if_neg hnv]
      dsimp only
      rw [nodeAt_setDepth, if_pos ⟨rfl, hlt⟩]
    · have hm' : m ∈ cur := by
        rcases List.mem_cons.mp hm with h | h
        · exact absurd h he
        · exact h
      have hnv' : ¬ m ∈ (bfsStepNode d st a).2.1 := by
        rw [bfsStep_vis_iff]
        rintro (h | h)
        · exact hnv h
        · exact he h
      have hlt' : m < (bfsStepNode d st a).1.nodes.length := by
        rw [bfsStep_len]
        exact hlt
      exact ih _ m hm' hnv' hlt'

theorem bfsFold_reach (d : ℕ) :
    ∀ (cur : List ℕ) (st : SGraph × List ℕ × List ℕ) (t : ℕ),
      (t ∈ (cur.foldl (bfsStepNode d) st).2.2 ∨
          t ∈ (cur.foldl (bfsStepNode d) st).2.1) ↔
        ((t ∈ st.2.2 ∨ t ∈ st.2.1) ∨ t ∈ cur ∨
          ∃ u, u ∈ cur ∧ ¬ u ∈ st.2.1 ∧
            ∃ l, l ∈ (nodeAt st.1 u).sourceLinks ∧ (linkAt st.1 l).target = t) := by
  intro cur
  induction cur with
  | nil =>
    intro st t
    simp
  | cons a cur ih =>
    intro st t
    rw [List.foldl_cons, ih]
    by_cases ha : a ∈ st.2.1
    · have hst : bfsStepNode d st a = st := by
        rw [bfsStepNode]
        dsimp only
        rw [if_pos ha]
      rw [hst]
      constructor
      · rintro (h | h | ⟨u, hu, hnu, hl⟩)
        · exact Or.inl h
        · exact Or.inr (Or.inl (List.mem_cons_of_mem a h))
        · exact Or.inr (Or.inr ⟨u, List.mem_cons_of_mem a hu, hnu, hl⟩)
      · rintro (h | h | ⟨u, hu, hnu, hl⟩)
        · exact Or.inl h
        · rcases List.mem_cons.mp h with he | hm
          · exact Or.inl (Or.inr (he ▸ ha))
          · exact Or.inr (Or.inl hm)
        · rcases List.mem_cons.mp hu with he | hm
          · exact absurd (he ▸ ha) hnu
          · exact Or.inr (Or.inr ⟨u, hm, hnu, hl⟩)
    · have hg : (bfsStepNode d st a).1 = setNode st.1 a fun n => { n with depth := d } := by
        rw [bfsStepNode]
        dsimp only
        rw [if_neg ha]
      have hv : (bfsStepNode d st a).2.1 = a :: st.2.1 := by
        rw [bfsStepNode]
        dsimp only
        rw [if_neg ha]
      have hn : (bfsStepNode d st a).2.2 =
          st.2.2 ++ pushTargets (setNode st.1 a fun n => { n with depth := d })
            (a :: st.2.1) (nodeAt st.1 a).sourceLinks := by
        rw [bfsStepNode]
        dsimp only
        rw [if_neg ha]
      have hlk : ∀ l, linkAt (setNode st.1 a fun n => { n with depth := d }) l =
          linkAt st.1 l := fun l => linkAt_setNode _ _ _ l
      have hsrc : ∀ u, (nodeAt (setNode st.1 a fun n => { n with depth := d }) u).sourceLinks =
          (nodeAt st.1 u).sourceLinks := by
        intro u
        rw [nodeAt_setDepth]
        split
        · rfl
        · rfl
      have hpt : ∀ s, s ∈ pushTargets (setNode st.1 a fun n => { n with depth := d })
            (a :: st.2.1) (nodeAt st.1 a).sourceLinks ↔
          ((∃ l, l ∈ (nodeAt st.1 a).sourceLinks ∧ (linkAt st.1 l).target = s) ∧
            ¬ s ∈ a :: st.2.1) := by
        intro s
        rw [pushTargets, List.mem_filter]
        constructor
        · rintro ⟨hmem, hdec⟩
          rcases List.mem_map.mp hmem with ⟨l, hl, hlt⟩
          rw [hlk l] at hlt
          exact ⟨⟨l, hl, hlt⟩, by simpa using hdec⟩
        · rintro ⟨⟨l, hl, hlt⟩, hnv⟩
          refine ⟨List.mem_map.mpr ⟨l, hl, ?_⟩, by simpa using hnv⟩
          rw [hlk l]
          exact hlt
      constructor
      · rintro (h | h | ⟨u, hu, hnu, l, hl, hlt⟩)
        · rw [hn] at h
          rcases h with h | h
          · rcases List.mem_append.mp h with h | h
            · exact Or.inl (Or.inl h)
            · rcases (hpt t).mp h with ⟨hB, _⟩
              exact Or.inr (Or.inr ⟨a, List.mem_cons_self a cur, ha, hB⟩)
          · rw [hv] at h
            rcases List.mem_cons.mp h with h | h
            · exact Or.inr (Or.inl (h ▸ List.mem_cons_self a cur))
            · exact Or.inl (Or.inr h)
        · exact Or.inr (Or.inl (List.mem_cons_of_mem a h))
        · rw [hv] at hnu
          rw [hg] at hl hlt
          rw [hsrc u] at hl
          rw [hlk l] at hlt
          exact Or.inr (Or.inr ⟨u, List.mem_cons_of_mem a hu,
            fun hh => hnu (List.mem_cons_of_mem a hh), l, hl, hlt⟩)
      · rintro (h | h | ⟨u, hu, hnu, l, hl, hlt⟩)
        · rcases h with h | h
          · rw [hn]
            exact Or.inl (Or.inl (List.mem_append.mpr (Or.inl h)))
          · rw [hv]
            exact Or.inl (Or.inr (List.mem_cons_of_mem a h))
        · rcases List.mem_cons.mp h with he | hm
          · rw [hv]
            exact Or.inl (Or.inr (he ▸ List.mem_cons_self a st.2.1))
          · exact Or.inr (Or.inl hm)
        · by_cases hua : u = a
          · subst hua
            by_cases htv : t ∈ u :: st.2.1
            · rw [hv]
              exact Or.inl (Or.inr htv)
            · rw [hn]
              exact Or.inl (Or.inl (List.mem_append.mpr
                (Or.inr ((hpt t).mpr ⟨⟨l, hl, hlt⟩, htv⟩))))
          · rcases List.mem_cons.mp hu with he | hm
            · exact absurd he hua
            · refine Or.inr (Or.inr ⟨u, hm, ?_, l, ?_, ?_⟩)
              · rw [hv]
                rintro hh
                rcases List.mem_cons.mp hh with he | hmem
                · exact hua he
                · exact hnu hmem
              · rw [hg, hsrc u]
                exact hl
              · rw [hg, hlk l]
                exact hlt

theorem bfsAux_nil (fuel : ℕ) (g : SGraph) (vis : List ℕ) (d : ℕ) :
    bfsAux fuel g vis [] d = (g, vis) := by
  cases fuel with
  | zero => rfl
  | succ fuel => rw [bfsAux]; rfl

theorem bfsFold_noop (d : ℕ) :
    ∀ (cur : List ℕ) (st : SGraph × List ℕ × List ℕ),
      (∀ t ∈ cur, t ∈ st.2.1) → cur.foldl (bfsStepNode d) st = st := by
  intro cur
  induction cur with
  | nil => intro st _; rfl
  | cons a cur ih =>
    intro st hall
    have hst : bfsStepNode d st a = st := by
      rw [bfsStepNode]
      dsimp only
      rw [if_pos (hall a (List.mem_cons_self a cur))]
    rw [List.foldl_cons, hst]
    exact ih st fun t ht => hall t (List.mem_cons_of_mem a ht)

theorem bfsAux_allVisited (fuel : ℕ) (g : SGraph) (vis cur : List ℕ) (d : ℕ)
    (hall : ∀ t ∈ cur, t ∈ vis) : bfsAux fuel g vis cur d = (g, vis) := by
  cases fuel with
  | zero => rfl
  | succ fuel =>
    rw [bfsAux]
    split
    · rfl
    · have hl : bfsLevel g vis cur d = (g, vis, []) := by
        rw [bfsLevel]
        exact bfsFold_noop d cur (g, vis, []) hall
      rw [hl]
      exact bfsAux_nil fuel g vis (d + 1)

theorem bfsAux_sync :
    ∀ (fuel : ℕ) (a b : SGraph) (vA vB cA cB : List ℕ) (d : ℕ),
      a.nodes.length = b.nodes.length →
      (∀ l, (linkAt a l).target = (linkAt b l).target) →
      (∀ m t, t ∈ (nodeAt a m).sourceLinks ↔ t ∈ (nodeAt b m).sourceLinks) →
      (∀ t, t ∈ vA ↔ t ∈ vB) →
      (∀ m, m ∈ vA → (nodeAt a m).depth = (nodeAt b m).depth) →
      (∀ t, (t ∈ cA ∨ t ∈ vA) ↔ (t ∈ cB ∨ t ∈ vB)) →
      (∀ t, t ∈ (bfsAux fuel a vA cA d).2 ↔ t ∈ (bfsAux fuel b vB cB d).2) ∧
      (∀ m, m ∈ (bfsAux fuel a vA cA d).2 →
        (nodeAt (bfsAux fuel a vA cA d).1 m).depth =
          (nodeAt (bfsAux fuel b vB cB d).1 m).depth) := by
  intro fuel
  induction fuel with
  | zero =>
    intro a b vA vB cA cB d _ _ _ hvis hdep _
    exact ⟨hvis, hdep⟩
  | succ fuel ih =>
    intro a b vA vB cA cB d hlen htgt hsrc hvis hdep hfront
    by_cases hA : cA.isEmpty
    · have hAnil : cA = [] := by
        cases cA
        · rfl
        · cases hA
      have hallB : ∀ t ∈ cB, t ∈ vB := by
        intro t htB
        rcases (hfront t).mpr (Or.inl htB) with h1 | h1
        · rw [hAnil] at h1
          cases h1
        · exact (hvis t).mp h1
      have hbeq : bfsAux (fuel + 1) b vB cB d = (b, vB) :=
        bfsAux_allVisited _ _ _ _ _ hallB
      have haeq : bfsAux (fuel + 1) a vA cA d = (a, vA) := by
        rw [bfsAux, if_pos hA]
      rw [haeq, hbeq]
      exact ⟨hvis, hdep⟩
    · by_cases hB : cB.isEmpty
      · have hBnil : cB = [] := by
          cases cB
          · rfl
          · cases hB
        have hallA : ∀ t ∈ cA, t ∈ vA := by
          intro t htA
          rcases (hfront t).mp (Or.inl htA) with h1 | h1
          · rw [hBnil] at h1
            cases h1
          · exact (hvis t).mpr h1
        have haeq : bfsAux (fuel + 1) a vA cA d = (a, vA) :=
          bfsAux_allVisited _ _ _ _ _ hallA
        have hbeq : bfsAux (fuel + 1) b vB cB d = (b, vB) := by
          rw [bfsAux, if_pos hB]
        rw [haeq, hbeq]
        exact ⟨hvis, hdep⟩
      · rw [bfsAux, if_neg hA, bfsAux, if_neg hB]
        have hlen' : (bfsLevel a vA cA d).1.nodes.length =
            (bfsLevel b vB cB d).1.nodes.length := by
          rw [bfsLevel, bfsLevel, bfsFold_len, bfsFold_len]
          exact hlen
        have htgt' : ∀ l, (linkAt (bfsLevel a vA cA d).1 l).target =
            (linkAt (bfsLevel b vB cB d).1 l).target := by
          intro l
          rw [linkAt, linkAt, bfsLevel, bfsLevel, bfsFold_links, bfsFold_links]
          exact htgt l
        have hsrc' : ∀ m t, t ∈ (nodeAt (bfsLevel a vA cA d).1 m).sourceLinks ↔
            t ∈ (nodeAt (bfsLevel b vB cB d).1 m).sourceLinks := by
          intro m t
          rw [bfsLevel, bfsLevel, bfsFold_srcLinks, bfsFold_srcLinks]
          exact hsrc m t
        have hvis' : ∀ t, t ∈ (bfsLevel a vA cA d).2.1 ↔ t ∈ (bfsLevel b vB cB d).2.1 := by
          intro t
          rw [bfsLevel, bfsLevel, bfsFold_vis_iff, bfsFold_vis_iff]
          have h1 := hfront t
          have h2 := hvis t
          tauto
        have hdep' : ∀ m, m ∈ (bfsLevel a vA cA d).2.1 →
            (nodeAt (bfsLevel a vA cA d).1 m).depth =
              (nodeAt (bfsLevel b vB cB d).1 m).depth := by
          intro m hm
          rw [bfsLevel] at hm ⊢
          rw [bfsLevel]
          rw [bfsFold_vis_iff] at hm
          by_cases hmv : m ∈ vA
          · rw [bfsFold_visited_untouched d cA (a, vA, []) m hmv,
              bfsFold_visited_untouched d cB (b, vB, []) m ((hvis m).mp hmv)]
            exact hdep m hmv
          · have hmc : m ∈ cA := by
              rcases hm with h | h
              · exact absurd h hmv
              · exact h
            have hmvB : ¬ m ∈ vB := fun hh => hmv ((hvis m).mpr hh)
            have hmcB : m ∈ cB := by
              rcases (hfront m).mp (Or.inl hmc) with h | h
              · exact h
              · exact absurd h hmvB
            by_cases hr : m < a.nodes.length
            · rw [bfsFold_new_depth d cA (a, vA, []) m hmc hmv hr,
                bfsFold_new_depth d cB (b, vB, []) m hmcB hmvB (by rw [← hlen]; exact hr)]
            · have hrB : ¬ m < b.nodes.length := by rw [← hlen]; exact hr
              rw [nodeAt_out_of_range (by rw [bfsFold_len]; exact hr),
                nodeAt_out_of_range (by rw [bfsFold_len]; exact hrB)]
        have hfront' : ∀ t, (t ∈ (bfsLevel a vA cA d).2.2 ∨ t ∈ (bfsLevel a vA cA d).2.1) ↔
            (t ∈ (bfsLevel b vB cB d).2.2 ∨ t ∈ (bfsLevel b vB cB d).2.1) := by
          intro t
          rw [bfsLevel, bfsLevel, bfsFold_reach, bfsFold_reach]
          constructor
          · rintro ((h | h) | h | ⟨u, hu, hnu, l, hl, hlt⟩)
            · cases h
            · exact Or.inl (Or.inr ((hvis t).mp h))
            · rcases (hfront t).mp (Or.inl h) with h' | h'
              · exact Or.inr (Or.inl h')
              · exact Or.inl (Or.inr h')
            · have huB : u ∈ cB := by
                rcases (hfront u).mp (Or.inl hu) with h' | h'
                · exact h'
                · exact absurd ((hvis u).mpr h') hnu
              have hnuB : ¬ u ∈ vB := fun hh => hnu ((hvis u).mpr hh)
              refine Or.inr (Or.inr ⟨u, huB, hnuB, l, (hsrc u l).mp hl, ?_⟩)
              rw [← htgt l]
              exact hlt
          · rintro ((h | h) | h | ⟨u, hu, hnu, l, hl, hlt⟩)
            · cases h
            · exact Or.inl (Or.inr ((hvis t).mpr h))
            · rcases (hfront t).mpr (Or.inl h) with h' | h'
              · exact Or.inr (Or.inl h')
              · exact Or.inl (Or.inr h')
            · have huA : u ∈ cA := by
                rcases (hfront u).mpr (Or.inl hu) with h' | h'
                · exact h'
                · exact absurd ((hvis u).mp h') hnu
              have hnuA : ¬ u ∈ vA := fun hh => hnu ((hvis u).mp hh)
              refine Or.inr (Or.inr ⟨u, huA, hnuA, l, (hsrc u l).mpr hl, ?_⟩)
              rw [htgt l]
              exact hlt
        exact ih (bfsLevel a vA cA d).1 (bfsLevel b vB cB d).1
          (bfsLevel a vA cA d).2.1 (bfsLevel b vB cB d).2.1
          (bfsLevel a vA cA d).2.2 (bfsLevel b vB cB d).2.2 (d + 1)
          hlen' htgt' hsrc' hvis' hdep' hfront'
theorem sourcesOf_congr {a b : SGraph} (hlen : b.nodes.length = a.nodes.length)
    (hiso : ∀ m, (nodeAt b m).targetLinks.isEmpty = (nodeAt a m).targetLinks.isEmpty) :
    sourcesOf b = sourcesOf a := by
  rw [sourcesOf, sourcesOf, hlen]
  apply List.filter_congr
  intro i _
  rw [hiso i]

theorem length_computeDepths (cfg : SConfig) (g : SGraph) :
    (computeDepths cfg g).nodes.length = g.nodes.length :=
  (sameShape_computeDepths cfg g).1

theorem bfsAux_srcLinks : ∀ (fuel : ℕ) (g : SGraph) (vis cur : List ℕ) (d m : ℕ),
    (nodeAt (bfsAux fuel g vis cur d).1 m).sourceLinks = (nodeAt g m).sourceLinks := by
  intro fuel
  induction fuel with
  | zero => intro g vis cur d m; rfl
  | succ fuel ih =>
    intro g vis cur d m
    rw [bfsAux]
    split
    · rfl
    · rw [ih, bfsLevel, bfsFold_srcLinks]

theorem bfsAux_tgtLinks : ∀ (fuel : ℕ) (g : SGraph) (vis cur : List ℕ) (d m : ℕ),
    (nodeAt (bfsAux fuel g vis cur d).1 m).targetLinks = (nodeAt g m).targetLinks := by
  intro fuel
  induction fuel with
  | zero => intro g vis cur d m; rfl
  | succ fuel ih =>
    intro g vis cur d m
    rw [bfsAux]
    split
    · rfl
    · rw [ih, bfsLevel, bfsFold_tgtLinks]

theorem bfsAux_links : ∀ (fuel : ℕ) (g : SGraph) (vis cur : List ℕ) (d : ℕ),
    (bfsAux fuel g vis cur d).1.links = g.links := by
  intro fuel
  induction fuel with
  | zero => intro g vis cur d; rfl
  | succ fuel ih =>
    intro g vis cur d
    rw [bfsAux]
    split
    · rfl
    · rw [ih, bfsLevel, bfsFold_links]

theorem computeDepths_sync {cfg : SConfig} {a b : SGraph} (hsh : SameShape a b) :
    ∀ m, (nodeAt (computeDepths cfg b) m).depth =
      (nodeAt (computeDepths cfg a) m).depth := by
  obtain ⟨hlen, hllen, hlk, hnd⟩ := hsh
  have hiso : ∀ m, (nodeAt b m).targetLinks.isEmpty = (nodeAt a m).targetLinks.isEmpty :=
    fun m => perm_isEmpty (hnd m).2.2
  have hsrcs : sourcesOf b = sourcesOf a := sourcesOf_congr hlen hiso
  intro m
  rw [computeDepths, computeDepths, hsrcs]
  by_cases hempty : (sourcesOf a).isEmpty
  · rw [if_pos hempty, if_pos hempty]
    by_cases hm : m < a.nodes.length
    · rw [depth_setAllDepth a 0 hm, depth_setAllDepth b 0 (by rw [hlen]; exact hm)]
    · have hm' : ¬ m < b.nodes.length := by rw [hlen]; exact hm
      rw [nodeAt_out_of_range (by rw [length_setAllDepth]; exact hm'),
          nodeAt_out_of_range (by rw [length_setAllDepth]; exact hm)]
  · rw [if_neg hempty, if_neg hempty]
    dsimp only
    have hfuel : b.nodes.length + 2 = a.nodes.length + 2 := by rw [hlen]
    rw [hfuel]
    have hsync := bfsAux_sync (a.nodes.length + 2) a b [] [] (sourcesOf a) (sourcesOf a) 0
      hlen.symm (fun l => ((hlk l).2.1).symm)
      (fun j t => ((hnd j).2.1.mem_iff).symm)
      (fun t => Iff.rfl)
      (fun j hj => absurd hj (List.not_mem_nil j))
      (fun t => Iff.rfl)
    obtain ⟨hvisF, hdepF⟩ := hsync
    set stA := bfsAux (a.nodes.length + 2) a [] (sourcesOf a) 0 with hstA
    set stB := bfsAux (a.nodes.length + 2) b [] (sourcesOf a) 0 with hstB
    have hlenA : stA.1.nodes.length = a.nodes.length :=
      (sameShape_bfsAux (a.nodes.length + 2) a [] (sourcesOf a) 0).1
    have hlenB : stB.1.nodes.length = b.nodes.length :=
      (sameShape_bfsAux (a.nodes.length + 2) b [] (sourcesOf a) 0).1
    have hlenBA : stB.1.nodes.length = stA.1.nodes.length := by
      rw [hlenA, hlenB, hlen]
    have hdepAll : ∀ j, (nodeAt (unvisitedFallback stB.1 stB.2) j).depth =
        (nodeAt (unvisitedFallback stA.1 stA.2) j).depth := by
      intro j
      rw [nodeAt_unvisitedFallback, nodeAt_unvisitedFallback]
      by_cases hj : j < a.nodes.length
      · rw [if_pos (show j < stB.1.nodes.length by rw [hlenB, hlen]; exact hj),
            if_pos (show j < stA.1.nodes.length by rw [hlenA]; exact hj)]
        by_cases hjv : j ∈ stA.2
        · rw [if_pos ((hvisF j).mp hjv), if_pos hjv]
          exact (hdepF j hjv).symm
        · rw [if_neg (fun hh => hjv ((hvisF j).mpr hh)), if_neg hjv]
      · rw [if_neg (show ¬ j < stB.1.nodes.length by rw [hlenB, hlen]; exact hj),
            if_neg (show ¬ j < stA.1.nodes.length by rw [hlenA]; exact hj)]
    have hlenFB : (unvisitedFallback stB.1 stB.2).nodes.length =
        (unvisitedFallback stA.1 stA.2).nodes.length := by
      rw [length_unvisitedFallback, length_unvisitedFallback, hlenBA]
    have hsrcFA : ∀ j, (nodeAt (unvisitedFallback stA.1 stA.2) j).sourceLinks =
        (nodeAt a j).sourceLinks := by
      intro j
      rw [nodeAt_unvisitedFallback]
      by_cases hja : j < stA.1.nodes.length
      · rw [if_pos hja]
        split
        · rw [hstA, bfsAux_srcLinks]
        · show (nodeAt stA.1 j).sourceLinks = _
          rw [hstA, bfsAux_srcLinks]
      · rw [if_neg hja, nodeAt_out_of_range (by rw [hlenA] at hja; exact hja)]
    have hsrcFB : ∀ j, (nodeAt (unvisitedFallback stB.1 stB.2) j).sourceLinks =
        (nodeAt b j).sourceLinks := by
      intro j
      rw [nodeAt_unvisitedFallback]
      by_cases hjb : j < stB.1.nodes.length
      · rw [if_pos hjb]
        split
        · rw [hstB, bfsAux_srcLinks]
        · show (nodeAt stB.1 j).sourceLinks = _
          rw [hstB, bfsAux_srcLinks]
      · rw [if_neg hjb]
        rw [hlenB] at hjb
        rw [nodeAt_out_of_range hjb]
    by_cases hJ : cfg.justifyAlign = true
    · rw [if_pos hJ, if_pos hJ]
      have hmaxF : maxDepth (unvisitedFallback stB.1 stB.2) =
          maxDepth (unvisitedFallback stA.1 stA.2) :=
        maxDepth_congr hlenFB hdepAll
      rw [nodeAt_justifyAdjust, nodeAt_justifyAdjust]
      by_cases hm : m < a.nodes.length
      · rw [if_pos (show m < (unvisitedFallback stB.1 stB.2).nodes.length by
              rw [length_unvisitedFallback, hlenB, hlen]; exact hm),
            if_pos (show m < (unvisitedFallback stA.1 stA.2).nodes.length by
              rw [length_unvisitedFallback, hlenA]; exact hm)]
        have hiso2 : (nodeAt (unvisitedFallback stB.1 stB.2) m).sourceLinks.isEmpty =
            (nodeAt (unvisitedFallback stA.1 stA.2) m).sourceLinks.isEmpty := by
          rw [hsrcFA, hsrcFB]
          exact perm_isEmpty (hnd m).2.1
        by_cases hcond : (nodeAt (unvisitedFallback stA.1 stA.2) m).sourceLinks.isEmpty = true ∧
            (nodeAt (unvisitedFallback stA.1 stA.2) m).depth <
              maxDepth (unvisitedFallback stA.1 stA.2)
        · rw [if_pos (show (nodeAt (unvisitedFallback stB.1 stB.2) m).sourceLinks.isEmpty = true ∧
              (nodeAt (unvisitedFallback stB.1 stB.2) m).depth <
                maxDepth (unvisitedFallback stB.1 stB.2) by
            refine ⟨by rw [hiso2]; exact hcond.1, ?_⟩
            rw [hdepAll m, hmaxF]
            exact hcond.2), if_pos hcond]
          show maxDepth (unvisitedFallback stB.1 stB.2) = maxDepth (unvisitedFallback stA.1 stA.2)
          exact hmaxF
        · rw [if_neg (show ¬ ((nodeAt (unvisitedFallback stB.1 stB.2) m).sourceLinks.isEmpty = true ∧
              (nodeAt (unvisitedFallback stB.1 stB.2) m).depth <
                maxDepth (unvisitedFallback stB.1 stB.2)) by
            intro hc
            exact hcond ⟨by rw [← hiso2]; exact hc.1,
              by rw [← hdepAll m, ← hmaxF]; exact hc.2⟩), if_neg hcond]
          exact hdepAll m
      · rw [if_neg (show ¬ m < (unvisitedFallback stB.1 stB.2).nodes.length by
              rw [length_unvisitedFallback, hlenB, hlen]; exact hm),
            if_neg (show ¬ m < (unvisitedFallback stA.1 stA.2).nodes.length by
              rw [length_unvisitedFallback, hlenA]; exact hm)]
    · rw [if_neg hJ, if_neg hJ]
      exact hdepAll m
/-! ### The value, horizontal and stacking stages are determined by the shape -/

theorem sumVals_sync {a b : SGraph}
    (hv : ∀ l, (linkAt b l).value = (linkAt a l).value) {ls ls' : List ℕ}
    (hp : ls.Perm ls') : sumVals b ls = sumVals a ls' := by
  rw [sumVals, sumVals]
  rw [show (ls.map fun l => (linkAt b l).value) = ls.map fun l => (linkAt a l).value from
    List.map_congr_left fun l _ => hv l]
  exact (hp.map _).sum_eq

theorem nodeAt_computeNodeValues (x : SGraph) (m : ℕ) :
    nodeAt (computeNodeValues x) m =
      if m < x.nodes.length then
        { nodeAt x m with value := max (sumVals x (nodeAt x m).targetLinks) (sumVals x (nodeAt x m).sourceLinks) }
      else default := by
  rw [computeNodeValues, nodeAt_withMap]

theorem nodeAt_positionNodesX (cfg : SConfig) (x : SGraph) (m : ℕ) :
    nodeAt (positionNodesX cfg x) m =
      if m < x.nodes.length then
        { nodeAt x m with
          x := cfg.padLeft + ((nodeAt x m).depth : ℚ) *
            (if 0 < maxDepth x then
              (cfg.width - cfg.padLeft - cfg.padRight - cfg.nodeWidth) / (maxDepth x : ℚ)
            else 0),
          width := cfg.nodeWidth }
      else default := by
  rw [positionNodesX]
  dsimp only
  rw [nodeAt_withMap]

theorem computeNodeValues_sync {a b : SGraph} (hsh : SameShape a b) :
    ∀ m, (nodeAt (computeNodeValues b) m).value = (nodeAt (computeNodeValues a) m).value := by
  obtain ⟨hlen, hllen, hlk, hnd⟩ := hsh
  intro m
  rw [nodeAt_computeNodeValues, nodeAt_computeNodeValues]
  by_cases hm : m < a.nodes.length
  · rw [if_pos (show m < b.nodes.length by rw [hlen]; exact hm), if_pos hm]
    show max (sumVals b (nodeAt b m).targetLinks) (sumVals b (nodeAt b m).sourceLinks) =
      max (sumVals a (nodeAt a m).targetLinks) (sumVals a (nodeAt a m).sourceLinks)
    rw [sumVals_sync (fun l => (hlk l).2.2) (hnd m).2.2,
        sumVals_sync (fun l => (hlk l).2.2) (hnd m).2.1]
  · rw [if_neg (show ¬ m < b.nodes.length by rw [hlen]; exact hm), if_neg hm]

theorem positionNodesX_sync {cfg : SConfig} {a b : SGraph}
    (hlen : b.nodes.length = a.nodes.length)
    (hdep : ∀ m, (nodeAt b m).depth = (nodeAt a m).depth) :
    ∀ m, (nodeAt (positionNodesX cfg b) m).x = (nodeAt (positionNodesX cfg a) m).x ∧
      (nodeAt (positionNodesX cfg b) m).width = (nodeAt (positionNodesX cfg a) m).width := by
  have hmax : maxDepth b = maxDepth a := maxDepth_congr hlen hdep
  intro m
  rw [nodeAt_positionNodesX, nodeAt_positionNodesX]
  by_cases hm : m < a.nodes.length
  · rw [if_pos (show m < b.nodes.length by rw [hlen]; exact hm), if_pos hm]
    constructor
    · show cfg.padLeft + ((nodeAt b m).depth : ℚ) * _ =
        cfg.padLeft + ((nodeAt a m).depth : ℚ) * _
      rw [hdep m, hmax]
    · rfl
  · rw [if_neg (show ¬ m < b.nodes.length by rw [hlen]; exact hm), if_neg hm]
    exact ⟨rfl, rfl⟩

theorem nodeAt_setYH (g : SGraph) (i : ℕ) (yv hv : ℚ) (m : ℕ) :
    nodeAt (setNode g i fun n => { n with y := yv, height := hv }) m =
      if i = m ∧ i < g.nodes.length then { nodeAt g m with y := yv, height := hv }
      else nodeAt g m := by
  by_cases hr : i < g.nodes.length
  · by_cases he : i = m
    · subst he
      rw [if_pos ⟨rfl, hr⟩, nodeAt_setNode_self _ hr]
    · rw [if_neg (fun hc : i = m ∧ i < g.nodes.length => he hc.1), nodeAt_setNode_ne _ he]
  · rw [if_neg (fun hc : i = m ∧ i < g.nodes.length => hr hc.2), setNode_out_of_range _ hr]

theorem stackFold_sync (cfg : SConfig) (scale : ℚ) :
    ∀ (L : List ℕ) (sa sb : SGraph × ℚ) (S : ℕ → Prop),
      sb.2 = sa.2 →
      sb.1.nodes.length = sa.1.nodes.length →
      (∀ m, (nodeAt sb.1 m).value = (nodeAt sa.1 m).value) →
      (∀ m, S m → (nodeAt sb.1 m).y = (nodeAt sa.1 m).y ∧
        (nodeAt sb.1 m).height = (nodeAt sa.1 m).height) →
      (L.foldl (stackStep cfg scale) sb).2 = (L.foldl (stackStep cfg scale) sa).2 ∧
      (L.foldl (stackStep cfg scale) sb).1.nodes.length =
        (L.foldl (stackStep cfg scale) sa).1.nodes.length ∧
      (∀ m, (nodeAt (L.foldl (stackStep cfg scale) sb).1 m).value =
        (nodeAt (L.foldl (stackStep cfg scale) sa).1 m).value) ∧
      (∀ m, (S m ∨ m ∈ L) →
        (nodeAt (L.foldl (stackStep cfg scale) sb).1 m).y =
          (nodeAt (L.foldl (stackStep cfg scale) sa).1 m).y ∧
        (nodeAt (L.foldl (stackStep cfg scale) sb).1 m).height =
          (nodeAt (L.foldl (stackStep cfg scale) sa).1 m).height) := by
  intro L
  induction L with
  | nil =>
    intro sa sb S hacc hlen hval hS
    refine ⟨hacc, hlen, hval, fun m hm => ?_⟩
    rcases hm with hm | hm
    · exact hS m hm
    · cases hm
  | cons i L ih =>
    intro sa sb S hacc hlen hval hS
    rw [List.foldl_cons, List.foldl_cons]
    have hacc' : (stackStep cfg scale sb i).2 = (stackStep cfg scale sa i).2 := by
      rw [stackStep, stackStep]
      dsimp only
      rw [hacc, hval i]
    have hlen' : (stackStep cfg scale sb i).1.nodes.length =
        (stackStep cfg scale sa i).1.nodes.length := by
      rw [stackStep, stackStep]
      dsimp only
      rw [length_nodes_setNode, length_nodes_setNode, hlen]
    have hval' : ∀ m, (nodeAt (stackStep cfg scale sb i).1 m).value =
        (nodeAt (stackStep cfg scale sa i).1 m).value := by
      intro m
      rw [stackStep, stackStep]
      dsimp only
      rw [nodeAt_setYH, nodeAt_setYH, hlen]
      by_cases hc : i = m ∧ i < sa.1.nodes.length
      · rw [if_pos hc, if_pos hc]
        show (nodeAt sb.1 m).value = (nodeAt sa.1 m).value
        exact hval m
      · rw [if_neg hc, if_neg hc]
        exact hval m
    have hS' : ∀ m, (S m ∨ m = i) →
        (nodeAt (stackStep cfg scale sb i).1 m).y =
          (nodeAt (stackStep cfg scale sa i).1 m).y ∧
        (nodeAt (stackStep cfg scale sb i).1 m).height =
          (nodeAt (stackStep cfg scale sa i).1 m).height := by
      intro m hm
      rw [stackStep, stackStep]
      dsimp only
      rw [nodeAt_setYH, nodeAt_setYH, hlen]
      by_cases hc : i = m ∧ i < sa.1.nodes.length
      · rw [if_pos hc, if_pos hc]
        constructor
        · show sb.2 = sa.2
          exact hacc
        · show max 1 ((nodeAt sb.1 i).value * scale) = max 1 ((nodeAt sa.1 i).value * scale)
          rw [hval i]
      · rw [if_neg hc, if_neg hc]
        rcases hm with hm | hm
        · exact hS m hm
        · subst hm
          by_cases hr : m < sa.1.nodes.length
          · exact absurd ⟨rfl, hr⟩ hc
          · rw [nodeAt_out_of_range hr, nodeAt_out_of_range (by rw [hlen]; exact hr)]
            exact ⟨rfl, rfl⟩
    obtain ⟨q1, q2, q3, q4⟩ := ih (stackStep cfg scale sa i) (stackStep cfg scale sb i)
      (fun m => S m ∨ m = i) hacc' hlen' hval' hS'
    refine ⟨q1, q2, q3, fun m hm => q4 m ?_⟩
    rcases hm with hm | hm
    · exact Or.inl (Or.inl hm)
    · rcases List.mem_cons.mp hm with he | hmem
      · exact Or.inl (Or.inr he)
      · exact Or.inr hmem

theorem stackColumn_sync (cfg : SConfig) (scale : ℚ) {ga gb : SGraph} (col : List ℕ)
    (S : ℕ → Prop)
    (hlen : gb.nodes.length = ga.nodes.length)
    (hval : ∀ m, (nodeAt gb m).value = (nodeAt ga m).value)
    (hS : ∀ m, S m → (nodeAt gb m).y = (nodeAt ga m).y ∧
      (nodeAt gb m).height = (nodeAt ga m).height) :
    (stackColumn cfg scale gb col).nodes.length =
      (stackColumn cfg scale ga col).nodes.length ∧
    (∀ m, (nodeAt (stackColumn cfg scale gb col) m).value =
      (nodeAt (stackColumn cfg scale ga col) m).value) ∧
    (∀ m, (S m ∨ m ∈ col) →
      (nodeAt (stackColumn cfg scale gb col) m).y =
        (nodeAt (stackColumn cfg scale ga col) m).y ∧
      (nodeAt (stackColumn cfg scale gb col) m).height =
        (nodeAt (stackColumn cfg scale ga col) m).height) := by
  rw [stackColumn, stackColumn]
  have hcmp : (fun i j => decide ((nodeAt gb j).value ≤ (nodeAt gb i).value)) =
      (fun i j => decide ((nodeAt ga j).value ≤ (nodeAt ga i).value)) :=
    funext fun i => funext fun j => by rw [hval i, hval j]
  rw [hcmp]
  obtain ⟨_, h2, h3, h4⟩ := stackFold_sync cfg scale
    (sortBy (fun i j => decide ((nodeAt ga j).value ≤ (nodeAt ga i).value)) col)
    (ga, cfg.padTop) (gb, cfg.padTop) S rfl hlen hval hS
  refine ⟨h2, h3, fun m hm => h4 m ?_⟩
  rcases hm with hm | hm
  · exact Or.inl hm
  · exact Or.inr ((sortBy_perm _ col).mem_iff.mpr hm)

theorem stackCols_sync (cfg : SConfig) (scale : ℚ) :
    ∀ (CS : List (List ℕ)) (ga gb : SGraph) (S : ℕ → Prop),
      gb.nodes.length = ga.nodes.length →
      (∀ m, (nodeAt gb m).value = (nodeAt ga m).value) →
      (∀ m, S m → (nodeAt gb m).y = (nodeAt ga m).y ∧
        (nodeAt gb m).height = (nodeAt ga m).height) →
      (CS.foldl (stackColumn cfg scale) gb).nodes.length =
        (CS.foldl (stackColumn cfg scale) ga).nodes.length ∧
      (∀ m, (nodeAt (CS.foldl (stackColumn cfg scale) gb) m).value =
        (nodeAt (CS.foldl (stackColumn cfg scale) ga) m).value) ∧
      (∀ m, (S m ∨ ∃ col ∈ CS, m ∈ col) →
        (nodeAt (CS.foldl (stackColumn cfg scale) gb) m).y =
          (nodeAt (CS.foldl (stackColumn cfg scale) ga) m).y ∧
        (nodeAt (CS.foldl (stackColumn cfg scale) gb) m).height =
          (nodeAt (CS.foldl (stackColumn cfg scale) ga) m).height) := by
  intro CS
  induction CS with
  | nil =>
    intro ga gb S hlen hval hS
    refine ⟨hlen, hval, fun m hm => ?_⟩
    rcases hm with hm | ⟨col, hcol, _⟩
    · exact hS m hm
    · cases hcol
  | cons col CS ih =>
    intro ga gb S hlen hval hS
    rw [List.foldl_cons, List.foldl_cons]
    obtain ⟨h1, h2, h3⟩ := stackColumn_sync cfg scale col S hlen hval hS
    obtain ⟨k1, k2, k3⟩ := ih (stackColumn cfg scale ga col) (stackColumn cfg scale gb col)
      (fun m => S m ∨ m ∈ col) h1 h2 h3
    refine ⟨k1, k2, fun m hm => k3 m ?_⟩
    rcases hm with hm | ⟨col', hcol', hmc⟩
    · exact Or.inl (Or.inl hm)
    · rcases List.mem_cons.mp hcol' with he | hmem
      · exact Or.inl (Or.inr (he ▸ hmc))
      · exact Or.inr ⟨col', hmem, hmc⟩

theorem initializeNodeY_sync {cfg : SConfig} {a b : SGraph}
    (hlen : b.nodes.length = a.nodes.length)
    (hdep : ∀ m, (nodeAt b m).depth = (nodeAt a m).depth)
    (hval : ∀ m, (nodeAt b m).value = (nodeAt a m).value) :
    ∀ m, (nodeAt (initializeNodeY cfg b) m).y = (nodeAt (initializeNodeY cfg a) m).y ∧
      (nodeAt (initializeNodeY cfg b) m).height =
        (nodeAt (initializeNodeY cfg a) m).height := by
  have hscale : globalScale cfg b = globalScale cfg a := globalScale_congr hlen hdep hval
  have hcols : getColumns b = getColumns a := getColumns_congr hlen hdep
  intro m
  by_cases hm : m < a.nodes.length
  · rw [initializeNodeY, initializeNodeY]
    rw [hscale, hcols]
    obtain ⟨k1, k2, k3⟩ := stackCols_sync cfg (globalScale cfg a) (getColumns a) a b
      (fun _ => False) hlen hval (fun m hm => hm.elim)
    refine k3 m (Or.inr ?_)
    refine ⟨(getColumns a).getD (nodeAt a m).depth [], ?_, mem_getColumns_self hm⟩
    apply getD_mem_of_lt
    rw [getColumns_length]
    have := depth_le_maxDepth hm
    omega
  · have hLa : (initializeNodeY cfg a).nodes.length = a.nodes.length :=
      (sameButYH_initializeNodeY cfg a).2.1
    have hLb : (initializeNodeY cfg b).nodes.length = b.nodes.length :=
      (sameButYH_initializeNodeY cfg b).2.1
    rw [nodeAt_out_of_range (show ¬ m < (initializeNodeY cfg b).nodes.length by
          rw [hLb, hlen]; exact hm),
        nodeAt_out_of_range (show ¬ m < (initializeNodeY cfg a).nodes.length by
          rw [hLa]; exact hm)]
    exact ⟨rfl, rfl⟩
theorem nodeAt_setNode_cases (g : SGraph) (i : ℕ) (f : SNode → SNode) (m : ℕ) :
    nodeAt (setNode g i f) m =
      if i = m ∧ i < g.nodes.length then f (nodeAt g m) else nodeAt g m := by
  by_cases hr : i < g.nodes.length
  · by_cases he : i = m
    · subst he
      rw [if_pos ⟨rfl, hr⟩, nodeAt_setNode_self _ hr]
    · rw [if_neg (fun hc : i = m ∧ i < g.nodes.length => he hc.1), nodeAt_setNode_ne _ he]
  · rw [if_neg (fun hc : i = m ∧ i < g.nodes.length => hr hc.2), setNode_out_of_range _ hr]

theorem relaxSync_len {a b : SGraph} (hR : RelaxSync a b) :
    b.nodes.length = a.nodes.length := hR.1.1

theorem nodeCenter_sync {a b : SGraph} (hR : RelaxSync a b) (i : ℕ) :
    nodeCenter b i = nodeCenter a i := by
  rw [nodeCenter, nodeCenter, (hR.2 i).2.2.2.1, (hR.2 i).2.2.2.2.2]

theorem weightedCenter_sync {a b : SGraph} (hR : RelaxSync a b) (i : ℕ) (ut : Bool) :
    weightedCenter b i ut = weightedCenter a i ut := by
  have hlk := hR.1.2.2.1
  have hnd := hR.1.2.2.2
  rw [weightedCenter, weightedCenter]
  cases ut
  · simp only [Bool.false_eq_true, if_false]
    have hperm : (nodeAt b i).sourceLinks.Perm (nodeAt a i).sourceLinks := (hnd i).2.1
    have hmap1 : ((nodeAt b i).sourceLinks.map fun l =>
        nodeCenter b (linkAt b l).target * (linkAt b l).value).sum =
        ((nodeAt a i).sourceLinks.map fun l =>
          nodeCenter a (linkAt a l).target * (linkAt a l).value).sum := by
      rw [show (fun l => nodeCenter b (linkAt b l).target * (linkAt b l).value) =
          (fun l => nodeCenter a (linkAt a l).target * (linkAt a l).value) from
        funext fun l => by rw [(hlk l).2.1, (hlk l).2.2, nodeCenter_sync hR]]
      exact ((hperm.map _).sum_eq)
    have hmap2 : ((nodeAt b i).sourceLinks.map fun l => (linkAt b l).value).sum =
        ((nodeAt a i).sourceLinks.map fun l => (linkAt a l).value).sum := by
      rw [show (fun l => (linkAt b l).value) = (fun l => (linkAt a l).value) from
        funext fun l => (hlk l).2.2]
      exact ((hperm.map _).sum_eq)
    rw [hmap1, hmap2, nodeCenter_sync hR]
  · simp only [eq_self_iff_true, if_true]
    have hperm : (nodeAt b i).targetLinks.Perm (nodeAt a i).targetLinks := (hnd i).2.2
    have hmap1 : ((nodeAt b i).targetLinks.map fun l =>
        nodeCenter b (linkAt b l).source * (linkAt b l).value).sum =
        ((nodeAt a i).targetLinks.map fun l =>
          nodeCenter a (linkAt a l).source * (linkAt a l).value).sum := by
      rw [show (fun l => nodeCenter b (linkAt b l).source * (linkAt b l).value) =
          (fun l => nodeCenter a (linkAt a l).source * (linkAt a l).value) from
        funext fun l => by rw [(hlk l).1, (hlk l).2.2, nodeCenter_sync hR]]
      exact ((hperm.map _).sum_eq)
    have hmap2 : ((nodeAt b i).targetLinks.map fun l => (linkAt b l).value).sum =
        ((nodeAt a i).targetLinks.map fun l => (linkAt a l).value).sum := by
      rw [show (fun l => (linkAt b l).value) = (fun l => (linkAt a l).value) from
        funext fun l => (hlk l).2.2]
      exact ((hperm.map _).sum_eq)
    rw [hmap1, hmap2, nodeCenter_sync hR]

theorem relaxSync_setNode_y {a b : SGraph} (hR : RelaxSync a b) (i : ℕ)
    (fa fb : SNode → SNode)
    (hfa : ∀ n, fa n = { n with y := (fa n).y })
    (hfb : ∀ n, fb n = { n with y := (fb n).y })
    (hyeq : (fb (nodeAt b i)).y = (fa (nodeAt a i)).y) :
    RelaxSync (setNode a i fa) (setNode b i fb) := by
  have hlen := relaxSync_len hR
  constructor
  · have hsa : SameShape a (setNode a i fa) :=
      sameShape_setNode_keep a i fa (fun n => by rw [hfa n]) (fun n => by rw [hfa n])
        (fun n => by rw [hfa n])
    have hsb : SameShape b (setNode b i fb) :=
      sameShape_setNode_keep b i fb (fun n => by rw [hfb n]) (fun n => by rw [hfb n])
        (fun n => by rw [hfb n])
    exact sameShape_trans (sameShape_trans (sameShape_symm hsa) hR.1) hsb
  · intro m
    rw [nodeAt_setNode_cases, nodeAt_setNode_cases, hlen]
    by_cases hc : i = m ∧ i < a.nodes.length
    · rw [if_pos hc, if_pos hc]
      obtain ⟨he, _⟩ := hc
      subst he
      rw [hfa (nodeAt a i), hfb (nodeAt b i)]
      refine ⟨(hR.2 i).1, (hR.2 i).2.1, (hR.2 i).2.2.1, hyeq, (hR.2 i).2.2.2.2.1,
        (hR.2 i).2.2.2.2.2⟩
    · rw [if_neg hc, if_neg hc]
      exact hR.2 m

theorem relaxColumn_sync {a b : SGraph} (hR : RelaxSync a b) (damping : ℚ) (ut : Bool)
    (col : List ℕ) :
    RelaxSync (relaxColumn damping ut a col) (relaxColumn damping ut b col) := by
  rw [relaxColumn, relaxColumn]
  refine foldl_sync RelaxSync _ _ ?_ col a b hR
  intro x y i hxy
  dsimp only
  have hiso : (if ut then (nodeAt y i).targetLinks else (nodeAt y i).sourceLinks).isEmpty =
      (if ut then (nodeAt x i).targetLinks else (nodeAt x i).sourceLinks).isEmpty := by
    cases ut
    · simp only [Bool.false_eq_true, if_false]
      exact perm_isEmpty (hxy.1.2.2.2 i).2.1
    · simp only [eq_self_iff_true, if_true]
      exact perm_isEmpty (hxy.1.2.2.2 i).2.2
  by_cases hemp : (if ut then (nodeAt x i).targetLinks else (nodeAt x i).sourceLinks).isEmpty = true
  · rw [if_pos hemp, if_pos (by rw [hiso]; exact hemp)]
    exact hxy
  · rw [if_neg hemp, if_neg (by rw [hiso]; exact hemp)]
    refine relaxSync_setNode_y hxy i _ _ (fun n => rfl) (fun n => rfl) ?_
    show (nodeAt y i).y + (weightedCenter y i ut - nodeCenter y i) * damping =
      (nodeAt x i).y + (weightedCenter x i ut - nodeCenter x i) * damping
    rw [(hxy.2 i).2.2.2.1, weightedCenter_sync hxy, nodeCenter_sync hxy]

theorem pdStep_sync {cfg : SConfig} :
    ∀ (sx sy : SGraph × ℚ) (i : ℕ), RelaxSync sx.1 sy.1 → sy.2 = sx.2 →
      RelaxSync (pdStep cfg sx i).1 (pdStep cfg sy i).1 ∧
        (pdStep cfg sy i).2 = (pdStep cfg sx i).2 := by
  intro sx sy i hR hacc
  have hdy : sy.2 - (nodeAt sy.1 i).y = sx.2 - (nodeAt sx.1 i).y := by
    rw [hacc, (hR.2 i).2.2.2.1]
  rw [pdStep, pdStep]
  dsimp only
  rw [hdy]
  by_cases hpos : 0 < sx.2 - (nodeAt sx.1 i).y
  · rw [if_pos hpos, if_pos hpos]
    have hR' : RelaxSync (setNode sx.1 i fun n => { n with y := n.y + (sx.2 - (nodeAt sx.1 i).y) })
        (setNode sy.1 i fun n => { n with y := n.y + (sx.2 - (nodeAt sx.1 i).y) }) := by
      refine relaxSync_setNode_y hR i _ _ (fun n => rfl) (fun n => rfl) ?_
      show (nodeAt sy.1 i).y + (sx.2 - (nodeAt sx.1 i).y) =
        (nodeAt sx.1 i).y + (sx.2 - (nodeAt sx.1 i).y)
      rw [(hR.2 i).2.2.2.1]
    refine ⟨hR', ?_⟩
    rw [(hR'.2 i).2.2.2.1, (hR'.2 i).2.2.2.2.2]
  · rw [if_neg hpos, if_neg hpos]
    refine ⟨hR, ?_⟩
    rw [(hR.2 i).2.2.2.1, (hR.2 i).2.2.2.2.2]

theorem pushDown_sync {cfg : SConfig} {a b : SGraph} (hR : RelaxSync a b)
    (sorted : List ℕ) :
    RelaxSync (pushDown cfg a sorted) (pushDown cfg b sorted) := by
  rw [pushDown, pushDown]
  have := foldl_sync (fun (sx sy : SGraph × ℚ) => RelaxSync sx.1 sy.1 ∧ sy.2 = sx.2)
    (pdStep cfg) (pdStep cfg)
    (fun sx sy i h => pdStep_sync sx sy i h.1 h.2) sorted (a, cfg.padTop) (b, cfg.padTop)
    ⟨hR, rfl⟩
  exact this.1

theorem usStep_sync {cfg : SConfig} (sorted : List ℕ) :
    ∀ (x y : SGraph) (i : ℕ), RelaxSync x y →
      RelaxSync (usStep cfg sorted x i) (usStep cfg sorted y i) := by
  intro x y i hR
  rw [usStep, usStep]
  have hov : (nodeAt y (sorted.getD i 0)).y + (nodeAt y (sorted.getD i 0)).height +
      cfg.nodePadding - (nodeAt y (sorted.getD (i + 1) 0)).y =
      (nodeAt x (sorted.getD i 0)).y + (nodeAt x (sorted.getD i 0)).height +
      cfg.nodePadding - (nodeAt x (sorted.getD (i + 1) 0)).y := by
    rw [(hR.2 (sorted.getD i 0)).2.2.2.1, (hR.2 (sorted.getD i 0)).2.2.2.2.2,
      (hR.2 (sorted.getD (i + 1) 0)).2.2.2.1]
  rw [hov]
  by_cases hpos : 0 < (nodeAt x (sorted.getD i 0)).y + (nodeAt x (sorted.getD i 0)).height +
      cfg.nodePadding - (nodeAt x (sorted.getD (i + 1) 0)).y
  · rw [if_pos hpos, if_pos hpos]
    refine relaxSync_setNode_y hR (sorted.getD i 0) _ _ (fun n => rfl) (fun n => rfl) ?_
    show (nodeAt y (sorted.getD i 0)).y - _ = (nodeAt x (sorted.getD i 0)).y - _
    rw [(hR.2 (sorted.getD i 0)).2.2.2.1]
  · rw [if_neg hpos, if_neg hpos]
    exact hR

theorem upwardSweep_sync (cfg : SConfig) {a b : SGraph} (hR : RelaxSync a b)
    (sorted : List ℕ) :
    RelaxSync (upwardSweep cfg a sorted) (upwardSweep cfg b sorted) := by
  rw [upwardSweep, upwardSweep]
  exact foldl_sync RelaxSync _ _ (usStep_sync sorted) _ a b hR

theorem resolveCollisions_sync {cfg : SConfig} {a b : SGraph} (hR : RelaxSync a b)
    (col : List ℕ) :
    (resolveCollisions cfg a col = none → resolveCollisions cfg b col = none) ∧
    (∀ a' col', resolveCollisions cfg a col = some (a', col') →
      ∃ b', resolveCollisions cfg b col = some (b', col') ∧ RelaxSync a' b') := by
  have hcmp : (fun i j => decide ((nodeAt b i).y ≤ (nodeAt b j).y)) =
      (fun i j => decide ((nodeAt a i).y ≤ (nodeAt a j).y)) :=
    funext fun i => funext fun j => by rw [(hR.2 i).2.2.2.1, (hR.2 j).2.2.2.1]
  rw [resolveCollisions, resolveCollisions, hcmp]
  set sorted := sortBy (fun i j => decide ((nodeAt a i).y ≤ (nodeAt a j).y)) col with hsorted
  have hpd : RelaxSync (pushDown cfg a sorted) (pushDown cfg b sorted) := pushDown_sync hR sorted
  cases hlast : sorted.getLast? with
  | none =>
    constructor
    · intro _
      rfl
    · intro a' col' h
      cases h
  | some lastIdx =>
    constructor
    · intro h
      cases h
    intro a' col' h
    dsimp only at h ⊢
    have hovf : (nodeAt (pushDown cfg b sorted) lastIdx).y +
        (nodeAt (pushDown cfg b sorted) lastIdx).height - (cfg.height - cfg.padBottom) =
        (nodeAt (pushDown cfg a sorted) lastIdx).y +
        (nodeAt (pushDown cfg a sorted) lastIdx).height - (cfg.height - cfg.padBottom) := by
      rw [(hpd.2 lastIdx).2.2.2.1, (hpd.2 lastIdx).2.2.2.2.2]
    rw [hovf]
    by_cases hpos : 0 < (nodeAt (pushDown cfg a sorted) lastIdx).y +
        (nodeAt (pushDown cfg a sorted) lastIdx).height - (cfg.height - cfg.padBottom)
    · rw [if_pos hpos] at h
      rw [if_pos hpos]
      have hset : RelaxSync
          (setNode (pushDown cfg a sorted) lastIdx fun n =>
            { n with y := n.y - ((nodeAt (pushDown cfg a sorted) lastIdx).y +
              (nodeAt (pushDown cfg a sorted) lastIdx).height - (cfg.height - cfg.padBottom)) })
          (setNode (pushDown cfg b sorted) lastIdx fun n =>
            { n with y := n.y - ((nodeAt (pushDown cfg a sorted) lastIdx).y +
              (nodeAt (pushDown cfg a sorted) lastIdx).height - (cfg.height - cfg.padBottom)) }) := by
        refine relaxSync_setNode_y hpd lastIdx _ _ (fun n => rfl) (fun n => rfl) ?_
        show (nodeAt (pushDown cfg b sorted) lastIdx).y - _ =
          (nodeAt (pushDown cfg a sorted) lastIdx).y - _
        rw [(hpd.2 lastIdx).2.2.2.1]
      have hus := upwardSweep_sync cfg hset sorted
      obtain ⟨rfl, rfl⟩ : upwardSweep cfg
          (setNode (pushDown cfg a sorted) lastIdx fun n =>
            { n with y := n.y - ((nodeAt (pushDown cfg a sorted) lastIdx).y +
              (nodeAt (pushDown cfg a sorted) lastIdx).height - (cfg.height - cfg.padBottom)) })
          sorted = a' ∧ sorted = col' := by
        have hps := Option.some_inj.mp h
        exact ⟨congrArg Prod.fst hps, congrArg Prod.snd hps⟩
      exact ⟨upwardSweep cfg
        (setNode (pushDown cfg b sorted) lastIdx fun n =>
          { n with y := n.y - ((nodeAt (pushDown cfg a sorted) lastIdx).y +
            (nodeAt (pushDown cfg a sorted) lastIdx).height - (cfg.height - cfg.padBottom)) })
        sorted, rfl, hus⟩
    · rw [if_neg hpos] at h
      rw [if_neg hpos]
      obtain ⟨rfl, rfl⟩ : pushDown cfg a sorted = a' ∧ sorted = col' := by
        have hps := Option.some_inj.mp h
        exact ⟨congrArg Prod.fst hps, congrArg Prod.snd hps⟩
      exact ⟨pushDown cfg b sorted, rfl, hpd⟩

theorem relaxResolveAt_sync {cfg : SConfig} {damping : ℚ} {ut : Bool}
    {sa sb : SGraph × List (List ℕ)} (hR : RelaxSync sa.1 sb.1) (hc : sb.2 = sa.2) :
    ∀ (c : ℕ) (sa' : SGraph × List (List ℕ)),
      relaxResolveAt cfg damping ut sa c = some sa' →
      ∃ sb', relaxResolveAt cfg damping ut sb c = some sb' ∧
        RelaxSync sa'.1 sb'.1 ∧ sb'.2 = sa'.2 := by
  intro c sa' h
  rw [relaxResolveAt] at h ⊢
  rw [hc]
  have hrc : RelaxSync (relaxColumn damping ut sa.1 (sa.2.getD c []))
      (relaxColumn damping ut sb.1 (sa.2.getD c [])) :=
    relaxColumn_sync hR damping ut _
  cases hres : resolveCollisions cfg (relaxColumn damping ut sa.1 (sa.2.getD c []))
      (sa.2.getD c []) with
  | none =>
    rw [hres] at h
    cases h
  | some p =>
    rw [hres] at h
    obtain ⟨b', hb', hRb⟩ := (resolveCollisions_sync hrc (sa.2.getD c [])).2 p.1 p.2
      (by rw [hres])
    rw [hb']
    have hsa' : (p.1, sa.2.set c p.2) = sa' := Option.some_inj.mp h
    refine ⟨(b', sa.2.set c p.2), rfl, ?_, ?_⟩
    · rw [← hsa']
      exact hRb
    · rw [← hsa']

theorem relaxIteration_sync {cfg : SConfig} {total i : ℕ}
    {sa sb : SGraph × List (List ℕ)} (hR : RelaxSync sa.1 sb.1) (hc : sb.2 = sa.2) :
    ∀ sa', relaxIteration cfg total i sa = some sa' →
      ∃ sb', relaxIteration cfg total i sb = some sb' ∧
        RelaxSync sa'.1 sb'.1 ∧ sb'.2 = sa'.2 := by
  intro sa' h
  rw [relaxIteration] at h ⊢
  rw [show sb.2.length = sa.2.length from by rw [hc]]
  cases h1 : ((List.range sa.2.length).drop 1).foldlM
      (relaxResolveAt cfg (relaxDamping total i) true) sa with
  | none =>
    rw [h1] at h
    cases h
  | some sa₁ =>
    rw [h1] at h
    obtain ⟨sb₁, hb₁, hR₁, hc₁⟩ := foldlM_sync
      (fun (x y : SGraph × List (List ℕ)) => RelaxSync x.1 y.1 ∧ y.2 = x.2)
      (relaxResolveAt cfg (relaxDamping total i) true)
      (relaxResolveAt cfg (relaxDamping total i) true)
      (fun x y c x' hxy hx => by
        obtain ⟨y', hy', hs1, hs2⟩ := relaxResolveAt_sync hxy.1 hxy.2 c x' hx
        exact ⟨y', hy', hs1, hs2⟩)
      ((List.range sa.2.length).drop 1) sa sb sa₁ ⟨hR, hc⟩ h1
    rw [hb₁]
    obtain ⟨sb', hb', hR', hc'⟩ := foldlM_sync
      (fun (x y : SGraph × List (List ℕ)) => RelaxSync x.1 y.1 ∧ y.2 = x.2)
      (relaxResolveAt cfg (relaxDamping total i) false)
      (relaxResolveAt cfg (relaxDamping total i) false)
      (fun x y c x' hxy hx => by
        obtain ⟨y', hy', hs1, hs2⟩ := relaxResolveAt_sync hxy.1 hxy.2 c x' hx
        exact ⟨y', hy', hs1, hs2⟩)
      ((List.range (sa.2.length - 1)).reverse) sa₁ sb₁ sa' ⟨hR₁, hc₁⟩ h
    exact ⟨sb', hb', hR', hc'⟩

theorem relaxLoopAux_sync {cfg : SConfig} {total : ℕ} :
    ∀ (rem i : ℕ) (sa sb sa' : SGraph × List (List ℕ)),
      RelaxSync sa.1 sb.1 → sb.2 = sa.2 →
      relaxLoopAux cfg total i rem (some sa) = some sa' →
      ∃ sb', relaxLoopAux cfg total i rem (some sb) = some sb' ∧
        RelaxSync sa'.1 sb'.1 ∧ sb'.2 = sa'.2 := by
  intro rem
  induction rem with
  | zero =>
    intro i sa sb sa' hR hc h
    cases h
    exact ⟨sb, rfl, hR, hc⟩
  | succ rem ih =>
    intro i sa sb sa' hR hc h
    rw [relaxLoopAux,
      show (some sa >>= relaxIteration cfg total i) = relaxIteration cfg total i sa from rfl] at h
    rw [relaxLoopAux,
      show (some sb >>= relaxIteration cfg total i) = relaxIteration cfg total i sb from rfl]
    cases h1 : relaxIteration cfg total i sa with
    | none =>
      rw [h1, relaxLoopAux_none] at h
      cases h
    | some sa₁ =>
      rw [h1] at h
      obtain ⟨sb₁, hb₁, hR₁, hc₁⟩ := relaxIteration_sync hR hc sa₁ h1
      rw [hb₁]
      exact ih (i + 1) sa₁ sb₁ sa' hR₁ hc₁ h

theorem relaxNodePositions_sync {cfg : SConfig} {a b : SGraph} (hR : RelaxSync a b)
    {a' : SGraph} (h : relaxNodePositions cfg a = some a') :
    ∃ b', relaxNodePositions cfg b = some b' ∧ RelaxSync a' b' := by
  have hcols : getColumns b = getColumns a :=
    getColumns_congr hR.1.1 (fun m => (hR.2 m).1)
  rw [relaxNodePositions] at h ⊢
  rw [hcols]
  cases h1 : relaxLoopAux cfg cfg.iterations 0 cfg.iterations (some (a, getColumns a)) with
  | none =>
    rw [h1] at h
    cases h
  | some sa' =>
    rw [h1] at h
    obtain ⟨sb', hb', hR', _⟩ := relaxLoopAux_sync cfg.iterations 0 (a, getColumns a)
      (b, getColumns a) sa' hR rfl h1
    rw [hb']
    refine ⟨sb'.1, rfl, ?_⟩
    have : sa'.1 = a' := Option.some_inj.mp h
    rw [← this]
    exact hR'
/-! ### Exact preservation of identifiers, link lists and link fields -/

theorem linkAt_congr_links {a b : SGraph} (h : a.links = b.links) (l : ℕ) :
    linkAt a l = linkAt b l := by
  rw [linkAt, linkAt, h]

theorem linkAt_setLink_cases (g : SGraph) (l : ℕ) (f : SLink → SLink) (m : ℕ) :
    linkAt (setLink g l f) m =
      if l = m ∧ l < g.links.length then f (linkAt g m) else linkAt g m := by
  by_cases hr : l < g.links.length
  · by_cases he : l = m
    · subst he
      rw [if_pos ⟨rfl, hr⟩, linkAt_setLink_self _ hr]
    · rw [if_neg (fun hc : l = m ∧ l < g.links.length => he hc.1), linkAt_setLink_ne _ he]
  · rw [if_neg (fun hc : l = m ∧ l < g.links.length => hr hc.2), setLink_out_of_range _ hr]

theorem bfsStep_id (d : ℕ) (st : SGraph × List ℕ × List ℕ) (idx m : ℕ) :
    (nodeAt (bfsStepNode d st idx).1 m).id = (nodeAt st.1 m).id := by
  rw [bfsStepNode]
  dsimp only
  split
  · rfl
  · rw [nodeAt_setDepth]
    split
    · rfl
    · rfl

theorem bfsFold_id (d : ℕ) :
    ∀ (cur : List ℕ) (st : SGraph × List ℕ × List ℕ) (m : ℕ),
      (nodeAt (cur.foldl (bfsStepNode d) st).1 m).id = (nodeAt st.1 m).id := by
  intro cur
  induction cur with
  | nil => intro st m; rfl
  | cons a cur ih =>
    intro st m
    rw [List.foldl_cons, ih, bfsStep_id]

theorem bfsAux_id : ∀ (fuel : ℕ) (g : SGraph) (vis cur : List ℕ) (d m : ℕ),
    (nodeAt (bfsAux fuel g vis cur d).1 m).id = (nodeAt g m).id := by
  intro fuel
  induction fuel with
  | zero => intro g vis cur d m; rfl
  | succ fuel ih =>
    intro g vis cur d m
    rw [bfsAux]
    split
    · rfl
    · rw [ih, bfsLevel, bfsFold_id]

theorem computeDepths_keep (cfg : SConfig) (g : SGraph) :
    (computeDepths cfg g).links = g.links ∧
    ∀ m, (nodeAt (computeDepths cfg g) m).id = (nodeAt g m).id ∧
      (nodeAt (computeDepths cfg g) m).sourceLinks = (nodeAt g m).sourceLinks ∧
      (nodeAt (computeDepths cfg g) m).targetLinks = (nodeAt g m).targetLinks := by
  rw [computeDepths]
  dsimp only
  split
  · constructor
    · rfl
    · intro m
      rw [setAllDepth, nodeAt_withMap]
      split
      · exact ⟨rfl, rfl, rfl⟩
      · rename_i hm
        rw [nodeAt_out_of_range hm]
        exact ⟨rfl, rfl, rfl⟩
  · set st := bfsAux (g.nodes.length + 2) g [] (sourcesOf g) 0 with hst
    have hlenst : st.1.nodes.length = g.nodes.length :=
      (sameShape_bfsAux (g.nodes.length + 2) g [] (sourcesOf g) 0).1
    have hX : ∀ m, (nodeAt (unvisitedFallback st.1 st.2) m).id = (nodeAt g m).id ∧
        (nodeAt (unvisitedFallback st.1 st.2) m).sourceLinks = (nodeAt g m).sourceLinks ∧
        (nodeAt (unvisitedFallback st.1 st.2) m).targetLinks = (nodeAt g m).targetLinks := by
      intro m
      rw [nodeAt_unvisitedFallback]
      by_cases hm : m < st.1.nodes.length
      · rw [if_pos hm]
        split
        · rw [hst, bfsAux_id, bfsAux_srcLinks, bfsAux_tgtLinks]
          exact ⟨rfl, rfl, rfl⟩
        · show ((nodeAt st.1 m).id = _) ∧ ((nodeAt st.1 m).sourceLinks = _) ∧
            ((nodeAt st.1 m).targetLinks = _)
          rw [hst, bfsAux_id, bfsAux_srcLinks, bfsAux_tgtLinks]
          exact ⟨rfl, rfl, rfl⟩
      · rw [if_neg hm]
        rw [hlenst] at hm
        rw [nodeAt_out_of_range hm]
        exact ⟨rfl, rfl, rfl⟩
    have hXlinks : (unvisitedFallback st.1 st.2).links = g.links := by
      show st.1.links = g.links
      rw [hst]
      exact bfsAux_links _ _ _ _ _
    have hXlen : (unvisitedFallback st.1 st.2).nodes.length = g.nodes.length := by
      rw [length_unvisitedFallback, hlenst]
    split
    · constructor
      · show (unvisitedFallback st.1 st.2).links = g.links
        exact hXlinks
      · intro m
        rw [nodeAt_justifyAdjust]
        by_cases hm : m < (unvisitedFallback st.1 st.2).nodes.length
        · rw [if_pos hm]
          split
          · exact hX m
          · exact hX m
        · rw [if_neg hm]
          rw [hXlen] at hm
          rw [nodeAt_out_of_range hm]
          exact ⟨rfl, rfl, rfl⟩
    · exact ⟨hXlinks, hX⟩

theorem links_computeNodeValues (g : SGraph) : (computeNodeValues g).links = g.links := rfl

theorem links_positionNodesX (cfg : SConfig) (g : SGraph) :
    (positionNodesX cfg g).links = g.links := rfl

theorem widthFold_ty (T : ℚ) (i : ℕ) :
    ∀ (L : List ℕ) (st : SGraph × ℚ) (l : ℕ),
      (linkAt (L.foldl (widthStep T i) st).1 l).ty = (linkAt st.1 l).ty := by
  intro L
  induction L with
  | nil => intro st l; rfl
  | cons a L ih =>
    intro st l
    rw [List.foldl_cons, ih, widthStep]
    dsimp only
    rw [linkAt_setLink_cases]
    split
    · rfl
    · rfl

theorem widthOuter_ty :
    ∀ (L : List ℕ) (g : SGraph) (l : ℕ),
      (linkAt (L.foldl widthNodeStep g) l).ty = (linkAt g l).ty := by
  intro L
  induction L with
  | nil => intro g l; rfl
  | cons a L ih =>
    intro g l
    rw [List.foldl_cons, ih, widthNodeStep, widthFold_ty]

theorem setWidths_keep_ty (g : SGraph) (l : ℕ) :
    (linkAt (setWidths g) l).ty = (linkAt g l).ty := by
  rw [setWidths, widthOuter_ty]

theorem tyFold_links_length' :
    ∀ (L : List ℕ) (st : SGraph × ℚ),
      (L.foldl tyStep st).1.links.length = st.1.links.length := by
  intro L
  induction L with
  | nil => intro st; rfl
  | cons a L ih =>
    intro st
    rw [List.foldl_cons, ih, tyStep]
    dsimp only
    rw [length_links_setLink]

theorem setTys_links_length (g : SGraph) :
    (setTys g).links.length = g.links.length := by
  rw [setTys]
  generalize List.range g.nodes.length = L
  induction L generalizing g with
  | nil => rfl
  | cons a L ih =>
    rw [List.foldl_cons, ih, tyNodeStep, tyFold_links_length']
/-! ### Pointwise characterization of the link-sorting phase -/

theorem sortInner_frame (x : SGraph) :
    ∀ (col : List ℕ) (g : SGraph),
      g.links = x.links → g.nodes.length = x.nodes.length →
      (∀ j, (nodeAt g j).y = (nodeAt x j).y) →
      (col.foldl (fun g i => setNode g i fun n =>
        { n with
          sourceLinks := sortBy (fun a b =>
            decide ((nodeAt g (linkAt g a).target).y ≤ (nodeAt g (linkAt g b).target).y)) n.sourceLinks,
          targetLinks := sortBy (fun a b =>
            decide ((nodeAt g (linkAt g a).source).y ≤ (nodeAt g (linkAt g b).source).y)) n.targetLinks })
        g).links = x.links ∧
      (col.foldl (fun g i => setNode g i fun n =>
        { n with
          sourceLinks := sortBy (fun a b =>
            decide ((nodeAt g (linkAt g a).target).y ≤ (nodeAt g (linkAt g b).target).y)) n.sourceLinks,
          targetLinks := sortBy (fun a b =>
            decide ((nodeAt g (linkAt g a).source).y ≤ (nodeAt g (linkAt g b).source).y)) n.targetLinks })
        g).nodes.length = x.nodes.length ∧
      (∀ j, (nodeAt (col.foldl (fun g i => setNode g i fun n =>
        { n with
          sourceLinks := sortBy (fun a b =>
            decide ((nodeAt g (linkAt g a).target).y ≤ (nodeAt g (linkAt g b).target).y)) n.sourceLinks,
          targetLinks := sortBy (fun a b =>
            decide ((nodeAt g (linkAt g a).source).y ≤ (nodeAt g (linkAt g b).source).y)) n.targetLinks })
        g) j).y = (nodeAt x j).y) ∧
      (∀ m, ¬ m ∈ col → nodeAt (col.foldl (fun g i => setNode g i fun n =>
        { n with
          sourceLinks := sortBy (fun a b =>
            decide ((nodeAt g (linkAt g a).target).y ≤ (nodeAt g (linkAt g b).target).y)) n.sourceLinks,
          targetLinks := sortBy (fun a b =>
            decide ((nodeAt g (linkAt g a).source).y ≤ (nodeAt g (linkAt g b).source).y)) n.targetLinks })
        g) m = nodeAt g m) ∧
      (∀ m, m ∈ col → col.Nodup → nodeAt (col.foldl (fun g i => setNode g i fun n =>
        { n with
          sourceLinks := sortBy (fun a b =>
            decide ((nodeAt g (linkAt g a).target).y ≤ (nodeAt g (linkAt g b).target).y)) n.sourceLinks,
          targetLinks := sortBy (fun a b =>
            decide ((nodeAt g (linkAt g a).source).y ≤ (nodeAt g (linkAt g b).source).y)) n.targetLinks })
        g) m = { nodeAt g m with
          sourceLinks := sortBy (fun a b =>
            decide ((nodeAt x (linkAt x a).target).y ≤ (nodeAt x (linkAt x b).target).y))
            (nodeAt g m).sourceLinks,
          targetLinks := sortBy (fun a b =>
            decide ((nodeAt x (linkAt x a).source).y ≤ (nodeAt x (linkAt x b).source).y))
            (nodeAt g m).targetLinks }) := by
  intro col
  induction col with
  | nil =>
    intro g h1 h2 h3
    exact ⟨h1, h2, h3, fun m _ => rfl, fun m hm => absurd hm (List.not_mem_nil m)⟩
  | cons i col ih =>
    intro g h1 h2 h3
    rw [List.foldl_cons]
    have hg1links : (setNode g i fun n =>
        { n with
          sourceLinks := sortBy (fun a b =>
            decide ((nodeAt g (linkAt g a).target).y ≤ (nodeAt g (linkAt g b).target).y)) n.sourceLinks,
          targetLinks := sortBy (fun a b =>
            decide ((nodeAt g (linkAt g a).source).y ≤ (nodeAt g (linkAt g b).source).y)) n.targetLinks }).links =
        x.links := by
      rw [links_setNode]
      exact h1
    have hg1len : (setNode g i fun n =>
        { n with
          sourceLinks := sortBy (fun a b =>
            decide ((nodeAt g (linkAt g a).target).y ≤ (nodeAt g (linkAt g b).target).y)) n.sourceLinks,
          targetLinks := sortBy (fun a b =>
            decide ((nodeAt g (linkAt g a).source).y ≤ (nodeAt g (linkAt g b).source).y)) n.targetLinks }).nodes.length =
        x.nodes.length := by
      rw [length_nodes_setNode]
      exact h2
    have hg1at : ∀ m, nodeAt (setNode g i fun n =>
        { n with
          sourceLinks := sortBy (fun a b =>
            decide ((nodeAt g (linkAt g a).target).y ≤ (nodeAt g (linkAt g b).target).y)) n.sourceLinks,
          targetLinks := sortBy (fun a b =>
            decide ((nodeAt g (linkAt g a).source).y ≤ (nodeAt g (linkAt g b).source).y)) n.targetLinks }) m =
        if i = m ∧ i < g.nodes.length then
          { nodeAt g m with
            sourceLinks := sortBy (fun a b =>
              decide ((nodeAt g (linkAt g a).target).y ≤ (nodeAt g (linkAt g b).target).y))
              (nodeAt g m).sourceLinks,
            targetLinks := sortBy (fun a b =>
              decide ((nodeAt g (linkAt g a).source).y ≤ (nodeAt g (linkAt g b).source).y))
              (nodeAt g m).targetLinks }
        else nodeAt g m := fun m => nodeAt_setNode_cases g i _ m
    have hg1y : ∀ j, (nodeAt (setNode g i fun n =>
        { n with
          sourceLinks := sortBy (fun a b =>
            decide ((nodeAt g (linkAt g a).target).y ≤ (nodeAt g (linkAt g b).target).y)) n.sourceLinks,
          targetLinks := sortBy (fun a b =>
            decide ((nodeAt g (linkAt g a).source).y ≤ (nodeAt g (linkAt g b).source).y)) n.targetLinks }) j).y =
        (nodeAt x j).y := by
      intro j
      rw [hg1at j]
      split
      · exact h3 j
      · exact h3 j
    have hcmpS : (fun a b =>
        decide ((nodeAt g (linkAt g a).target).y ≤ (nodeAt g (linkAt g b).target).y)) =
        (fun a b =>
          decide ((nodeAt x (linkAt x a).target).y ≤ (nodeAt x (linkAt x b).target).y)) := by
      funext a b
      rw [linkAt_congr_links h1, linkAt_congr_links h1, h3, h3]
    have hcmpT : (fun a b =>
        decide ((nodeAt g (linkAt g a).source).y ≤ (nodeAt g (linkAt g b).source).y)) =
        (fun a b =>
          decide ((nodeAt x (linkAt x a).source).y ≤ (nodeAt x (linkAt x b).source).y)) := by
      funext a b
      rw [linkAt_congr_links h1, linkAt_congr_links h1, h3, h3]
    obtain ⟨k1, k2, k3, k4, k5⟩ := ih _ hg1links hg1len hg1y
    refine ⟨k1, k2, k3, ?_, ?_⟩
    · intro m hm
      have hmi : ¬ m = i := fun he => hm (he ▸ List.mem_cons_self i col)
      have hmc : ¬ m ∈ col := fun hc => hm (List.mem_cons_of_mem i hc)
      rw [k4 m hmc, hg1at m, if_neg (fun hc => hmi hc.1.symm)]
    · intro m hm hnd
      have hind : i ∉ col := (List.nodup_cons.mp hnd).1
      have hndc : col.Nodup := (List.nodup_cons.mp hnd).2
      rcases List.mem_cons.mp hm with he | hmc
      · subst he
        rw [k4 m hind, hg1at m]
        by_cases hr : m < g.nodes.length
        · rw [if_pos ⟨rfl, hr⟩, hcmpS, hcmpT]
        · rw [if_neg (fun hc => hr hc.2), nodeAt_out_of_range hr]
          rfl
      · have hmi : ¬ m = i := fun he => hind (he ▸ hmc)
        rw [k5 m hmc hndc, hg1at m, if_neg (fun hc => hmi hc.1.symm)]

theorem sortOuter_frame (x : SGraph) :
    ∀ (CS : List (List ℕ)) (g : SGraph),
      g.links = x.links → g.nodes.length = x.nodes.length →
      (∀ j, (nodeAt g j).y = (nodeAt x j).y) →
      (∀ col ∈ CS, col.Nodup) →
      CS.Pairwise (fun c₁ c₂ => ∀ t, t ∈ c₁ → ¬ t ∈ c₂) →
      (∀ m, (∀ col ∈ CS, ¬ m ∈ col) →
        nodeAt (CS.foldl (fun g col => col.foldl (fun g i => setNode g i fun n =>
          { n with
            sourceLinks := sortBy (fun a b =>
              decide ((nodeAt g (linkAt g a).target).y ≤ (nodeAt g (linkAt g b).target).y)) n.sourceLinks,
            targetLinks := sortBy (fun a b =>
              decide ((nodeAt g (linkAt g a).source).y ≤ (nodeAt g (linkAt g b).source).y)) n.targetLinks })
          g) g) m = nodeAt g m) ∧
      (∀ m col, col ∈ CS → m ∈ col →
        nodeAt (CS.foldl (fun g col => col.foldl (fun g i => setNode g i fun n =>
          { n with
            sourceLinks := sortBy (fun a b =>
              decide ((nodeAt g (linkAt g a).target).y ≤ (nodeAt g (linkAt g b).target).y)) n.sourceLinks,
            targetLinks := sortBy (fun a b =>
              decide ((nodeAt g (linkAt g a).source).y ≤ (nodeAt g (linkAt g b).source).y)) n.targetLinks })
          g) g) m = { nodeAt g m with
            sourceLinks := sortBy (fun a b =>
              decide ((nodeAt x (linkAt x a).target).y ≤ (nodeAt x (linkAt x b).target).y))
              (nodeAt g m).sourceLinks,
            targetLinks := sortBy (fun a b =>
              decide ((nodeAt x (linkAt x a).source).y ≤ (nodeAt x (linkAt x b).source).y))
              (nodeAt g m).targetLinks }) := by
  intro CS
  induction CS with
  | nil =>
    intro g h1 h2 h3 hnd hpw
    exact ⟨fun m _ => rfl, fun m col hcol => absurd hcol (List.not_mem_nil col)⟩
  | cons col CS ih =>
    intro g h1 h2 h3 hnd hpw
    rw [List.foldl_cons]
    obtain ⟨k1, k2, k3, k4, k5⟩ := sortInner_frame x col g h1 h2 h3
    obtain ⟨hhead, hpw'⟩ := List.pairwise_cons.mp hpw
    obtain ⟨q4, q5⟩ := ih _ k1 k2 k3 (fun c hc => hnd c (List.mem_cons_of_mem col hc)) hpw'
    constructor
    · intro m hm
      rw [q4 m (fun c hc => hm c (List.mem_cons_of_mem col hc)),
        k4 m (hm col (List.mem_cons_self col CS))]
    · intro m col₀ hcol₀ hmc
      rcases List.mem_cons.mp hcol₀ with he | hmem
      · subst he
        have hrest : ∀ c ∈ CS, ¬ m ∈ c := fun c hc => hhead c hc m hmc
        rw [q4 m hrest, k5 m hmc (hnd col₀ (List.mem_cons_self col₀ CS))]
      · have hmnotcol : ¬ m ∈ col := fun hmincol => hhead col₀ hmem m hmincol hmc
        rw [q5 m col₀ hmem hmc, k4 m hmnotcol]

theorem sortNodeLinks_char (x : SGraph) (m : ℕ) :
    nodeAt (sortNodeLinks x) m = { nodeAt x m with
      sourceLinks := sortBy (fun a b =>
        decide ((nodeAt x (linkAt x a).target).y ≤ (nodeAt x (linkAt x b).target).y))
        (nodeAt x m).sourceLinks,
      targetLinks := sortBy (fun a b =>
        decide ((nodeAt x (linkAt x a).source).y ≤ (nodeAt x (linkAt x b).source).y))
        (nodeAt x m).targetLinks } := by
  have hnd : ∀ col ∈ getColumns x, col.Nodup := by
    intro col hcol
    rw [getColumns] at hcol
    rcases List.mem_map.mp hcol with ⟨d, _, hcd⟩
    rw [← hcd]
    exact (List.nodup_range _).filter _
  have hpw : (getColumns x).Pairwise (fun c₁ c₂ => ∀ t, t ∈ c₁ → ¬ t ∈ c₂) := by
    rw [getColumns]
    rw [List.pairwise_map]
    refine List.Pairwise.imp ?_ (List.pairwise_lt_range _)
    intro d₁ d₂ hlt t ht1 ht2
    rw [List.mem_filter] at ht1 ht2
    have e1 : (nodeAt x t).depth = d₁ := by simpa using ht1.2
    have e2 : (nodeAt x t).depth = d₂ := by simpa using ht2.2
    omega
  obtain ⟨q4, q5⟩ := sortOuter_frame x (getColumns x) x rfl rfl (fun _ => rfl) hnd hpw
  rw [sortNodeLinks]
  by_cases hm : m < x.nodes.length
  · exact q5 m ((getColumns x).getD (nodeAt x m).depth [])
      (getD_mem_of_lt [] (getColumns x) (nodeAt x m).depth
        (by rw [getColumns_length]; have := depth_le_maxDepth hm; omega))
      (mem_getColumns_self hm)
  · rw [q4 m ?notin, nodeAt_out_of_range hm]
    · rfl
    case notin =>
      intro col hcol hmem
      rw [getColumns] at hcol
      rcases List.mem_map.mp hcol with ⟨d, _, hcd⟩
      rw [← hcd] at hmem
      rw [List.mem_filter, List.mem_range] at hmem
      exact hm hmem.1
/-! ### The width and offset sweeps are reproducible from their inputs -/

theorem widthFold_sync (u₀ v₀ : SGraph) (T : ℚ) (i : ℕ) :
    ∀ (ls : List ℕ) (su sv : SGraph × ℚ),
      su.1.nodes = sv.1.nodes →
      su.1.links.length = sv.1.links.length →
      (∀ l, (linkAt su.1 l).value = (linkAt sv.1 l).value) →
      su.2 = sv.2 →
      (∀ l, ((linkAt su.1 l).width = (linkAt sv.1 l).width ∧
          (linkAt su.1 l).sy = (linkAt sv.1 l).sy) ∨
        ((linkAt su.1 l).width = (linkAt u₀ l).width ∧
         (linkAt su.1 l).sy = (linkAt u₀ l).sy ∧
         (linkAt sv.1 l).width = (linkAt v₀ l).width ∧
         (linkAt sv.1 l).sy = (linkAt v₀ l).sy)) →
      (ls.foldl (widthStep T i) su).1.nodes = (ls.foldl (widthStep T i) sv).1.nodes ∧
      (ls.foldl (widthStep T i) su).1.links.length =
        (ls.foldl (widthStep T i) sv).1.links.length ∧
      (∀ l, (linkAt (ls.foldl (widthStep T i) su).1 l).value =
        (linkAt (ls.foldl (widthStep T i) sv).1 l).value) ∧
      (ls.foldl (widthStep T i) su).2 = (ls.foldl (widthStep T i) sv).2 ∧
      (∀ l, ((linkAt (ls.foldl (widthStep T i) su).1 l).width =
          (linkAt (ls.foldl (widthStep T i) sv).1 l).width ∧
          (linkAt (ls.foldl (widthStep T i) su).1 l).sy =
          (linkAt (ls.foldl (widthStep T i) sv).1 l).sy) ∨
        ((linkAt (ls.foldl (widthStep T i) su).1 l).width = (linkAt u₀ l).width ∧
         (linkAt (ls.foldl (widthStep T i) su).1 l).sy = (linkAt u₀ l).sy ∧
         (linkAt (ls.foldl (widthStep T i) sv).1 l).width = (linkAt v₀ l).width ∧
         (linkAt (ls.foldl (widthStep T i) sv).1 l).sy = (linkAt v₀ l).sy)) := by
  intro ls
  induction ls with
  | nil =>
    intro su sv hn hl hval hacc hinv
    exact ⟨hn, hl, hval, hacc, hinv⟩
  | cons l₀ ls ih =>
    intro su sv hn hl hval hacc hinv
    rw [List.foldl_cons, List.foldl_cons]
    have hw : (if 0 < T then (linkAt su.1 l₀).value / T * (nodeAt su.1 i).height else 0) =
        (if 0 < T then (linkAt sv.1 l₀).value / T * (nodeAt sv.1 i).height else 0) := by
      rw [hval l₀, nodeAt_congr_nodes hn i]
    have hn' : (widthStep T i su l₀).1.nodes = (widthStep T i sv l₀).1.nodes := by
      rw [widthStep, widthStep]
      dsimp only
      rw [nodes_setLink, nodes_setLink]
      exact hn
    have hl' : (widthStep T i su l₀).1.links.length = (widthStep T i sv l₀).1.links.length := by
      rw [widthStep, widthStep]
      dsimp only
      rw [length_links_setLink, length_links_setLink]
      exact hl
    have hval' : ∀ l, (linkAt (widthStep T i su l₀).1 l).value =
        (linkAt (widthStep T i sv l₀).1 l).value := by
      intro l
      rw [widthStep, widthStep]
      dsimp only
      rw [linkAt_setLink_cases, linkAt_setLink_cases, hl]
      by_cases hc : l₀ = l ∧ l₀ < sv.1.links.length
      · rw [if_pos hc, if_pos hc]
        show (linkAt su.1 l).value = (linkAt sv.1 l).value
        exact hval l
      · rw [if_neg hc, if_neg hc]
        exact hval l
    have hacc' : (widthStep T i su l₀).2 = (widthStep T i sv l₀).2 := by
      rw [widthStep, widthStep]
      dsimp only
      rw [hacc, hw]
    have hinv' : ∀ l, ((linkAt (widthStep T i su l₀).1 l).width =
        (linkAt (widthStep T i sv l₀).1 l).width ∧
        (linkAt (widthStep T i su l₀).1 l).sy = (linkAt (widthStep T i sv l₀).1 l).sy) ∨
        ((linkAt (widthStep T i su l₀).1 l).width = (linkAt u₀ l).width ∧
         (linkAt (widthStep T i su l₀).1 l).sy = (linkAt u₀ l).sy ∧
         (linkAt (widthStep T i sv l₀).1 l).width = (linkAt v₀ l).width ∧
         (linkAt (widthStep T i sv l₀).1 l).sy = (linkAt v₀ l).sy) := by
      intro l
      rw [widthStep, widthStep]
      dsimp only
      rw [linkAt_setLink_cases, linkAt_setLink_cases, hl]
      by_cases hc : l₀ = l ∧ l₀ < sv.1.links.length
      · rw [if_pos hc, if_pos hc]
        refine Or.inl ⟨?_, ?_⟩
        · show (if 0 < T then (linkAt su.1 l₀).value / T * (nodeAt su.1 i).height else 0) = _
          rw [hw]
        · exact hacc
      · rw [if_neg hc, if_neg hc]
        exact hinv l
    exact ih (widthStep T i su l₀) (widthStep T i sv l₀) hn' hl' hval' hacc' hinv'

theorem widthOuter_sync (u₀ v₀ : SGraph) :
    ∀ (L : List ℕ) (u v : SGraph),
      u.nodes = v.nodes →
      u.links.length = v.links.length →
      (∀ l, (linkAt u l).value = (linkAt v l).value) →
      (∀ l, ((linkAt u l).width = (linkAt v l).width ∧ (linkAt u l).sy = (linkAt v l).sy) ∨
        ((linkAt u l).width = (linkAt u₀ l).width ∧ (linkAt u l).sy = (linkAt u₀ l).sy ∧
         (linkAt v l).width = (linkAt v₀ l).width ∧ (linkAt v l).sy = (linkAt v₀ l).sy)) →
      (L.foldl widthNodeStep u).nodes = (L.foldl widthNodeStep v).nodes ∧
      (L.foldl widthNodeStep u).links.length = (L.foldl widthNodeStep v).links.length ∧
      (∀ l, (linkAt (L.foldl widthNodeStep u) l).value =
        (linkAt (L.foldl widthNodeStep v) l).value) ∧
      (∀ l, ((linkAt (L.foldl widthNodeStep u) l).width =
          (linkAt (L.foldl widthNodeStep v) l).width ∧
          (linkAt (L.foldl widthNodeStep u) l).sy =
          (linkAt (L.foldl widthNodeStep v) l).sy) ∨
        ((linkAt (L.foldl widthNodeStep u) l).width = (linkAt u₀ l).width ∧
         (linkAt (L.foldl widthNodeStep u) l).sy = (linkAt u₀ l).sy ∧
         (linkAt (L.foldl widthNodeStep v) l).width = (linkAt v₀ l).width ∧
         (linkAt (L.foldl widthNodeStep v) l).sy = (linkAt v₀ l).sy)) := by
  intro L
  induction L with
  | nil =>
    intro u v hn hl hval hinv
    exact ⟨hn, hl, hval, hinv⟩
  | cons i L ih =>
    intro u v hn hl hval hinv
    rw [List.foldl_cons, List.foldl_cons]
    have hlists : (nodeAt u i).sourceLinks = (nodeAt v i).sourceLinks := by
      rw [nodeAt_congr_nodes hn i]
    have hT : sumVals u (nodeAt u i).sourceLinks = sumVals v (nodeAt v i).sourceLinks := by
      rw [hlists]
      exact sumVals_sync hval (List.Perm.refl _)
    obtain ⟨k1, k2, k3, _, k5⟩ := widthFold_sync u₀ v₀
      (sumVals u (nodeAt u i).sourceLinks) i (nodeAt u i).sourceLinks (u, 0) (v, 0)
      hn hl hval rfl hinv
    have hstepu : widthNodeStep u i =
        ((nodeAt u i).sourceLinks.foldl
          (widthStep (sumVals u (nodeAt u i).sourceLinks) i) (u, 0)).1 := rfl
    have hstepv : widthNodeStep v i =
        ((nodeAt u i).sourceLinks.foldl
          (widthStep (sumVals u (nodeAt u i).sourceLinks) i) (v, 0)).1 := by
      rw [widthNodeStep, ← hT, ← hlists]
    exact ih (widthNodeStep u i) (widthNodeStep v i)
      (by rw [hstepu, hstepv]; exact k1)
      (by rw [hstepu, hstepv]; exact k2)
      (by rw [hstepu, hstepv]; exact k3)
      (by rw [hstepu, hstepv]; exact k5)

theorem setWidths_sync (u v : SGraph) (hn : u.nodes = v.nodes)
    (hl : u.links.length = v.links.length)
    (hval : ∀ l, (linkAt u l).value = (linkAt v l).value) :
    ∀ l, ((linkAt (setWidths u) l).width = (linkAt (setWidths v) l).width ∧
        (linkAt (setWidths u) l).sy = (linkAt (setWidths v) l).sy) ∨
      ((linkAt (setWidths u) l).width = (linkAt u l).width ∧
       (linkAt (setWidths u) l).sy = (linkAt u l).sy ∧
       (linkAt (setWidths v) l).width = (linkAt v l).width ∧
       (linkAt (setWidths v) l).sy = (linkAt v l).sy) := by
  rw [setWidths, setWidths, show v.nodes.length = u.nodes.length from by rw [hn]]
  exact (widthOuter_sync u v (List.range u.nodes.length) u v hn hl hval
    (fun l => Or.inr ⟨rfl, rfl, rfl, rfl⟩)).2.2.2

theorem tyFold_sync (u₀ v₀ : SGraph) :
    ∀ (ls : List ℕ) (su sv : SGraph × ℚ),
      su.1.nodes = sv.1.nodes →
      su.1.links.length = sv.1.links.length →
      (∀ l, (linkAt su.1 l).width = (linkAt sv.1 l).width) →
      su.2 = sv.2 →
      (∀ l, (linkAt su.1 l).ty = (linkAt sv.1 l).ty ∨
        ((linkAt su.1 l).ty = (linkAt u₀ l).ty ∧ (linkAt sv.1 l).ty = (linkAt v₀ l).ty)) →
      (ls.foldl tyStep su).1.nodes = (ls.foldl tyStep sv).1.nodes ∧
      (ls.foldl tyStep su).1.links.length = (ls.foldl tyStep sv).1.links.length ∧
      (∀ l, (linkAt (ls.foldl tyStep su).1 l).width =
        (linkAt (ls.foldl tyStep sv).1 l).width) ∧
      (ls.foldl tyStep su).2 = (ls.foldl tyStep sv).2 ∧
      (∀ l, (linkAt (ls.foldl tyStep su).1 l).ty = (linkAt (ls.foldl tyStep sv).1 l).ty ∨
        ((linkAt (ls.foldl tyStep su).1 l).ty = (linkAt u₀ l).ty ∧
         (linkAt (ls.foldl tyStep sv).1 l).ty = (linkAt v₀ l).ty)) := by
  intro ls
  induction ls with
  | nil =>
    intro su sv hn hl hw hacc hinv
    exact ⟨hn, hl, hw, hacc, hinv⟩
  | cons l₀ ls ih =>
    intro su sv hn hl hw hacc hinv
    rw [List.foldl_cons, List.foldl_cons]
    have hn' : (tyStep su l₀).1.nodes = (tyStep sv l₀).1.nodes := by
      rw [tyStep, tyStep]
      dsimp only
      rw [nodes_setLink, nodes_setLink]
      exact hn
    have hl' : (tyStep su l₀).1.links.length = (tyStep sv l₀).1.links.length := by
      rw [tyStep, tyStep]
      dsimp only
      rw [length_links_setLink, length_links_setLink]
      exact hl
    have hw' : ∀ l, (linkAt (tyStep su l₀).1 l).width = (linkAt (tyStep sv l₀).1 l).width := by
      intro l
      rw [tyStep, tyStep]
      dsimp only
      rw [linkAt_setLink_cases, linkAt_setLink_cases, hl]
      by_cases hc : l₀ = l ∧ l₀ < sv.1.links.length
      · rw [if_pos hc, if_pos hc]
        show (linkAt su.1 l).width = (linkAt sv.1 l).width
        exact hw l
      · rw [if_neg hc, if_neg hc]
        exact hw l
    have hacc' : (tyStep su l₀).2 = (tyStep sv l₀).2 := by
      rw [tyStep, tyStep]
      dsimp only
      rw [hacc, hw l₀]
    have hinv' : ∀ l, (linkAt (tyStep su l₀).1 l).ty = (linkAt (tyStep sv l₀).1 l).ty ∨
        ((linkAt (tyStep su l₀).1 l).ty = (linkAt u₀ l).ty ∧
         (linkAt (tyStep sv l₀).1 l).ty = (linkAt v₀ l).ty) := by
      intro l
      rw [tyStep, tyStep]
      dsimp only
      rw [linkAt_setLink_cases, linkAt_setLink_cases, hl]
      by_cases hc : l₀ = l ∧ l₀ < sv.1.links.length
      · rw [if_pos hc, if_pos hc]
        exact Or.inl hacc
      · rw [if_neg hc, if_neg hc]
        exact hinv l
    exact ih (tyStep su l₀) (tyStep sv l₀) hn' hl' hw' hacc' hinv'

theorem tyOuter_sync (u₀ v₀ : SGraph) :
    ∀ (L : List ℕ) (u v : SGraph),
      u.nodes = v.nodes →
      u.links.length = v.links.length →
      (∀ l, (linkAt u l).width = (linkAt v l).width) →
      (∀ l, (linkAt u l).ty = (linkAt v l).ty ∨
        ((linkAt u l).ty = (linkAt u₀ l).ty ∧ (linkAt v l).ty = (linkAt v₀ l).ty)) →
      (L.foldl tyNodeStep u).nodes = (L.foldl tyNodeStep v).nodes ∧
      (L.foldl tyNodeStep u).links.length = (L.foldl tyNodeStep v).links.length ∧
      (∀ l, (linkAt (L.foldl tyNodeStep u) l).width =
        (linkAt (L.foldl tyNodeStep v) l).width) ∧
      (∀ l, (linkAt (L.foldl tyNodeStep u) l).ty = (linkAt (L.foldl tyNodeStep v) l).ty ∨
        ((linkAt (L.foldl tyNodeStep u) l).ty = (linkAt u₀ l).ty ∧
         (linkAt (L.foldl tyNodeStep v) l).ty = (linkAt v₀ l).ty)) := by
  intro L
  induction L with
  | nil =>
    intro u v hn hl hw hinv
    exact ⟨hn, hl, hw, hinv⟩
  | cons i L ih =>
    intro u v hn hl hw hinv
    rw [List.foldl_cons, List.foldl_cons]
    have hlists : (nodeAt u i).targetLinks = (nodeAt v i).targetLinks := by
      rw [nodeAt_congr_nodes hn i]
    obtain ⟨k1, k2, k3, _, k5⟩ := tyFold_sync u₀ v₀ (nodeAt u i).targetLinks (u, 0) (v, 0)
      hn hl hw rfl hinv
    have hstepu : tyNodeStep u i = ((nodeAt u i).targetLinks.foldl tyStep (u, 0)).1 := rfl
    have hstepv : tyNodeStep v i = ((nodeAt u i).targetLinks.foldl tyStep (v, 0)).1 := by
      rw [tyNodeStep, ← hlists]
    exact ih (tyNodeStep u i) (tyNodeStep v i)
      (by rw [hstepu, hstepv]; exact k1)
      (by rw [hstepu, hstepv]; exact k2)
      (by rw [hstepu, hstepv]; exact k3)
      (by rw [hstepu, hstepv]; exact k5)

theorem setTys_sync (u v : SGraph) (hn : u.nodes = v.nodes)
    (hl : u.links.length = v.links.length)
    (hw : ∀ l, (linkAt u l).width = (linkAt v l).width) :
    ∀ l, (linkAt (setTys u) l).ty = (linkAt (setTys v) l).ty ∨
      ((linkAt (setTys u) l).ty = (linkAt u l).ty ∧
       (linkAt (setTys v) l).ty = (linkAt v l).ty) := by
  rw [setTys, setTys, show v.nodes.length = u.nodes.length from by rw [hn]]
  exact (tyOuter_sync u v (List.range u.nodes.length) u v hn hl hw
    (fun l => Or.inr ⟨rfl, rfl⟩)).2.2.2

/-- If `g₁` is the output of the width and offset phases on some graph, then
rerunning both phases on `g₁` reproduces `g₁` exactly: every write either
recomputes the value already stored or hits a link untouched in both runs. -/
theorem offsets_fix {X g₁ : SGraph} (h : g₁ = setTys (setWidths X)) :
    setTys (setWidths g₁) = g₁ := by
  have hn : g₁.nodes = X.nodes := by rw [h, setTys_nodes, setWidths_nodes]
  have hlen : g₁.links.length = X.links.length := by
    rw [h, setTys_links_length, setWidths_links_length]
  have hval : ∀ l, (linkAt g₁ l).value = (linkAt X l).value := by
    intro l
    rw [h, setTys_keep_value, setWidths_value]
  have w5 := setWidths_sync g₁ X hn hlen hval
  have hA : ∀ l, linkAt (setWidths g₁) l = linkAt g₁ l := by
    intro l
    have hrec := (sameButLinkGeom_setWidths g₁).2.2 l
    have hsrc : (linkAt (setWidths g₁) l).source = (linkAt g₁ l).source := by rw [hrec]
    have htgt : (linkAt (setWidths g₁) l).target = (linkAt g₁ l).target := by rw [hrec]
    refine slink_ext hsrc htgt (setWidths_value g₁ l) ?_ ?_ (setWidths_keep_ty g₁ l)
    · rcases w5 l with ⟨hw, _⟩ | ⟨hw, _, _, _⟩
      · rw [hw, h, setTys_keep_width]
      · exact hw
    · rcases w5 l with ⟨_, hs⟩ | ⟨_, hs, _, _⟩
      · rw [hs, h, setTys_keep_sy]
      · exact hs
  have hAeq : setWidths g₁ = g₁ :=
    sgraph_ext (setWidths_nodes g₁) (links_ext (setWidths_links_length g₁) hA)
  rw [hAeq]
  have hBn : g₁.nodes = (setWidths X).nodes := by rw [hn, setWidths_nodes]
  have hBlen : g₁.links.length = (setWidths X).links.length := by
    rw [hlen, setWidths_links_length]
  have hBw : ∀ l, (linkAt g₁ l).width = (linkAt (setWidths X) l).width := by
    intro l
    rw [h, setTys_keep_width]
  have t5 := setTys_sync g₁ (setWidths X) hBn hBlen hBw
  have hB : ∀ l, linkAt (setTys g₁) l = linkAt g₁ l := by
    intro l
    have hrec := (sameButLinkGeom_setTys g₁).2.2 l
    have hsrc : (linkAt (setTys g₁) l).source = (linkAt g₁ l).source := by rw [hrec]
    have htgt : (linkAt (setTys g₁) l).target = (linkAt g₁ l).target := by rw [hrec]
    refine slink_ext hsrc htgt
      (setTys_keep_value g₁ l) (setTys_keep_width g₁ l) (setTys_keep_sy g₁ l) ?_
    rcases t5 l with ht | ⟨ht, _⟩
    · rw [ht, h]
    · exact ht
  exact sgraph_ext (setTys_nodes g₁) (links_ext (setTys_links_length g₁) hB)
/-! ### Idempotence of the full pipeline -/

theorem keep_computeNodeValues (x : SGraph) (m : ℕ) :
    (nodeAt (computeNodeValues x) m).id = (nodeAt x m).id ∧
    (nodeAt (computeNodeValues x) m).sourceLinks = (nodeAt x m).sourceLinks ∧
    (nodeAt (computeNodeValues x) m).targetLinks = (nodeAt x m).targetLinks := by
  rw [nodeAt_computeNodeValues]
  by_cases hm : m < x.nodes.length
  · rw [if_pos hm]
    exact ⟨rfl, rfl, rfl⟩
  · rw [if_neg hm, nodeAt_out_of_range hm]
    exact ⟨rfl, rfl, rfl⟩

theorem keep_positionNodesX (cfg : SConfig) (x : SGraph) (m : ℕ) :
    (nodeAt (positionNodesX cfg x) m).id = (nodeAt x m).id ∧
    (nodeAt (positionNodesX cfg x) m).value = (nodeAt x m).value ∧
    (nodeAt (positionNodesX cfg x) m).sourceLinks = (nodeAt x m).sourceLinks ∧
    (nodeAt (positionNodesX cfg x) m).targetLinks = (nodeAt x m).targetLinks := by
  rw [nodeAt_positionNodesX]
  by_cases hm : m < x.nodes.length
  · rw [if_pos hm]
    exact ⟨rfl, rfl, rfl, rfl⟩
  · rw [if_neg hm, nodeAt_out_of_range hm]
    exact ⟨rfl, rfl, rfl, rfl⟩

theorem initializeNodeY_keep (cfg : SConfig) (x : SGraph) (m : ℕ) :
    (nodeAt (initializeNodeY cfg x) m).id = (nodeAt x m).id ∧
    (nodeAt (initializeNodeY cfg x) m).depth = (nodeAt x m).depth ∧
    (nodeAt (initializeNodeY cfg x) m).value = (nodeAt x m).value ∧
    (nodeAt (initializeNodeY cfg x) m).x = (nodeAt x m).x ∧
    (nodeAt (initializeNodeY cfg x) m).width = (nodeAt x m).width ∧
    (nodeAt (initializeNodeY cfg x) m).sourceLinks = (nodeAt x m).sourceLinks ∧
    (nodeAt (initializeNodeY cfg x) m).targetLinks = (nodeAt x m).targetLinks := by
  have hrec := (sameButYH_initializeNodeY cfg x).2.2 m
  exact ⟨by rw [hrec], by rw [hrec], by rw [hrec], by rw [hrec], by rw [hrec],
    by rw [hrec], by rw [hrec]⟩

theorem sortBy_key_idem (f : ℕ → ℚ) (l : List ℕ) :
    sortBy (fun p q => decide (f p ≤ f q)) (sortBy (fun p q => decide (f p ≤ f q)) l) =
      sortBy (fun p q => decide (f p ≤ f q)) l := by
  apply sortBy_idem
  · intro p q
    rcases le_total (f p) (f q) with h | h
    · exact Or.inl (decide_eq_true h)
    · exact Or.inr (decide_eq_true h)
  · intro p q r hpq hqr
    exact decide_eq_true (le_trans (of_decide_eq_true hpq) (of_decide_eq_true hqr))

theorem stage4_relaxSync (cfg : SConfig) {a b : SGraph} (hsh : SameShape a b) :
    RelaxSync
      (initializeNodeY cfg (positionNodesX cfg (computeNodeValues (computeDepths cfg a))))
      (initializeNodeY cfg (positionNodesX cfg (computeNodeValues (computeDepths cfg b)))) := by
  have hdep1 : ∀ m, (nodeAt (computeDepths cfg b) m).depth =
      (nodeAt (computeDepths cfg a) m).depth := computeDepths_sync hsh
  have hsh1 : SameShape (computeDepths cfg a) (computeDepths cfg b) :=
    sameShape_trans (sameShape_trans (sameShape_symm (sameShape_computeDepths cfg a)) hsh)
      (sameShape_computeDepths cfg b)
  have hval2 : ∀ m, (nodeAt (computeNodeValues (computeDepths cfg b)) m).value =
      (nodeAt (computeNodeValues (computeDepths cfg a)) m).value :=
    computeNodeValues_sync hsh1
  have hdep2 : ∀ m, (nodeAt (computeNodeValues (computeDepths cfg b)) m).depth =
      (nodeAt (computeNodeValues (computeDepths cfg a)) m).depth := by
    intro m
    rw [depth_computeNodeValues, depth_computeNodeValues]
    exact hdep1 m
  have hlen2 : (computeNodeValues (computeDepths cfg b)).nodes.length =
      (computeNodeValues (computeDepths cfg a)).nodes.length := by
    rw [length_computeNodeValues, length_computeNodeValues]
    exact hsh1.1
  have hxw3 := @positionNodesX_sync cfg (computeNodeValues (computeDepths cfg a))
    (computeNodeValues (computeDepths cfg b)) hlen2 hdep2
  have hdep3 : ∀ m,
      (nodeAt (positionNodesX cfg (computeNodeValues (computeDepths cfg b))) m).depth =
      (nodeAt (positionNodesX cfg (computeNodeValues (computeDepths cfg a))) m).depth := by
    intro m
    rw [depth_positionNodesX, depth_positionNodesX]
    exact hdep2 m
  have hval3 : ∀ m,
      (nodeAt (positionNodesX cfg (computeNodeValues (computeDepths cfg b))) m).value =
      (nodeAt (positionNodesX cfg (computeNodeValues (computeDepths cfg a))) m).value := by
    intro m
    rw [(keep_positionNodesX cfg (computeNodeValues (computeDepths cfg b)) m).2.1,
        (keep_positionNodesX cfg (computeNodeValues (computeDepths cfg a)) m).2.1]
    exact hval2 m
  have hlen3 : (positionNodesX cfg (computeNodeValues (computeDepths cfg b))).nodes.length =
      (positionNodesX cfg (computeNodeValues (computeDepths cfg a))).nodes.length := by
    rw [length_positionNodesX, length_positionNodesX]
    exact hlen2
  have hyh4 := @initializeNodeY_sync cfg
    (positionNodesX cfg (computeNodeValues (computeDepths cfg a)))
    (positionNodesX cfg (computeNodeValues (computeDepths cfg b))) hlen3 hdep3 hval3
  have sA : SameShape a
      (initializeNodeY cfg (positionNodesX cfg (computeNodeValues (computeDepths cfg a)))) :=
    sameShape_trans (sameShape_trans (sameShape_trans (sameShape_computeDepths cfg a)
      (sameShape_computeNodeValues (computeDepths cfg a)))
      (sameShape_positionNodesX cfg (computeNodeValues (computeDepths cfg a))))
      (sameShape_of_sameButYH (sameButYH_initializeNodeY cfg
        (positionNodesX cfg (computeNodeValues (computeDepths cfg a)))))
  have sB : SameShape b
      (initializeNodeY cfg (positionNodesX cfg (computeNodeValues (computeDepths cfg b)))) :=
    sameShape_trans (sameShape_trans (sameShape_trans (sameShape_computeDepths cfg b)
      (sameShape_computeNodeValues (computeDepths cfg b)))
      (sameShape_positionNodesX cfg (computeNodeValues (computeDepths cfg b))))
      (sameShape_of_sameButYH (sameButYH_initializeNodeY cfg
        (positionNodesX cfg (computeNodeValues (computeDepths cfg b)))))
  constructor
  · exact sameShape_trans (sameShape_trans (sameShape_symm sA) hsh) sB
  · intro m
    refine ⟨?_, ?_, ?_, (hyh4 m).1, ?_, (hyh4 m).2⟩
    · rw [(initializeNodeY_keep cfg
          (positionNodesX cfg (computeNodeValues (computeDepths cfg b))) m).2.1,
        (initializeNodeY_keep cfg
          (positionNodesX cfg (computeNodeValues (computeDepths cfg a))) m).2.1]
      exact hdep3 m
    · rw [(initializeNodeY_keep cfg
          (positionNodesX cfg (computeNodeValues (computeDepths cfg b))) m).2.2.1,
        (initializeNodeY_keep cfg
          (positionNodesX cfg (computeNodeValues (computeDepths cfg a))) m).2.2.1]
      exact hval3 m
    · rw [(initializeNodeY_keep cfg
          (positionNodesX cfg (computeNodeValues (computeDepths cfg b))) m).2.2.2.1,
        (initializeNodeY_keep cfg
          (positionNodesX cfg (computeNodeValues (computeDepths cfg a))) m).2.2.2.1]
      exact (hxw3 m).1
    · rw [(initializeNodeY_keep cfg
          (positionNodesX cfg (computeNodeValues (computeDepths cfg b))) m).2.2.2.2.1,
        (initializeNodeY_keep cfg
          (positionNodesX cfg (computeNodeValues (computeDepths cfg a))) m).2.2.2.2.1]
      exact (hxw3 m).2

theorem stage4_keep (cfg : SConfig) (x : SGraph) :
    (initializeNodeY cfg (positionNodesX cfg (computeNodeValues (computeDepths cfg x)))).links =
      x.links ∧
    (initializeNodeY cfg (positionNodesX cfg
      (computeNodeValues (computeDepths cfg x)))).nodes.length = x.nodes.length ∧
    ∀ m, (nodeAt (initializeNodeY cfg (positionNodesX cfg
            (computeNodeValues (computeDepths cfg x)))) m).id = (nodeAt x m).id ∧
      (nodeAt (initializeNodeY cfg (positionNodesX cfg
        (computeNodeValues (computeDepths cfg x)))) m).sourceLinks =
          (nodeAt x m).sourceLinks ∧
      (nodeAt (initializeNodeY cfg (positionNodesX cfg
        (computeNodeValues (computeDepths cfg x)))) m).targetLinks =
          (nodeAt x m).targetLinks := by
  refine ⟨?_, ?_, ?_⟩
  · rw [(sameButYH_initializeNodeY cfg
        (positionNodesX cfg (computeNodeValues (computeDepths cfg x)))).1,
      links_positionNodesX, links_computeNodeValues, (computeDepths_keep cfg x).1]
  · rw [(sameButYH_initializeNodeY cfg
        (positionNodesX cfg (computeNodeValues (computeDepths cfg x)))).2.1,
      length_positionNodesX, length_computeNodeValues, length_computeDepths]
  · intro m
    refine ⟨?_, ?_, ?_⟩
    · rw [(initializeNodeY_keep cfg
          (positionNodesX cfg (computeNodeValues (computeDepths cfg x))) m).1,
        (keep_positionNodesX cfg (computeNodeValues (computeDepths cfg x)) m).1,
        (keep_computeNodeValues (computeDepths cfg x) m).1,
        ((computeDepths_keep cfg x).2 m).1]
    · rw [(initializeNodeY_keep cfg
          (positionNodesX cfg (computeNodeValues (computeDepths cfg x))) m).2.2.2.2.2.1,
        (keep_positionNodesX cfg (computeNodeValues (computeDepths cfg x)) m).2.2.1,
        (keep_computeNodeValues (computeDepths cfg x) m).2.1,
        ((computeDepths_keep cfg x).2 m).2.1]
    · rw [(initializeNodeY_keep cfg
          (positionNodesX cfg (computeNodeValues (computeDepths cfg x))) m).2.2.2.2.2.2,
        (keep_positionNodesX cfg (computeNodeValues (computeDepths cfg x)) m).2.2.2,
        (keep_computeNodeValues (computeDepths cfg x) m).2.2,
        ((computeDepths_keep cfg x).2 m).2.2]

/-- C3: calling `compute` twice in succession yields numerically identical
geometry: if `compute cfg g = some g₁`, then `compute cfg g₁ = some g₁`.  The
breadth-first depth assignment depends only on the adjacency sets, so the
re-sorted link lists reproduce identical depths; every later stage recomputes
exactly the stored values; the stable sort of the already-sorted link lists is
the identity; and the width and offset sweeps rewrite each touched link with
the value it already carries, while untouched links persist unchanged. -/
theorem c3_idempotent (cfg : SConfig) (g g₁ : SGraph)
    (hc : compute cfg g = some g₁) : compute cfg g₁ = some g₁ := by
  by_cases hne : g.nodes.isEmpty = true
  · rw [compute, if_pos hne] at hc
    obtain rfl : g = g₁ := Option.some_inj.mp hc
    rw [compute, if_pos hne]
  · obtain ⟨a₅, hrel, hg1⟩ := compute_decomp hne hc
    have hshape5 : SameShape g a₅ :=
      sameShape_trans (sameShape_trans (sameShape_trans (sameShape_trans
        (sameShape_computeDepths cfg g)
        (sameShape_computeNodeValues (computeDepths cfg g)))
        (sameShape_positionNodesX cfg (computeNodeValues (computeDepths cfg g))))
        (sameShape_of_sameButYH (sameButYH_initializeNodeY cfg
          (positionNodesX cfg (computeNodeValues (computeDepths cfg g))))))
        (sameShape_of_layoutFrame (layoutFrame_of_sameButY (relaxNodePositions_some hrel)))
    have hshape : SameShape g g₁ := by
      rw [hg1]
      exact sameShape_trans hshape5
        (sameShape_of_layoutFrame (layoutFrame_computeLinkOffsets a₅))
    have hne1 : ¬ g₁.nodes.isEmpty = true := by
      intro h1
      apply hne
      rw [List.isEmpty_iff] at h1 ⊢
      rw [← List.length_eq_zero] at h1 ⊢
      rw [← hshape.1]
      exact h1
    have hR4 := stage4_relaxSync cfg hshape
    obtain ⟨b₅, hrel2, hR5⟩ := relaxNodePositions_sync hR4 hrel
    have hkeepb := stage4_keep cfg g₁
    have hY := relaxNodePositions_some hrel2
    have hlinks_b5 : b₅.links = g₁.links := by
      rw [hY.1, hkeepb.1]
    have hlen_b5 : b₅.nodes.length = g₁.nodes.length := by
      rw [hY.2.1, hkeepb.2.1]
    have hid_b5 : ∀ m, (nodeAt b₅ m).id = (nodeAt g₁ m).id := by
      intro m
      have t : (nodeAt b₅ m).id = (nodeAt (initializeNodeY cfg (positionNodesX cfg
          (computeNodeValues (computeDepths cfg g₁)))) m).id := by
        rw [hY.2.2 m]
      rw [t, (hkeepb.2.2 m).1]
    have hsrc_b5 : ∀ m, (nodeAt b₅ m).sourceLinks = (nodeAt g₁ m).sourceLinks := by
      intro m
      have t : (nodeAt b₅ m).sourceLinks = (nodeAt (initializeNodeY cfg (positionNodesX cfg
          (computeNodeValues (computeDepths cfg g₁)))) m).sourceLinks := by
        rw [hY.2.2 m]
      rw [t, (hkeepb.2.2 m).2.1]
    have htgt_b5 : ∀ m, (nodeAt b₅ m).targetLinks = (nodeAt g₁ m).targetLinks := by
      intro m
      have t : (nodeAt b₅ m).targetLinks = (nodeAt (initializeNodeY cfg (positionNodesX cfg
          (computeNodeValues (computeDepths cfg g₁)))) m).targetLinks := by
        rw [hY.2.2 m]
      rw [t, (hkeepb.2.2 m).2.2]
    have hg1node : ∀ m, nodeAt g₁ m = nodeAt (sortNodeLinks a₅) m := by
      intro m
      apply nodeAt_congr_nodes
      rw [hg1]
      show (setTys (setWidths (sortNodeLinks a₅))).nodes = (sortNodeLinks a₅).nodes
      rw [setTys_nodes, setWidths_nodes]
    have hg1scal : ∀ m, (nodeAt g₁ m).id = (nodeAt a₅ m).id ∧
        (nodeAt g₁ m).value = (nodeAt a₅ m).value ∧
        (nodeAt g₁ m).depth = (nodeAt a₅ m).depth ∧
        (nodeAt g₁ m).x = (nodeAt a₅ m).x ∧
        (nodeAt g₁ m).y = (nodeAt a₅ m).y ∧
        (nodeAt g₁ m).width = (nodeAt a₅ m).width ∧
        (nodeAt g₁ m).height = (nodeAt a₅ m).height := by
      intro m
      rw [hg1node m, sortNodeLinks_char a₅ m]
      exact ⟨rfl, rfl, rfl, rfl, rfl, rfl, rfl⟩
    have hg1src : ∀ m, (nodeAt g₁ m).sourceLinks =
        sortBy (fun p q => decide ((nodeAt a₅ (linkAt a₅ p).target).y ≤
          (nodeAt a₅ (linkAt a₅ q).target).y)) (nodeAt a₅ m).sourceLinks := by
      intro m
      rw [hg1node m, sortNodeLinks_char a₅ m]
    have hg1tgt : ∀ m, (nodeAt g₁ m).targetLinks =
        sortBy (fun p q => decide ((nodeAt a₅ (linkAt a₅ p).source).y ≤
          (nodeAt a₅ (linkAt a₅ q).source).y)) (nodeAt a₅ m).targetLinks := by
      intro m
      rw [hg1node m, sortNodeLinks_char a₅ m]
    have hcmpS : (fun p q => decide ((nodeAt b₅ (linkAt b₅ p).target).y ≤
        (nodeAt b₅ (linkAt b₅ q).target).y)) =
        (fun p q => decide ((nodeAt a₅ (linkAt a₅ p).target).y ≤
          (nodeAt a₅ (linkAt a₅ q).target).y)) := by
      funext p q
      rw [show (linkAt b₅ p).target = (linkAt a₅ p).target from (hR5.1.2.2.1 p).2.1,
        show (linkAt b₅ q).target = (linkAt a₅ q).target from (hR5.1.2.2.1 q).2.1,
        (hR5.2 ((linkAt a₅ p).target)).2.2.2.1, (hR5.2 ((linkAt a₅ q).target)).2.2.2.1]
    have hcmpT : (fun p q => decide ((nodeAt b₅ (linkAt b₅ p).source).y ≤
        (nodeAt b₅ (linkAt b₅ q).source).y)) =
        (fun p q => decide ((nodeAt a₅ (linkAt a₅ p).source).y ≤
          (nodeAt a₅ (linkAt a₅ q).source).y)) := by
      funext p q
      rw [show (linkAt b₅ p).source = (linkAt a₅ p).source from (hR5.1.2.2.1 p).1,
        show (linkAt b₅ q).source = (linkAt a₅ q).source from (hR5.1.2.2.1 q).1,
        (hR5.2 ((linkAt a₅ p).source)).2.2.2.1, (hR5.2 ((linkAt a₅ q).source)).2.2.2.1]
    have hsort : sortNodeLinks b₅ = g₁ := by
      apply sgraph_ext
      · apply nodes_ext
        · rw [(sameButLinkOrder_sortNodeLinks b₅).2.1, hlen_b5]
        · intro m
          rw [sortNodeLinks_char b₅ m]
          refine snode_ext ?_ ?_ ?_ ?_ ?_ ?_ ?_ ?_ ?_
          · exact ((hR5.1.2.2.2 m).1).trans ((hg1scal m).1).symm
          · exact ((hR5.2 m).2.1).trans ((hg1scal m).2.1).symm
          · exact ((hR5.2 m).1).trans ((hg1scal m).2.2.1).symm
          · exact ((hR5.2 m).2.2.1).trans ((hg1scal m).2.2.2.1).symm
          · exact ((hR5.2 m).2.2.2.1).trans ((hg1scal m).2.2.2.2.1).symm
          · exact ((hR5.2 m).2.2.2.2.1).trans ((hg1scal m).2.2.2.2.2.1).symm
          · exact ((hR5.2 m).2.2.2.2.2).trans ((hg1scal m).2.2.2.2.2.2).symm
          · show sortBy (fun p q => decide ((nodeAt b₅ (linkAt b₅ p).target).y ≤
                (nodeAt b₅ (linkAt b₅ q).target).y)) (nodeAt b₅ m).sourceLinks =
              (nodeAt g₁ m).sourceLinks
            rw [hcmpS, hsrc_b5 m, hg1src m]
            exact sortBy_key_idem (fun p => (nodeAt a₅ (linkAt a₅ p).target).y)
              (nodeAt a₅ m).sourceLinks
          · show sortBy (fun p q => decide ((nodeAt b₅ (linkAt b₅ p).source).y ≤
                (nodeAt b₅ (linkAt b₅ q).source).y)) (nodeAt b₅ m).targetLinks =
              (nodeAt g₁ m).targetLinks
            rw [hcmpT, htgt_b5 m, hg1tgt m]
            exact sortBy_key_idem (fun p => (nodeAt a₅ (linkAt a₅ p).source).y)
              (nodeAt a₅ m).targetLinks
      · rw [(sameButLinkOrder_sortNodeLinks b₅).1, hlinks_b5]
    have hgx : g₁ = setTys (setWidths (sortNodeLinks a₅)) := by
      rw [hg1, computeLinkOffsets]
    have hfix := offsets_fix hgx
    rw [compute, if_neg hne1]
    show (relaxNodePositions cfg (initializeNodeY cfg (positionNodesX cfg
        (computeNodeValues (computeDepths cfg g₁)))) >>=
      fun g₅ => some (computeLinkOffsets g₅)) = some g₁
    rw [hrel2]
    show some (computeLinkOffsets b₅) = some g₁
    rw [computeLinkOffsets, hsort, hfix]

/-- C3 witness: on the concrete two-node pair graph the layout succeeds, and
recomputing on the returned layout reproduces it exactly. -/
theorem c3_witness :
    compute cfgZeroIter gPair = some gPairOut ∧
    compute cfgZeroIter gPairOut = some gPairOut :=
  ⟨by decide, c3_idempotent cfgZeroIter gPair gPairOut (by decide)⟩
end Sankey
